import Mathlib

/-!
NBodySimulator, the physics core.

A shallow embedding of `vec2.hpp`, `body2d.hpp` and `src/nbody_system2d.cpp`.

The scalar type `Real` of the program (`real_type.hpp`) is a type parameter `K`
carrying the field operations and the order; the library function `std::sqrt`
is a parameter `sqrt : K → K`.  The real-number model of the program is obtained
at `K := ℝ`, `sqrt := Real.sqrt`.  Counted `for` loops are folds over the index
range they run through, `std::vector` is `List`, and an in-place update of
`m_bodies[i]` is `List.modify`.  A floating-point division by zero does not
trap, so every function is total; but where the program gets `inf` or `NaN`
from a zero divisor, the quotient of the field is 0.  The values a run divides
by are therefore tracked separately, in the traced functions, and the checked
functions give a run a value only when none of its divisors is zero: what is
stated about the value of a step is stated for such runs.
-/

namespace NBody

/-! ## vec2.hpp -/

/-- The class `Vec2`: a pair of scalars. -/
structure Vec2 (K : Type) where
  x : K
  y : K
deriving DecidableEq

/-- The class `Body2D`: mass, position, velocity and force accumulator. -/
structure Body2D (K : Type) where
  m : K
  r : Vec2 K
  v : Vec2 K
  f : Vec2 K
deriving DecidableEq

/-- The class `NBodySystem2D`: its three private members. -/
structure NBodySystem2D (K : Type) where
  m_bodies : List (Body2D K)
  m_G : K
  m_eps2 : K
deriving DecidableEq

section Core

variable {K : Type} [LinearOrderedField K]

/-- `Vec2::Vec2()`: the zero vector. -/
def Vec2.zero : Vec2 K := ⟨0, 0⟩

/-- `Vec2::add`. -/
def Vec2.add (a v : Vec2 K) : Vec2 K := ⟨a.x + v.x, a.y + v.y⟩

/-- `Vec2::sub`. -/
def Vec2.sub (a v : Vec2 K) : Vec2 K := ⟨a.x - v.x, a.y - v.y⟩

/-- `Vec2::scale`. -/
def Vec2.scale (a : Vec2 K) (k : K) : Vec2 K := ⟨k * a.x, k * a.y⟩

/-- `Vec2::norm`. -/
def Vec2.norm (sqrt : K → K) (a : Vec2 K) : K := sqrt (a.x * a.x + a.y * a.y)

/-- The zero of the vectors is `Vec2::Vec2()`. -/
instance Vec2.instZero : Zero (Vec2 K) := ⟨Vec2.zero⟩

/-- The sum of two vectors is `Vec2::add`. -/
instance Vec2.instAdd : Add (Vec2 K) := ⟨Vec2.add⟩

/-- The opposite of a vector, componentwise. -/
instance Vec2.instNeg : Neg (Vec2 K) := ⟨fun a => ⟨-a.x, -a.y⟩⟩

/-- Vectors form a commutative group under `Vec2::add`: the structure in which
accumulated forces are summed. -/
instance Vec2.instAddCommGroup : AddCommGroup (Vec2 K) where
  nsmul := nsmulRec
  zsmul := zsmulRec
  add_assoc a b c := by
    show Vec2.add (Vec2.add a b) c = Vec2.add a (Vec2.add b c)
    simp [Vec2.add, add_assoc]
  zero_add a := by
    show Vec2.add Vec2.zero a = a
    simp [Vec2.add, Vec2.zero]
  add_zero a := by
    show Vec2.add a Vec2.zero = a
    simp [Vec2.add, Vec2.zero]
  add_comm a b := by
    show Vec2.add a b = Vec2.add b a
    simp [Vec2.add, add_comm]
  neg_add_cancel a := by
    show Vec2.add ⟨-a.x, -a.y⟩ a = Vec2.zero
    simp [Vec2.add, Vec2.zero]

/-! ## body2d.hpp -/

/-- `Body2D::Body2D()`: mass zero, everything else the zero vector. -/
def Body2D.empty : Body2D K := ⟨0, Vec2.zero, Vec2.zero, Vec2.zero⟩

/-- `Body2D::Body2D(mass, position, velocity)`: the force starts at zero. -/
def Body2D.make (mass : K) (position velocity : Vec2 K) : Body2D K :=
  ⟨mass, position, velocity, Vec2.zero⟩

/-- `Body2D::clearForce`. -/
def Body2D.clearForce (b : Body2D K) : Body2D K :=
  { b with f := ⟨0, 0⟩ }

/-- `Body2D::addForce`. -/
def Body2D.addForce (b : Body2D K) (F : Vec2 K) : Body2D K :=
  { b with f := ⟨b.f.x + F.x, b.f.y + F.y⟩ }

/-! ## nbody_system2d.cpp -/

/-- The loop `for (i = lo; i < hi; ++i) body(i)` run on the state `init`. -/
def forLoop {σ : Type} (lo hi : Nat) (body : Nat → σ → σ) (init : σ) : σ :=
  (List.range' lo (hi - lo)).foldl (fun acc i => body i acc) init

/-- `m_bodies.size()`. -/
def NBodySystem2D.bodyCount (s : NBodySystem2D K) : Nat := s.m_bodies.length

/-- Reading `m_bodies[i]`.  Every index the loops read is in range; out of
range the value is `Body2D()`. -/
def NBodySystem2D.bodyAt (s : NBodySystem2D K) (i : Nat) : Body2D K :=
  s.m_bodies.getD i Body2D.empty

/-- Updating `m_bodies[i]` in place by `g`. -/
def NBodySystem2D.modifyBody (s : NBodySystem2D K) (i : Nat) (g : Body2D K → Body2D K) :
    NBodySystem2D K :=
  { s with m_bodies := List.modify g i s.m_bodies }

/-- The squared distance `dist2` of the pair `(i, j)`, softening included
(lines 129-132 and 175-176). -/
def NBodySystem2D.dist2 (s : NBodySystem2D K) (i j : Nat) : K :=
  let dr := (s.bodyAt j).r.sub (s.bodyAt i).r
  dr.x * dr.x + dr.y * dr.y + s.m_eps2

/-- The vector `F` the pair loop of `computeForces` computes for the pair
`(i, j)` (lines 129-141). -/
def NBodySystem2D.pairForce (sqrt : K → K) (s : NBodySystem2D K) (i j : Nat) : Vec2 K :=
  let dr := (s.bodyAt j).r.sub (s.bodyAt i).r
  let dist2 := dr.x * dr.x + dr.y * dr.y + s.m_eps2
  let invDist := 1 / sqrt dist2
  let invDist3 := invDist * invDist * invDist
  let forceMag := s.m_G * (s.bodyAt i).m * (s.bodyAt j).m * invDist3
  dr.scale forceMag

/-- The body of the pair loop of `computeForces` (lines 129-145): `F` goes to
body `i`, `F.scale(-1)` to body `j`. -/
def NBodySystem2D.pairStep (sqrt : K → K) (i j : Nat) (s : NBodySystem2D K) :
    NBodySystem2D K :=
  let F := s.pairForce sqrt i j
  (s.modifyBody i (fun b => b.addForce F)).modifyBody j (fun b => b.addForce (F.scale (-1)))

/-- The first loop of `computeForces` (lines 122-124). -/
def NBodySystem2D.clearForces (s : NBodySystem2D K) : NBodySystem2D K :=
  forLoop 0 s.bodyCount (fun i t => t.modifyBody i Body2D.clearForce) s

/-- The pair loop of `computeForces` (lines 126-147), over `n` bodies. -/
def NBodySystem2D.pairLoop (sqrt : K → K) (n : Nat) (s : NBodySystem2D K) :
    NBodySystem2D K :=
  forLoop 0 n (fun i t => forLoop (i + 1) n (fun j u => u.pairStep sqrt i j) t) s

/-- `NBodySystem2D::computeForces`. -/
def NBodySystem2D.computeForces (sqrt : K → K) (s : NBodySystem2D K) : NBodySystem2D K :=
  let n := s.bodyCount
  (s.clearForces).pairLoop sqrt n

/-- `NBodySystem2D::totalEnergy`. -/
def NBodySystem2D.totalEnergy (sqrt : K → K) (s : NBodySystem2D K) : K :=
  let n := s.bodyCount
  let kinetic := forLoop 0 n (fun i kin =>
    let b := s.bodyAt i
    let v2 := b.v.x * b.v.x + b.v.y * b.v.y
    kin + 0.5 * b.m * v2) (0 : K)
  let potential := forLoop 0 n (fun i pot =>
    forLoop (i + 1) n (fun j p =>
      let dr := (s.bodyAt j).r.sub (s.bodyAt i).r
      let dist2 := dr.x * dr.x + dr.y * dr.y + s.m_eps2
      let dist := sqrt dist2
      if dist > 0 then p - s.m_G * (s.bodyAt i).m * (s.bodyAt j).m / dist else p) pot) (0 : K)
  kinetic + potential

/-- The per-body update of `stepEuler` (lines 199-210). -/
def Body2D.eulerUpdate (dt : K) (b : Body2D K) : Body2D K :=
  let ax := b.f.x / b.m
  let ay := b.f.y / b.m
  let r1 : Vec2 K := ⟨b.r.x + b.v.x * dt, b.r.y + b.v.y * dt⟩
  let v1 : Vec2 K := ⟨b.v.x + ax * dt, b.v.y + ay * dt⟩
  { b with r := r1, v := v1 }

/-- `NBodySystem2D::stepEuler`. -/
def NBodySystem2D.stepEuler (sqrt : K → K) (dt : K) (s : NBodySystem2D K) :
    NBodySystem2D K :=
  let s1 := s.computeForces sqrt
  let n := s1.bodyCount
  forLoop 0 n (fun i t => t.modifyBody i (Body2D.eulerUpdate dt)) s1

/-- The per-body update of `stepSemiEuler` (lines 226-237). -/
def Body2D.semiEulerUpdate (dt : K) (b : Body2D K) : Body2D K :=
  let ax := b.f.x / b.m
  let ay := b.f.y / b.m
  let v1 : Vec2 K := ⟨b.v.x + ax * dt, b.v.y + ay * dt⟩
  let r1 : Vec2 K := ⟨b.r.x + v1.x * dt, b.r.y + v1.y * dt⟩
  { b with r := r1, v := v1 }

/-- `NBodySystem2D::stepSemiEuler`. -/
def NBodySystem2D.stepSemiEuler (sqrt : K → K) (dt : K) (s : NBodySystem2D K) :
    NBodySystem2D K :=
  let s1 := s.computeForces sqrt
  let n := s1.bodyCount
  forLoop 0 n (fun i t => t.modifyBody i (Body2D.semiEulerUpdate dt)) s1

/-- The loop of `stepVerlet` that stores the old accelerations (lines 259-264). -/
def NBodySystem2D.storeAccel (s : NBodySystem2D K) (n : Nat) : List (Vec2 K) :=
  forLoop 0 n (fun i a =>
    let b := s.bodyAt i
    a.set i ⟨b.f.x / b.m, b.f.y / b.m⟩) (List.replicate n Vec2.zero)

/-- The position update of `stepVerlet` for one body (lines 268-271). -/
def Body2D.verletPosition (dt : K) (a : Vec2 K) (b : Body2D K) : Body2D K :=
  { b with r := ⟨b.r.x + (b.v.x * dt + 0.5 * a.x * dt * dt),
                 b.r.y + (b.v.y * dt + 0.5 * a.y * dt * dt)⟩ }

/-- The velocity update of `stepVerlet` for one body (lines 277-282). -/
def Body2D.verletVelocity (dt : K) (a : Vec2 K) (b : Body2D K) : Body2D K :=
  let aNew : Vec2 K := ⟨b.f.x / b.m, b.f.y / b.m⟩
  { b with v := ⟨b.v.x + 0.5 * (a.x + aNew.x) * dt, b.v.y + 0.5 * (a.y + aNew.y) * dt⟩ }

/-- `NBodySystem2D::stepVerlet`. -/
def NBodySystem2D.stepVerlet (sqrt : K → K) (dt : K) (s : NBodySystem2D K) :
    NBodySystem2D K :=
  let n := s.bodyCount
  if n = 0 then s
  else
    let s1 := s.computeForces sqrt
    let aOld := s1.storeAccel n
    let s2 := forLoop 0 n (fun i t =>
      t.modifyBody i (Body2D.verletPosition dt (aOld.getD i Vec2.zero))) s1
    let s3 := s2.computeForces sqrt
    forLoop 0 n (fun i t =>
      t.modifyBody i (Body2D.verletVelocity dt (aOld.getD i Vec2.zero))) s3

/-! ## The divisors of a run

The same functions once more, each carrying along the list of the values it
divides by, in the order of the divisions: `sqrt(dist2)` at line 134, `b.m` at
lines 201-202, 228-229, 262-263 and 279-280, `dist` at line 180. -/

/-- The pair-loop body of `computeForces`, recording the divisor `sqrt(dist2)`
of `invDist` (line 134). -/
def pairStepTraced (sqrt : K → K) (i j : Nat) (st : NBodySystem2D K × List K) :
    NBodySystem2D K × List K :=
  (st.1.pairStep sqrt i j, st.2 ++ [sqrt (st.1.dist2 i j)])

/-- `computeForces`, with the divisors appended to the list. -/
def computeForcesTraced (sqrt : K → K) (st : NBodySystem2D K × List K) :
    NBodySystem2D K × List K :=
  let n := st.1.bodyCount
  forLoop 0 n (fun i u => forLoop (i + 1) n (fun j w => pairStepTraced sqrt i j w) u)
    (st.1.clearForces, st.2)

/-- A per-body update that divides by the mass of the body, twice (once for
each component of the acceleration). -/
def massStepTraced (g : Nat → Body2D K → Body2D K) (i : Nat) (st : NBodySystem2D K × List K) :
    NBodySystem2D K × List K :=
  (st.1.modifyBody i (g i), st.2 ++ [(st.1.bodyAt i).m, (st.1.bodyAt i).m])

/-- `stepEuler`, with its divisors. -/
def stepEulerTraced (sqrt : K → K) (dt : K) (s : NBodySystem2D K) : NBodySystem2D K × List K :=
  let st := computeForcesTraced sqrt (s, [])
  let n := st.1.bodyCount
  forLoop 0 n (massStepTraced (fun _ => Body2D.eulerUpdate dt)) st

/-- `stepSemiEuler`, with its divisors. -/
def stepSemiEulerTraced (sqrt : K → K) (dt : K) (s : NBodySystem2D K) :
    NBodySystem2D K × List K :=
  let st := computeForcesTraced sqrt (s, [])
  let n := st.1.bodyCount
  forLoop 0 n (massStepTraced (fun _ => Body2D.semiEulerUpdate dt)) st

/-- `stepVerlet`, with its divisors. -/
def stepVerletTraced (sqrt : K → K) (dt : K) (s : NBodySystem2D K) :
    NBodySystem2D K × List K :=
  let n := s.bodyCount
  if n = 0 then (s, [])
  else
    let st1 := computeForcesTraced sqrt (s, [])
    let aOld := st1.1.storeAccel n
    let log1 := forLoop 0 n (fun i l => l ++ [(st1.1.bodyAt i).m, (st1.1.bodyAt i).m]) st1.2
    let s2 := forLoop 0 n (fun i t =>
      t.modifyBody i (Body2D.verletPosition dt (aOld.getD i Vec2.zero))) st1.1
    let st3 := computeForcesTraced sqrt (s2, log1)
    forLoop 0 n (massStepTraced (fun i => Body2D.verletVelocity dt (aOld.getD i Vec2.zero))) st3

/-- `totalEnergy`, with its divisors: the potential loop divides by `dist`
only inside the guard `dist > 0`. -/
def totalEnergyTraced (sqrt : K → K) (s : NBodySystem2D K) : K × List K :=
  let n := s.bodyCount
  let kinetic := forLoop 0 n (fun i kin =>
    let b := s.bodyAt i
    let v2 := b.v.x * b.v.x + b.v.y * b.v.y
    kin + 0.5 * b.m * v2) (0 : K)
  let potential := forLoop 0 n (fun i pot =>
    forLoop (i + 1) n (fun j (p : K × List K) =>
      let dr := (s.bodyAt j).r.sub (s.bodyAt i).r
      let dist2 := dr.x * dr.x + dr.y * dr.y + s.m_eps2
      let dist := sqrt dist2
      if dist > 0 then (p.1 - s.m_G * (s.bodyAt i).m * (s.bodyAt j).m / dist, p.2 ++ [dist])
      else p) pot) ((0 : K), [])
  (kinetic + potential.1, potential.2)

/-- The value of a traced run in the real-number model: the final state when no
divisor of the run is zero, and none otherwise (the program then computes with
`inf` and `NaN`, which have no value in the model). -/
def checkedRun (st : NBodySystem2D K × List K) : Option (NBodySystem2D K) :=
  if (0 : K) ∈ st.2 then none else some st.1

/-- `computeForces`, with a value only when it divides by no zero. -/
def computeForcesChecked (sqrt : K → K) (s : NBodySystem2D K) : Option (NBodySystem2D K) :=
  checkedRun (computeForcesTraced sqrt (s, []))

/-- `stepEuler`, with a value only when it divides by no zero. -/
def stepEulerChecked (sqrt : K → K) (dt : K) (s : NBodySystem2D K) :
    Option (NBodySystem2D K) :=
  checkedRun (stepEulerTraced sqrt dt s)

/-- `stepSemiEuler`, with a value only when it divides by no zero. -/
def stepSemiEulerChecked (sqrt : K → K) (dt : K) (s : NBodySystem2D K) :
    Option (NBodySystem2D K) :=
  checkedRun (stepSemiEulerTraced sqrt dt s)

/-- `stepVerlet`, with a value only when it divides by no zero. -/
def stepVerletChecked (sqrt : K → K) (dt : K) (s : NBodySystem2D K) :
    Option (NBodySystem2D K) :=
  checkedRun (stepVerletTraced sqrt dt s)

/-- No two bodies of the system are at the same place, or the softening is
strictly positive. -/
def Separated (s : NBodySystem2D K) : Prop :=
  0 < s.m_eps2 ∨ ∀ i j, i < j → j < s.bodyCount → (s.bodyAt i).r ≠ (s.bodyAt j).r

/-- Two bodies of mass 1 at rest at the same place, with `G = 1` and no
softening. -/
def coincidentPair : NBodySystem2D K :=
  ⟨[Body2D.make 1 ⟨0, 0⟩ ⟨0, 0⟩, Body2D.make 1 ⟨0, 0⟩ ⟨0, 0⟩], 1, 0⟩

/-- Two bodies of mass 1 at rest at `(0,0)` and `(1,0)`, with `G = 1` and the
softening `eps2 = 1`. -/
def softenedPair : NBodySystem2D K :=
  ⟨[Body2D.make 1 ⟨0, 0⟩ ⟨0, 0⟩, Body2D.make 1 ⟨1, 0⟩ ⟨0, 0⟩], 1, 1⟩

/-! ## Specification-side notions -/

/-- The systems `s` and `t` have the same parameters and the same number of
bodies, and at every index the same mass, position and velocity: they differ
at most in the force accumulators. -/
def SameFrame (s t : NBodySystem2D K) : Prop :=
  t.m_G = s.m_G ∧ t.m_eps2 = s.m_eps2 ∧ t.bodyCount = s.bodyCount ∧
    ∀ k, (t.bodyAt k).m = (s.bodyAt k).m ∧ (t.bodyAt k).r = (s.bodyAt k).r ∧
      (t.bodyAt k).v = (s.bodyAt k).v

/-- What one pass of the pair-loop body for the pair `(i, j)` adds to the
accumulator of body `k`. -/
def pairContribution (sqrt : K → K) (s : NBodySystem2D K) (i j k : Nat) : Vec2 K :=
  if k = i then s.pairForce sqrt i j else if k = j then -(s.pairForce sqrt i j) else 0

/-- The softened Newtonian force of body `j` on body `i`:
`G * m_i * m_j * (r_j - r_i) * (1 / sqrt (|r_j - r_i|^2 + eps2))^3`. -/
def newtonForce (sqrt : K → K) (s : NBodySystem2D K) (i j : Nat) : Vec2 K :=
  let ri := (s.bodyAt i).r
  let rj := (s.bodyAt j).r
  let c := s.m_G * (s.bodyAt i).m * (s.bodyAt j).m *
    (1 / sqrt ((rj.x - ri.x) ^ 2 + (rj.y - ri.y) ^ 2 + s.m_eps2)) ^ 3
  ⟨c * (rj.x - ri.x), c * (rj.y - ri.y)⟩

/-- The full force on body `i`: the sum of `newtonForce` over all other bodies. -/
def netForce (sqrt : K → K) (s : NBodySystem2D K) (i : Nat) : Vec2 K :=
  ∑ j ∈ (Finset.range s.bodyCount).erase i, newtonForce sqrt s i j

/-- The systems `s` and `t` have the same parameters and the same number of
bodies, and at every index the same mass and position. -/
def SameGeometry (s t : NBodySystem2D K) : Prop :=
  t.m_G = s.m_G ∧ t.m_eps2 = s.m_eps2 ∧ t.bodyCount = s.bodyCount ∧
    ∀ k, (t.bodyAt k).m = (s.bodyAt k).m ∧ (t.bodyAt k).r = (s.bodyAt k).r

/-- The system `stepVerlet` evaluates the second forces on: every body moved to
`r + v*dt + 0.5*aOld*dt^2`, where `aOld = f/m` with `f` the accumulator that
`computeForces` produces on the state before the step. -/
def verletMoved (sqrt : K → K) (dt : K) (s : NBodySystem2D K) : NBodySystem2D K :=
  { s with m_bodies := (s.computeForces sqrt).m_bodies.map (fun b =>
      { b with r := ⟨b.r.x + b.v.x * dt + 0.5 * (b.f.x / b.m) * dt ^ 2,
                     b.r.y + b.v.y * dt + 0.5 * (b.f.y / b.m) * dt ^ 2⟩ }) }

/-- The system of the single-step unit test: `G = 1`, `eps2 = 0`, two bodies of
mass 1 at rest at `(0,0)` and `(1,0)`. -/
def unitPair : NBodySystem2D K :=
  ⟨[Body2D.make 1 ⟨0, 0⟩ ⟨0, 0⟩, Body2D.make 1 ⟨1, 0⟩ ⟨0, 0⟩], 1, 0⟩

/-- `NBodySystem2D::stepVerlet` with the two calls of `computeForces` replaced by
calls of an arbitrary procedure `forces`: what the step does with a force
evaluation, whatever that evaluation is. -/
def NBodySystem2D.stepVerletWith (forces : NBodySystem2D K → NBodySystem2D K) (dt : K)
    (s : NBodySystem2D K) : NBodySystem2D K :=
  let n := s.bodyCount
  if n = 0 then s
  else
    let s1 := forces s
    let aOld := s1.storeAccel n
    let s2 := forLoop 0 n (fun i t =>
      t.modifyBody i (Body2D.verletPosition dt (aOld.getD i Vec2.zero))) s1
    let s3 := forces s2
    forLoop 0 n (fun i t =>
      t.modifyBody i (Body2D.verletVelocity dt (aOld.getD i Vec2.zero))) s3

/-- A single body `b` on its own, with the parameters `G` and `eps2`. -/
def loneBody (b : Body2D K) (G eps2 : K) : NBodySystem2D K := ⟨[b], G, eps2⟩

/-- The system of exactly two bodies `b0`, `b1` with the parameters `G`, `eps2`. -/
def twoBodies (b0 b1 : Body2D K) (G eps2 : K) : NBodySystem2D K := ⟨[b0, b1], G, eps2⟩

/-- The force of the pair `(i, j)` as the header comment of `computeForces`
writes it (nbody_system2d.h, line 105):
`F = G * m_i * m_j * r_hat / (|r|^2 + eps2)^(3/2)` with `r = r_j - r_i` and
`r_hat = r / |r|`, the power `3/2` being the cube of the square root. -/
def headerForce (sqrt : K → K) (s : NBodySystem2D K) (i j : Nat) : Vec2 K :=
  let r := (s.bodyAt j).r.sub (s.bodyAt i).r
  let len := r.norm sqrt
  let rhat : Vec2 K := ⟨r.x / len, r.y / len⟩
  let c := s.m_G * (s.bodyAt i).m * (s.bodyAt j).m / (sqrt (len ^ 2 + s.m_eps2)) ^ 3
  ⟨c * rhat.x, c * rhat.y⟩

/-- Two bodies of mass 1 at rest at `(0,0)` and `(2,0)`, with `G = 1` and no
softening. -/
def farPair : NBodySystem2D K :=
  ⟨[Body2D.make 1 ⟨0, 0⟩ ⟨0, 0⟩, Body2D.make 1 ⟨2, 0⟩ ⟨0, 0⟩], 1, 0⟩

/-- The distance `d = |r_j - r_i|` between two bodies, without softening. -/
def separation (sqrt : K → K) (bi bj : Body2D K) : K :=
  sqrt ((bj.r.x - bi.r.x) ^ 2 + (bj.r.y - bi.r.y) ^ 2)

/-- The unsoftened Newtonian force of body `bj` on body `bi`:
`G * m_i * m_j * (r_j - r_i) / d^3` with `d` the distance between the two. -/
def unsoftenedForce (sqrt : K → K) (G : K) (bi bj : Body2D K) : Vec2 K :=
  ⟨G * bi.m * bj.m * (bj.r.x - bi.r.x) / separation sqrt bi bj ^ 3,
   G * bi.m * bj.m * (bj.r.y - bi.r.y) / separation sqrt bi bj ^ 3⟩

/-- The kinetic energy of body `i`, as the first loop of `totalEnergy` adds it. -/
def kineticTerm (s : NBodySystem2D K) (i : Nat) : K :=
  0.5 * (s.bodyAt i).m * ((s.bodyAt i).v.x * (s.bodyAt i).v.x + (s.bodyAt i).v.y * (s.bodyAt i).v.y)

/-- The potential energy of the pair `(i, j)`, as the second loop of
`totalEnergy` adds it: nothing unless the computed distance is positive. -/
def potentialTerm (sqrt : K → K) (s : NBodySystem2D K) (i j : Nat) : K :=
  if sqrt (s.dist2 i j) > 0 then
    -(s.m_G * (s.bodyAt i).m * (s.bodyAt j).m / sqrt (s.dist2 i j))
  else 0

/-- The system `t` is the system `s` with its bodies reordered by `σ`: same
parameters, same number of bodies, and the body at index `i` of `t` is the body
at index `σ i` of `s`. -/
def ReorderedBy (σ : Nat → Nat) (s t : NBodySystem2D K) : Prop :=
  t.m_G = s.m_G ∧ t.m_eps2 = s.m_eps2 ∧ t.bodyCount = s.bodyCount ∧
    ∀ i, i < s.bodyCount → t.bodyAt i = s.bodyAt (σ i)

/-- The permutation of the indices that keeps `0` and acts as `σ` on the
indices after it: `k + 1` goes to `σ k + 1`. -/
def shiftPerm (σ : Equiv.Perm Nat) : Equiv.Perm Nat where
  toFun k := match k with
    | 0 => 0
    | k + 1 => σ k + 1
  invFun k := match k with
    | 0 => 0
    | k + 1 => σ.symm k + 1
  left_inv k := by cases k <;> simp
  right_inv k := by cases k <;> simp

/-- The unit pair with its two bodies in the other order. -/
def swappedPair : NBodySystem2D K :=
  ⟨[Body2D.make 1 ⟨1, 0⟩ ⟨0, 0⟩, Body2D.make 1 ⟨0, 0⟩ ⟨0, 0⟩], 1, 0⟩

/-! ## Construction and accessors of `NBodySystem2D` (lines 27-107) -/

/-- `NBodySystem2D::NBodySystem2D()`: no bodies, `G = 1`, `eps2 = 0`. -/
def NBodySystem2D.init : NBodySystem2D K := ⟨[], 1, 0⟩

/-- `NBodySystem2D::NBodySystem2D(GValue, eps2Value)`. -/
def NBodySystem2D.make (GValue eps2Value : K) : NBodySystem2D K := ⟨[], GValue, eps2Value⟩

/-- `NBodySystem2D::setG`. -/
def NBodySystem2D.setG (s : NBodySystem2D K) (GValue : K) : NBodySystem2D K :=
  { s with m_G := GValue }

/-- `NBodySystem2D::setEps2`. -/
def NBodySystem2D.setEps2 (s : NBodySystem2D K) (eps2Value : K) : NBodySystem2D K :=
  { s with m_eps2 := eps2Value }

/-- `NBodySystem2D::getG`. -/
def NBodySystem2D.getG (s : NBodySystem2D K) : K := s.m_G

/-- `NBodySystem2D::getEps2`. -/
def NBodySystem2D.getEps2 (s : NBodySystem2D K) : K := s.m_eps2

/-- `NBodySystem2D::addBody`: `m_bodies.push_back(body)`. -/
def NBodySystem2D.addBody (s : NBodySystem2D K) (body : Body2D K) : NBodySystem2D K :=
  { s with m_bodies := s.m_bodies ++ [body] }

/-- `NBodySystem2D::bodies`. -/
def NBodySystem2D.bodies (s : NBodySystem2D K) : List (Body2D K) := s.m_bodies

/-! ## simulation_config.cpp -/

/-- The class `SimulationConfig`: its public members (`long long` and `int` are
integers, `std::string` is `String`). A member of type `Real` holds what
`std::stold` made of the text of the config file (lines 55, 64, 67): a number,
or `none` for the NaN it returns for the text `nan`. -/
structure SimulationConfig (K : Type) where
  precision : String
  method : String
  dt : Option K
  steps : Int
  outputEvery : Int
  G : Option K
  eps2 : Option K
  bodiesFile : String
  outTrajFile : String
  includeEnergy : Bool

/-- `SimulationConfig::SimulationConfig()` (line 15). -/
def SimulationConfig.init : SimulationConfig K :=
  { precision := "long double", method := "verlet", dt := some 0, steps := 0, outputEvery := 1,
    G := some 1, eps2 := some 0, bodiesFile := "", outTrajFile := "", includeEnergy := false }

/-- The comparison `a <= b` of the program, for a value `a` that may be NaN:
every comparison with NaN is false. -/
def leValue (a : Option K) (b : K) : Bool :=
  match a with
  | some x => decide (x ≤ b)
  | none => false

/-- The value `a` is a number greater than `b`; NaN is not. -/
def gtValue (a : Option K) (b : K) : Bool :=
  match a with
  | some x => decide (b < x)
  | none => false

/-- A config that names a method and both files and has positive `steps` and
`outputEvery`, with the NaN for `dt` that the config line `dt = nan` gives. -/
def nanStepConfig : SimulationConfig K :=
  { precision := "long double", method := "verlet", dt := none, steps := 1, outputEvery := 1,
    G := some 1, eps2 := some 0, bodiesFile := "bodies.csv", outTrajFile := "traj.csv",
    includeEnergy := false }

/-- `SimulationConfig::validate` (lines 92-119): the returned flag, and the
stream `err` with the messages written to it appended. -/
def SimulationConfig.validate (c : SimulationConfig K) (err : List String) :
    Bool × List String :=
  let st0 : Bool × List String := (true, err)
  let st1 := if c.method ≠ "euler" ∧ c.method ≠ "semieuler" ∧ c.method ≠ "verlet" then
      (false, st0.2 ++ ["Method must be \x27euler\x27 or \x27semieuler\x27 or \x27verlet\x27.\n"])
    else st0
  let st2 := if leValue c.dt 0 then (false, st1.2 ++ ["dt must be greater than 0.\n"]) else st1
  let st3 := if c.steps ≤ 0 then (false, st2.2 ++ ["steps must be greater than 0.\n"]) else st2
  let st4 := if c.outputEvery ≤ 0 then
      (false, st3.2 ++ ["outputEvery must be greater than 0.\n"])
    else st3
  let st5 := if c.bodiesFile = "" then (false, st4.2 ++ ["bodiesFile is empty.\n"]) else st4
  let st6 := if c.outTrajFile = "" then (false, st5.2 ++ ["outTrajFile is empty.\n"]) else st5
  st6

/-! ## body_io.cpp -/

/-- The token loop `while(std::getline(ss, token, \x27,\x27))` (lines 59-65) from
inside a token: `tok` holds the characters read so far. The end of the input
closes the token; a comma closes it and starts the next one, unless nothing
follows the comma. -/
def splitCommasFrom (tok : List Char) : List Char → List (List Char)
  | [] => [tok]
  | c :: cs =>
    if c = ',' then tok :: (if cs = [] then [] else splitCommasFrom [] cs)
    else splitCommasFrom (tok ++ [c]) cs

/-- The tokens `std::getline(ss, token, \x27,\x27)` reads from a line. -/
def splitCommas (line : List Char) : List (List Char) :=
  if line = [] then [] else splitCommasFrom [] line

/-- Removal of a trailing carriage return from a token (lines 61-63). -/
def stripCR (token : List Char) : List Char :=
  if token ≠ [] ∧ token.getLast? = some '\r' then token.dropLast else token

/-- The constant `PI` of the loader (line 38). -/
def loaderPI : K := 3.14159265358979323846264338327950288419716939937510

/-- The body a line of the CSV file yields (lines 46-103), if any: `none` when
the line is skipped. `stold` is `std::stold`, with `none` for a thrown
exception; `cos` and `sin` are `std::cos` and `std::sin`. -/
def parseBodyLine (stold : List Char → Option K) (cos sin : K → K) (line : List Char) :
    Option (Body2D K) :=
  if line = [] then none
  else if line.head? = some '#' then none
  else
    let tokens := (splitCommas line).map stripCR
    if tokens.length < 5 then none
    else do
      let mass ← stold (tokens.getD 0 [])
      let x ← stold (tokens.getD 1 [])
      let y ← stold (tokens.getD 2 [])
      if tokens.length = 5 then
        let vx ← stold (tokens.getD 3 [])
        let vy ← stold (tokens.getD 4 [])
        pure (Body2D.make mass ⟨x, y⟩ ⟨vx, vy⟩)
      else
        let speed ← stold (tokens.getD 3 [])
        let directionDeg ← stold (tokens.getD 4 [])
        let directionRad := directionDeg * (loaderPI / 180.0)
        pure (Body2D.make mass ⟨x, y⟩ ⟨speed * cos directionRad, speed * sin directionRad⟩)

/-- One pass of the line loop of `loadBodiesFromCsv`: the body of the line, if
any, is added to the system. -/
def loadLine (stold : List Char → Option K) (cos sin : K → K) (line : List Char)
    (system : NBodySystem2D K) : NBodySystem2D K :=
  match parseBodyLine stold cos sin line with
  | some body => system.addBody body
  | none => system

/-- `loadBodiesFromCsv`: `file` is the list of the lines of the file, or `none`
when the file cannot be opened. -/
def loadBodiesFromCsv (stold : List Char → Option K) (cos sin : K → K)
    (file : Option (List (List Char))) (system : NBodySystem2D K) : Bool × NBodySystem2D K :=
  match file with
  | none => (false, system)
  | some lines => (true, lines.foldl (fun sys line => loadLine stold cos sin line sys) system)

/-- The value of a nonempty string of decimal digits. -/
def digitsValue (cs : List Char) : Option Nat :=
  if cs = [] then none
  else cs.foldlM (fun acc c => if c.isDigit then some (10 * acc + (c.toNat - 48)) else none) 0

/-- An instance of `std::stold` to run examples with: an unsigned decimal
integer is parsed to its value, anything else is reported as a failed parse. -/
def stoldDigits (cs : List Char) : Option K :=
  (digitsValue cs).map (fun n => (n : K))

/-! ## Conserved quantities -/

/-- The sum of the force accumulators of all bodies. -/
def totalForce (s : NBodySystem2D K) : Vec2 K :=
  ∑ i ∈ Finset.range s.bodyCount, (s.bodyAt i).f

/-- The total linear momentum: the sum over the bodies of `m_i * v_i`. -/
def totalMomentum (s : NBodySystem2D K) : Vec2 K :=
  ∑ i ∈ Finset.range s.bodyCount, (s.bodyAt i).v.scale (s.bodyAt i).m

/-- The total angular momentum: the sum over the bodies of
`m_i * (r_i.x * v_i.y - r_i.y * v_i.x)`. -/
def angularMomentum (s : NBodySystem2D K) : K :=
  ∑ i ∈ Finset.range s.bodyCount,
    (s.bodyAt i).m * ((s.bodyAt i).r.x * (s.bodyAt i).v.y - (s.bodyAt i).r.y * (s.bodyAt i).v.x)

/-! ## The circular-orbit test

The two-body system of the energy regression test and, as a device of the
proofs about it, the motion of its second body relative to the centre of mass. -/

/-- Two bodies of mass 1 placed symmetrically about the origin, with `G = 1`
and `eps2 = 0`: body 1 is at `q` with velocity `v`, body 0 at `-q` with `-v`. -/
def SymmetricPair (s : NBodySystem2D K) (q v : Vec2 K) : Prop :=
  s.m_G = 1 ∧ s.m_eps2 = 0 ∧ s.bodyCount = 2 ∧ (s.bodyAt 0).m = 1 ∧ (s.bodyAt 1).m = 1 ∧
    (s.bodyAt 0).r = -q ∧ (s.bodyAt 1).r = q ∧ (s.bodyAt 0).v = -v ∧ (s.bodyAt 1).v = v

/-- The distance of body 1 of a symmetric pair from the origin. -/
def relRadius (sqrt : K → K) (q : Vec2 K) : K := sqrt (q.x ^ 2 + q.y ^ 2)

/-- The acceleration of body 1 of a symmetric pair is `-relPull * q`. -/
def relPull (sqrt : K → K) (q : Vec2 K) : K := 2 * (1 / (2 * relRadius sqrt q)) ^ 3

/-- The total energy of a symmetric pair in terms of `q` and `v`. -/
def relEnergy (sqrt : K → K) (q v : Vec2 K) : K :=
  v.x ^ 2 + v.y ^ 2 - 1 / (2 * relRadius sqrt q)

/-- The angular momentum of body 1 of a symmetric pair. -/
def relAngular (q v : Vec2 K) : K := q.x * v.y - q.y * v.x

/-- The position of body 1 of a symmetric pair after `stepVerlet`. -/
def verletRelPos (sqrt : K → K) (h : K) (q v : Vec2 K) : Vec2 K :=
  ⟨q.x + h * v.x - h ^ 2 / 2 * relPull sqrt q * q.x,
   q.y + h * v.y - h ^ 2 / 2 * relPull sqrt q * q.y⟩

/-- The velocity of body 1 of a symmetric pair after `stepVerlet`. -/
def verletRelVel (sqrt : K → K) (h : K) (q v : Vec2 K) : Vec2 K :=
  ⟨v.x - h / 2 * (relPull sqrt q * q.x +
      relPull sqrt (verletRelPos sqrt h q v) * (verletRelPos sqrt h q v).x),
   v.y - h / 2 * (relPull sqrt q * q.y +
      relPull sqrt (verletRelPos sqrt h q v) * (verletRelPos sqrt h q v).y)⟩

/-- The position of body 1 of a symmetric pair after `stepEuler`. -/
def eulerRelPos (h : K) (q v : Vec2 K) : Vec2 K := ⟨q.x + h * v.x, q.y + h * v.y⟩

/-- The velocity of body 1 of a symmetric pair after `stepEuler`. -/
def eulerRelVel (sqrt : K → K) (h : K) (q v : Vec2 K) : Vec2 K :=
  ⟨v.x - h * relPull sqrt q * q.x, v.y - h * relPull sqrt q * q.y⟩

/-- The system of the circular-orbit test: `G = 1`, `eps2 = 0`, masses 1 at
`(-0.5, 0)` and `(0.5, 0)`, moving at speed `u` at right angles to the line
joining them. -/
def orbitPair (u : K) : NBodySystem2D K :=
  (NBodySystem2D.init.addBody (Body2D.make 1 ⟨-0.5, 0⟩ ⟨0, -u⟩)).addBody
    (Body2D.make 1 ⟨0.5, 0⟩ ⟨0, u⟩)

end Core

/-! ## Loops and indexed updates -/

section Loops

variable {K : Type} [LinearOrderedField K]

set_option linter.unusedSectionVars false

theorem Vec2.add_def (a b : Vec2 K) : a + b = ⟨a.x + b.x, a.y + b.y⟩ := rfl

theorem Vec2.neg_def (a : Vec2 K) : -a = ⟨-a.x, -a.y⟩ := rfl

theorem Vec2.zero_def : (0 : Vec2 K) = ⟨0, 0⟩ := rfl

@[simp] theorem Vec2.add_x (a b : Vec2 K) : (a + b).x = a.x + b.x := rfl

@[simp] theorem Vec2.add_y (a b : Vec2 K) : (a + b).y = a.y + b.y := rfl

@[simp] theorem Vec2.neg_x (a : Vec2 K) : (-a).x = -a.x := rfl

@[simp] theorem Vec2.neg_y (a : Vec2 K) : (-a).y = -a.y := rfl

@[simp] theorem Vec2.zero_x : (0 : Vec2 K).x = 0 := rfl

@[simp] theorem Vec2.zero_y : (0 : Vec2 K).y = 0 := rfl

theorem Vec2.ext_iff2 (a b : Vec2 K) : a = b ↔ a.x = b.x ∧ a.y = b.y := by
  cases a; cases b; simp

theorem Vec2.scale_neg_one (a : Vec2 K) : a.scale (-1) = -a := by
  simp [Vec2.scale, Vec2.neg_def]

theorem Vec2.sum_x {ι : Type} (t : Finset ι) (g : ι → Vec2 K) :
    (∑ i ∈ t, g i).x = ∑ i ∈ t, (g i).x := by
  classical
  induction t using Finset.induction_on with
  | empty => simp
  | insert h ih => simp [Finset.sum_insert h, ih]

theorem Vec2.sum_y {ι : Type} (t : Finset ι) (g : ι → Vec2 K) :
    (∑ i ∈ t, g i).y = ∑ i ∈ t, (g i).y := by
  classical
  induction t using Finset.induction_on with
  | empty => simp
  | insert h ih => simp [Finset.sum_insert h, ih]

theorem forLoop_empty {σ : Type} (lo hi : Nat) (h : hi ≤ lo) (body : Nat → σ → σ) (s : σ) :
    forLoop lo hi body s = s := by
  simp [forLoop, Nat.sub_eq_zero_of_le h]

theorem forLoop_succ {σ : Type} (lo hi : Nat) (h : lo ≤ hi) (body : Nat → σ → σ) (s : σ) :
    forLoop lo (hi + 1) body s = body hi (forLoop lo hi body s) := by
  have e : hi + 1 - lo = (hi - lo) + 1 := by omega
  have e2 : lo + (hi - lo) = hi := by omega
  simp [forLoop, e, List.range'_concat, List.foldl_append, e2]

theorem forLoop_first {σ : Type} (lo hi : Nat) (h : lo < hi) (body : Nat → σ → σ) (s : σ) :
    forLoop lo hi body s = forLoop (lo + 1) hi body (body lo s) := by
  have e : hi - lo = (hi - (lo + 1)) + 1 := by omega
  simp [forLoop, e, List.range'_succ]

/-- A loop invariant carries through a counted loop. -/
theorem forLoop_induct {σ : Type} (P : σ → Prop) (lo hi : Nat) (body : Nat → σ → σ)
    (hstep : ∀ i t, lo ≤ i → i < hi → P t → P (body i t)) (s : σ) (h0 : P s) :
    P (forLoop lo hi body s) := by
  unfold forLoop
  have key : ∀ (l : List Nat) (t : σ), (∀ i ∈ l, lo ≤ i ∧ i < hi) → P t →
      P (l.foldl (fun acc i => body i acc) t) := by
    intro l
    induction l with
    | nil => intro t _ ht; simpa using ht
    | cons a l ih =>
      intro t hl ht
      simp only [List.foldl_cons]
      apply ih
      · intro i hi'; exact hl i (List.mem_cons_of_mem _ hi')
      · have := hl a (List.mem_cons_self _ _)
        exact hstep a t this.1 this.2 ht
  apply key _ _ _ h0
  intro i hi'
  rw [List.mem_range'_1] at hi'
  omega

/-! ## Reading and updating bodies -/

@[simp] theorem modifyBody_G (s : NBodySystem2D K) (i : Nat) (g : Body2D K → Body2D K) :
    (s.modifyBody i g).m_G = s.m_G := rfl

@[simp] theorem modifyBody_eps2 (s : NBodySystem2D K) (i : Nat) (g : Body2D K → Body2D K) :
    (s.modifyBody i g).m_eps2 = s.m_eps2 := rfl

@[simp] theorem modifyBody_bodyCount (s : NBodySystem2D K) (i : Nat)
    (g : Body2D K → Body2D K) : (s.modifyBody i g).bodyCount = s.bodyCount := by
  simp [NBodySystem2D.modifyBody, NBodySystem2D.bodyCount]

theorem bodyAt_of_le (s : NBodySystem2D K) (k : Nat) (h : s.bodyCount ≤ k) :
    s.bodyAt k = Body2D.empty := by
  unfold NBodySystem2D.bodyAt NBodySystem2D.bodyCount at *
  simp [List.getElem?_eq_none h]

theorem bodyAt_modifyBody (s : NBodySystem2D K) (i k : Nat) (g : Body2D K → Body2D K) :
    (s.modifyBody i g).bodyAt k =
      if i = k ∧ k < s.bodyCount then g (s.bodyAt k) else s.bodyAt k := by
  unfold NBodySystem2D.bodyAt NBodySystem2D.modifyBody NBodySystem2D.bodyCount
  simp only [List.getD_eq_getElem?_getD, List.getElem?_modify]
  by_cases hk : k < s.m_bodies.length
  · rw [List.getElem?_eq_getElem hk]
    by_cases hik : i = k <;> simp [hik, hk]
  · have hk2 : s.m_bodies.length ≤ k := Nat.le_of_not_lt hk
    rw [List.getElem?_eq_none hk2]
    simp [hk]

theorem bodyAt_modifyBody_self (s : NBodySystem2D K) (i : Nat) (g : Body2D K → Body2D K)
    (h : i < s.bodyCount) : (s.modifyBody i g).bodyAt i = g (s.bodyAt i) := by
  simp [bodyAt_modifyBody, h]

theorem bodyAt_modifyBody_ne (s : NBodySystem2D K) (i k : Nat) (g : Body2D K → Body2D K)
    (h : i ≠ k) : (s.modifyBody i g).bodyAt k = s.bodyAt k := by
  simp [bodyAt_modifyBody, h]

/-- Two systems are equal when their parameters agree and they hold the same
bodies at every index. -/
theorem system_ext (s t : NBodySystem2D K) (hG : s.m_G = t.m_G) (he : s.m_eps2 = t.m_eps2)
    (hn : s.bodyCount = t.bodyCount) (hb : ∀ k, k < s.bodyCount → s.bodyAt k = t.bodyAt k) :
    s = t := by
  cases s with
  | mk sb sG se =>
  cases t with
  | mk tb tG te =>
  simp only [NBodySystem2D.bodyCount, NBodySystem2D.bodyAt] at *
  subst hG he
  congr 1
  apply List.ext_getElem hn
  intro k h1 h2
  have := hb k h1
  rw [List.getD_eq_getElem _ _ h1, List.getD_eq_getElem _ _ h2] at this
  exact this

/-- The loop `for i < n: g_i(m_bodies[i])` updates body `k < n` by `g_k` and
leaves the rest of the state alone. -/
theorem forLoop_modifyBody (g : Nat → Body2D K → Body2D K) (s : NBodySystem2D K) (n : Nat) :
    (forLoop 0 n (fun i t => t.modifyBody i (g i)) s).m_G = s.m_G ∧
    (forLoop 0 n (fun i t => t.modifyBody i (g i)) s).m_eps2 = s.m_eps2 ∧
    (forLoop 0 n (fun i t => t.modifyBody i (g i)) s).bodyCount = s.bodyCount ∧
    ∀ k, (forLoop 0 n (fun i t => t.modifyBody i (g i)) s).bodyAt k =
      if k < n ∧ k < s.bodyCount then g k (s.bodyAt k) else s.bodyAt k := by
  induction n with
  | zero => simp [forLoop_empty]
  | succ n ih =>
    rw [forLoop_succ 0 n (Nat.zero_le n)]
    obtain ⟨h1, h2, h3, h4⟩ := ih
    refine ⟨by simp [h1], by simp [h2], by simp [h3], ?_⟩
    intro k
    rw [bodyAt_modifyBody, h3, h4]
    by_cases hkn : n = k
    · subst hkn
      by_cases hk : n < s.bodyCount <;> simp [hk]
    · have : k < n + 1 ↔ k < n := by omega
      simp [hkn, this]

/-! ## The pair loop of `computeForces` -/

theorem sameFrame_refl (s : NBodySystem2D K) : SameFrame s s :=
  ⟨rfl, rfl, rfl, fun _ => ⟨rfl, rfl, rfl⟩⟩

theorem sameFrame_trans {s t u : NBodySystem2D K} (h1 : SameFrame s t) (h2 : SameFrame t u) :
    SameFrame s u := by
  obtain ⟨a1, a2, a3, a4⟩ := h1
  obtain ⟨b1, b2, b3, b4⟩ := h2
  refine ⟨b1.trans a1, b2.trans a2, b3.trans a3, fun k => ?_⟩
  exact ⟨(b4 k).1.trans (a4 k).1, (b4 k).2.1.trans (a4 k).2.1, (b4 k).2.2.trans (a4 k).2.2⟩

theorem sameFrame_symm {s t : NBodySystem2D K} (h : SameFrame s t) : SameFrame t s := by
  obtain ⟨a1, a2, a3, a4⟩ := h
  exact ⟨a1.symm, a2.symm, a3.symm, fun k => ⟨(a4 k).1.symm, (a4 k).2.1.symm, (a4 k).2.2.symm⟩⟩

/-- An update that touches only the force accumulator keeps the frame. -/
theorem sameFrame_modifyBody (s : NBodySystem2D K) (i : Nat) (g : Body2D K → Body2D K)
    (hg : ∀ b, (g b).m = b.m ∧ (g b).r = b.r ∧ (g b).v = b.v) :
    SameFrame s (s.modifyBody i g) := by
  refine ⟨rfl, rfl, by simp, fun k => ?_⟩
  rw [bodyAt_modifyBody]
  split
  · exact hg _
  · exact ⟨rfl, rfl, rfl⟩

theorem pairForce_congr (sqrt : K → K) {s t : NBodySystem2D K} (h : SameFrame s t)
    (i j : Nat) : t.pairForce sqrt i j = s.pairForce sqrt i j := by
  obtain ⟨a1, a2, _, a4⟩ := h
  simp only [NBodySystem2D.pairForce, a1, a2, (a4 i).1, (a4 i).2.1, (a4 j).1, (a4 j).2.1]

theorem pairContribution_congr (sqrt : K → K) {s t : NBodySystem2D K} (h : SameFrame s t)
    (i j k : Nat) : pairContribution sqrt t i j k = pairContribution sqrt s i j k := by
  simp only [pairContribution, pairForce_congr sqrt h]

theorem newtonForce_congr (sqrt : K → K) {s t : NBodySystem2D K} (h : SameFrame s t)
    (i j : Nat) : newtonForce sqrt t i j = newtonForce sqrt s i j := by
  obtain ⟨a1, a2, _, a4⟩ := h
  simp only [newtonForce, a1, a2, (a4 i).1, (a4 i).2.1, (a4 j).1, (a4 j).2.1]

theorem netForce_congr (sqrt : K → K) {s t : NBodySystem2D K} (h : SameFrame s t)
    (i : Nat) : netForce sqrt t i = netForce sqrt s i := by
  unfold netForce
  rw [h.2.2.1]
  exact Finset.sum_congr rfl (fun j _ => newtonForce_congr sqrt h i j)

theorem addForce_f (b : Body2D K) (F : Vec2 K) : (b.addForce F).f = b.f + F := rfl

/-- One pass of the pair-loop body: the frame is kept and body `k` receives
`pairContribution`. -/
theorem pairStep_spec (sqrt : K → K) (s : NBodySystem2D K) (i j : Nat) (hij : i ≠ j)
    (hi : i < s.bodyCount) (hj : j < s.bodyCount) :
    SameFrame s (s.pairStep sqrt i j) ∧
    ∀ k, ((s.pairStep sqrt i j).bodyAt k).f = (s.bodyAt k).f + pairContribution sqrt s i j k := by
  constructor
  · show SameFrame s ((s.modifyBody i (fun b => b.addForce (s.pairForce sqrt i j))).modifyBody j
      (fun b => b.addForce ((s.pairForce sqrt i j).scale (-1))))
    exact sameFrame_trans (sameFrame_modifyBody s i (fun b => b.addForce (s.pairForce sqrt i j))
      (fun b => ⟨rfl, rfl, rfl⟩))
      (sameFrame_modifyBody _ j (fun b => b.addForce ((s.pairForce sqrt i j).scale (-1)))
        (fun b => ⟨rfl, rfl, rfl⟩))
  · intro k
    unfold NBodySystem2D.pairStep pairContribution
    simp only [bodyAt_modifyBody, modifyBody_bodyCount]
    by_cases hki : k = i
    · subst hki
      simp [hij.symm, hi, addForce_f, Ne.symm hij]
    · by_cases hkj : k = j
      · subst hkj
        simp [hij, hj, hki, addForce_f, Vec2.scale_neg_one]
      · simp [hki, hkj, Ne.symm hki, Ne.symm hkj]

/-- The inner loop over `j` for a fixed `i`. -/
theorem innerLoop_spec (sqrt : K → K) (s : NBodySystem2D K) (i : Nat) (hi : i < s.bodyCount)
    (hi2 : Nat) (h1 : i + 1 ≤ hi2) (h2 : hi2 ≤ s.bodyCount) :
    SameFrame s (forLoop (i + 1) hi2 (fun j u => u.pairStep sqrt i j) s) ∧
    ∀ k, ((forLoop (i + 1) hi2 (fun j u => u.pairStep sqrt i j) s).bodyAt k).f =
      (s.bodyAt k).f + ∑ j ∈ Finset.Ico (i + 1) hi2, pairContribution sqrt s i j k := by
  induction hi2, h1 using Nat.le_induction with
  | base => simp [forLoop_empty, sameFrame_refl]
  | succ m hm ih =>
    have ihm := ih (by omega)
    rw [forLoop_succ _ _ hm]
    have hfr := ihm.1
    have hcount : (forLoop (i + 1) m (fun j u => u.pairStep sqrt i j) s).bodyCount
        = s.bodyCount := hfr.2.2.1
    have hstep := pairStep_spec sqrt (forLoop (i + 1) m (fun j u => u.pairStep sqrt i j) s)
      i m (by omega) (by omega) (by omega)
    refine ⟨sameFrame_trans hfr hstep.1, fun k => ?_⟩
    rw [hstep.2 k, ihm.2 k, pairContribution_congr sqrt hfr,
      Finset.sum_Ico_succ_top hm, add_assoc]

/-- The whole pair loop, run up to the outer index `hi2`. -/
theorem outerLoop_spec (sqrt : K → K) (s : NBodySystem2D K) (hi2 : Nat)
    (h2 : hi2 ≤ s.bodyCount) :
    SameFrame s (forLoop 0 hi2 (fun i t =>
      forLoop (i + 1) s.bodyCount (fun j u => u.pairStep sqrt i j) t) s) ∧
    ∀ k, ((forLoop 0 hi2 (fun i t =>
      forLoop (i + 1) s.bodyCount (fun j u => u.pairStep sqrt i j) t) s).bodyAt k).f =
      (s.bodyAt k).f + ∑ i ∈ Finset.range hi2, ∑ j ∈ Finset.Ico (i + 1) s.bodyCount,
        pairContribution sqrt s i j k := by
  induction hi2 with
  | zero => simp [forLoop_empty, sameFrame_refl]
  | succ m ih =>
    have ihm := ih (by omega)
    rw [forLoop_succ _ _ (Nat.zero_le m)]
    have hfr := ihm.1
    have hcount := hfr.2.2.1
    have hin := innerLoop_spec sqrt (forLoop 0 m (fun i t =>
      forLoop (i + 1) s.bodyCount (fun j u => u.pairStep sqrt i j) t) s) m (by omega)
      s.bodyCount (by omega) (by omega)
    refine ⟨sameFrame_trans hfr hin.1, fun k => ?_⟩
    rw [hin.2 k, ihm.2 k, Finset.sum_range_succ, add_assoc]
    congr 2
    exact Finset.sum_congr rfl (fun j _ => pairContribution_congr sqrt hfr m j k)

theorem pairForce_eq_newtonForce (sqrt : K → K) (s : NBodySystem2D K) (i j : Nat) :
    s.pairForce sqrt i j = newtonForce sqrt s i j := by
  unfold NBodySystem2D.pairForce newtonForce
  simp only [Vec2.sub, Vec2.scale]
  have e : ((s.bodyAt j).r.x - (s.bodyAt i).r.x) * ((s.bodyAt j).r.x - (s.bodyAt i).r.x) +
      ((s.bodyAt j).r.y - (s.bodyAt i).r.y) * ((s.bodyAt j).r.y - (s.bodyAt i).r.y) + s.m_eps2 =
      ((s.bodyAt j).r.x - (s.bodyAt i).r.x) ^ 2 + ((s.bodyAt j).r.y - (s.bodyAt i).r.y) ^ 2
        + s.m_eps2 := by ring
  rw [e, Vec2.ext_iff2]
  constructor <;> ring

theorem neg_newtonForce (sqrt : K → K) (s : NBodySystem2D K) (i j : Nat) :
    -(newtonForce sqrt s i j) = newtonForce sqrt s j i := by
  unfold newtonForce
  have e : ((s.bodyAt j).r.x - (s.bodyAt i).r.x) ^ 2 + ((s.bodyAt j).r.y - (s.bodyAt i).r.y) ^ 2
        + s.m_eps2 =
      ((s.bodyAt i).r.x - (s.bodyAt j).r.x) ^ 2 + ((s.bodyAt i).r.y - (s.bodyAt j).r.y) ^ 2
        + s.m_eps2 := by ring
  simp only [e, Vec2.neg_def]
  rw [Vec2.ext_iff2]
  constructor <;> ring

theorem pairContribution_split (sqrt : K → K) (s : NBodySystem2D K) (i j k : Nat)
    (hij : i ≠ j) :
    pairContribution sqrt s i j k =
      (if i = k then newtonForce sqrt s k j else 0) +
      (if j = k then newtonForce sqrt s k i else 0) := by
  unfold pairContribution
  rw [pairForce_eq_newtonForce, neg_newtonForce]
  by_cases hki : k = i
  · subst hki
    simp [Ne.symm hij]
  · by_cases hkj : k = j
    · subst hkj
      simp [hij, hki]
    · simp [hki, hkj, Ne.symm hki, Ne.symm hkj]

/-- Summed over all pairs `i < j`, the contributions to body `k` are the full
force on `k`. -/
theorem sum_pairContribution (sqrt : K → K) (s : NBodySystem2D K) (k : Nat)
    (hk : k < s.bodyCount) :
    ∑ i ∈ Finset.range s.bodyCount, ∑ j ∈ Finset.Ico (i + 1) s.bodyCount,
      pairContribution sqrt s i j k = netForce sqrt s k := by
  have h1 : ∀ i ∈ Finset.range s.bodyCount, ∑ j ∈ Finset.Ico (i + 1) s.bodyCount,
      pairContribution sqrt s i j k =
      (if i = k then ∑ j ∈ Finset.Ico (k + 1) s.bodyCount, newtonForce sqrt s k j else 0) +
      (if k ∈ Finset.Ico (i + 1) s.bodyCount then newtonForce sqrt s k i else 0) := by
    intro i _
    have h2 : ∀ j ∈ Finset.Ico (i + 1) s.bodyCount, pairContribution sqrt s i j k =
        (if i = k then newtonForce sqrt s k j else 0) +
        (if j = k then newtonForce sqrt s k i else 0) := by
      intro j hj
      rw [Finset.mem_Ico] at hj
      exact pairContribution_split sqrt s i j k (by omega)
    rw [Finset.sum_congr rfl h2, Finset.sum_add_distrib, Finset.sum_ite_eq']
    congr 1
    by_cases hik : i = k
    · subst hik; simp
    · simp [hik]
  rw [Finset.sum_congr rfl h1, Finset.sum_add_distrib, Finset.sum_ite_eq', ← Finset.sum_filter]
  have hmem : k ∈ Finset.range s.bodyCount := Finset.mem_range.mpr hk
  have hF : Finset.filter (fun i => k ∈ Finset.Ico (i + 1) s.bodyCount)
      (Finset.range s.bodyCount) = Finset.range k := by
    ext a
    simp only [Finset.mem_filter, Finset.mem_range, Finset.mem_Ico]
    omega
  have hU : (Finset.range s.bodyCount).erase k =
      Finset.Ico (k + 1) s.bodyCount ∪ Finset.range k := by
    ext a
    simp only [Finset.mem_erase, Finset.mem_range, Finset.mem_union, Finset.mem_Ico]
    omega
  have hD : Disjoint (Finset.Ico (k + 1) s.bodyCount) (Finset.range k) := by
    rw [Finset.disjoint_left]
    intro a ha
    simp only [Finset.mem_Ico] at ha
    simp only [Finset.mem_range]
    omega
  rw [if_pos hmem, hF, netForce, hU, Finset.sum_union hD]

/-- The first loop of `computeForces` zeroes every accumulator and keeps the frame. -/
theorem clearForces_spec (s : NBodySystem2D K) :
    SameFrame s s.clearForces ∧ ∀ k, (s.clearForces.bodyAt k).f = 0 := by
  obtain ⟨h1, h2, h3, h4⟩ := forLoop_modifyBody (fun _ => Body2D.clearForce) s s.bodyCount
  unfold NBodySystem2D.clearForces
  refine ⟨⟨h1, h2, h3, fun k => ?_⟩, fun k => ?_⟩
  · rw [h4]
    split <;> exact ⟨rfl, rfl, rfl⟩
  · rw [h4]
    by_cases hk : k < s.bodyCount
    · simp [hk, Body2D.clearForce, Vec2.zero_def]
    · simp only [hk, and_self, if_false]
      rw [bodyAt_of_le s k (Nat.le_of_not_lt hk)]
      rfl

/-- After `computeForces` the frame is the one before the call and every
accumulator holds the full force on its body. -/
theorem computeForces_spec (sqrt : K → K) (s : NBodySystem2D K) :
    SameFrame s (s.computeForces sqrt) ∧
    ∀ k, k < s.bodyCount → ((s.computeForces sqrt).bodyAt k).f = netForce sqrt s k := by
  obtain ⟨hc1, hc2⟩ := clearForces_spec s
  have hn : s.clearForces.bodyCount = s.bodyCount := hc1.2.2.1
  have ho := outerLoop_spec sqrt s.clearForces s.clearForces.bodyCount (Nat.le_refl _)
  have e : s.computeForces sqrt = forLoop 0 s.clearForces.bodyCount (fun i t =>
      forLoop (i + 1) s.clearForces.bodyCount (fun j u => u.pairStep sqrt i j) t)
        s.clearForces := by
    rw [hn]; rfl
  rw [e]
  refine ⟨sameFrame_trans hc1 ho.1, fun k hk => ?_⟩
  rw [ho.2 k, hc2 k, zero_add, sum_pairContribution sqrt s.clearForces k (by omega)]
  exact netForce_congr sqrt hc1 k

/-- Whatever of a body is the same at every index of two systems of the same
size is the same in their body lists. -/
theorem map_eq_of_bodyAt {α : Type} (s t : NBodySystem2D K) (g : Body2D K → α)
    (hn : t.bodyCount = s.bodyCount)
    (h : ∀ k, k < s.bodyCount → g (t.bodyAt k) = g (s.bodyAt k)) :
    t.m_bodies.map g = s.m_bodies.map g := by
  unfold NBodySystem2D.bodyCount NBodySystem2D.bodyAt at *
  apply List.ext_getElem (by simpa using hn)
  intro k h1 h2
  simp only [List.length_map] at h1 h2
  have := h k h2
  rw [List.getD_eq_getElem _ _ h1, List.getD_eq_getElem _ _ h2] at this
  simpa using this

theorem sameFrame_map_eq {s t : NBodySystem2D K} (h : SameFrame s t) :
    t.m_bodies.map (fun b => (b.m, b.r, b.v)) = s.m_bodies.map (fun b => (b.m, b.r, b.v)) := by
  apply map_eq_of_bodyAt s t _ h.2.2.1
  intro k _
  obtain ⟨a, b, c⟩ := h.2.2.2 k
  simp [a, b, c]

/-! ## The per-body loops of the integrators -/

theorem forLoop_set {α : Type} (g : Nat → α) (z : α) (l : List α) (m : Nat) :
    (forLoop 0 m (fun i a => a.set i (g i)) l).length = l.length ∧
    ∀ k, (forLoop 0 m (fun i a => a.set i (g i)) l).getD k z =
      if k < m ∧ k < l.length then g k else l.getD k z := by
  induction m with
  | zero => simp [forLoop_empty]
  | succ m ih =>
    rw [forLoop_succ 0 m (Nat.zero_le m)]
    obtain ⟨h1, h2⟩ := ih
    refine ⟨by simp [h1], fun k => ?_⟩
    have h2k := h2 k
    rw [List.getD_eq_getElem?_getD] at h2k ⊢
    rw [List.getElem?_set, h1]
    by_cases hmk : m = k
    · subst hmk
      by_cases hk : m < l.length
      · simp [hk]
      · have : l.length ≤ m := Nat.le_of_not_lt hk
        simp [hk, List.getElem?_eq_none this]
    · have : k < m + 1 ↔ k < m := by omega
      simp only [hmk, if_false, this]
      exact h2k

theorem storeAccel_getD (s : NBodySystem2D K) (n k : Nat) (hk : k < n) :
    (s.storeAccel n).getD k Vec2.zero =
      ⟨(s.bodyAt k).f.x / (s.bodyAt k).m, (s.bodyAt k).f.y / (s.bodyAt k).m⟩ := by
  unfold NBodySystem2D.storeAccel
  have h := (forLoop_set (fun i => (⟨(s.bodyAt i).f.x / (s.bodyAt i).m,
    (s.bodyAt i).f.y / (s.bodyAt i).m⟩ : Vec2 K)) Vec2.zero (List.replicate n Vec2.zero) n).2 k
  simp only [List.length_replicate, hk, and_self, if_true] at h
  exact h

theorem bodyAt_map (s t : NBodySystem2D K) (g : Body2D K → Body2D K)
    (k : Nat) (hk : k < t.bodyCount) :
    ({ s with m_bodies := t.m_bodies.map g } : NBodySystem2D K).bodyAt k = g (t.bodyAt k) := by
  unfold NBodySystem2D.bodyCount at hk
  simp [NBodySystem2D.bodyAt, List.getElem?_eq_getElem hk]

/-- `stepEuler`: the state after the step, body by body. -/
theorem stepEuler_spec (sqrt : K → K) (dt : K) (s : NBodySystem2D K) :
    (s.stepEuler sqrt dt).m_G = s.m_G ∧ (s.stepEuler sqrt dt).m_eps2 = s.m_eps2 ∧
    (s.stepEuler sqrt dt).bodyCount = s.bodyCount ∧
    ∀ k, k < s.bodyCount → (s.stepEuler sqrt dt).bodyAt k =
      Body2D.eulerUpdate dt ((s.computeForces sqrt).bodyAt k) := by
  obtain ⟨a1, a2, a3, _⟩ := (computeForces_spec sqrt s).1
  obtain ⟨h1, h2, h3, h4⟩ := forLoop_modifyBody (fun _ => Body2D.eulerUpdate dt)
    (s.computeForces sqrt) (s.computeForces sqrt).bodyCount
  refine ⟨h1.trans a1, h2.trans a2, h3.trans a3, fun k hk => ?_⟩
  have hk2 : k < (s.computeForces sqrt).bodyCount := by omega
  exact (h4 k).trans (by simp [hk2])

/-- `stepSemiEuler`: the state after the step, body by body. -/
theorem stepSemiEuler_spec (sqrt : K → K) (dt : K) (s : NBodySystem2D K) :
    (s.stepSemiEuler sqrt dt).m_G = s.m_G ∧ (s.stepSemiEuler sqrt dt).m_eps2 = s.m_eps2 ∧
    (s.stepSemiEuler sqrt dt).bodyCount = s.bodyCount ∧
    ∀ k, k < s.bodyCount → (s.stepSemiEuler sqrt dt).bodyAt k =
      Body2D.semiEulerUpdate dt ((s.computeForces sqrt).bodyAt k) := by
  obtain ⟨a1, a2, a3, _⟩ := (computeForces_spec sqrt s).1
  obtain ⟨h1, h2, h3, h4⟩ := forLoop_modifyBody (fun _ => Body2D.semiEulerUpdate dt)
    (s.computeForces sqrt) (s.computeForces sqrt).bodyCount
  refine ⟨h1.trans a1, h2.trans a2, h3.trans a3, fun k hk => ?_⟩
  have hk2 : k < (s.computeForces sqrt).bodyCount := by omega
  exact (h4 k).trans (by simp [hk2])

/-- The position loop of `stepVerlet` produces `verletMoved`. -/
theorem verlet_position_loop (sqrt : K → K) (dt : K) (s : NBodySystem2D K) :
    forLoop 0 s.bodyCount (fun i t => t.modifyBody i (Body2D.verletPosition dt
      (((s.computeForces sqrt).storeAccel s.bodyCount).getD i Vec2.zero)))
      (s.computeForces sqrt) = verletMoved sqrt dt s := by
  obtain ⟨a1, a2, a3, _⟩ := (computeForces_spec sqrt s).1
  obtain ⟨h1, h2, h3, h4⟩ := forLoop_modifyBody (fun i => Body2D.verletPosition dt
      (((s.computeForces sqrt).storeAccel s.bodyCount).getD i Vec2.zero))
      (s.computeForces sqrt) s.bodyCount
  have hc : (verletMoved sqrt dt s).bodyCount = s.bodyCount := by
    simp only [verletMoved, NBodySystem2D.bodyCount, List.length_map] at a3 ⊢
    exact a3
  apply system_ext
  · exact h1.trans a1
  · exact h2.trans a2
  · rw [h3, hc, a3]
  · intro k hk
    rw [h3, a3] at hk
    rw [h4 k]
    simp only [hk, a3, and_self, if_true]
    rw [storeAccel_getD _ _ _ hk]
    unfold verletMoved
    rw [bodyAt_map s (s.computeForces sqrt) _ k (by omega)]
    simp only [Body2D.verletPosition]
    congr 2 <;> ring

theorem sameFrame_toGeometry {s t : NBodySystem2D K} (h : SameFrame s t) : SameGeometry s t :=
  ⟨h.1, h.2.1, h.2.2.1, fun k => ⟨(h.2.2.2 k).1, (h.2.2.2 k).2.1⟩⟩

theorem sameGeometry_symm {s t : NBodySystem2D K} (h : SameGeometry s t) : SameGeometry t s :=
  ⟨h.1.symm, h.2.1.symm, h.2.2.1.symm, fun k => ⟨(h.2.2.2 k).1.symm, (h.2.2.2 k).2.symm⟩⟩

theorem sameGeometry_trans {s t u : NBodySystem2D K} (h1 : SameGeometry s t)
    (h2 : SameGeometry t u) : SameGeometry s u :=
  ⟨h2.1.trans h1.1, h2.2.1.trans h1.2.1, h2.2.2.1.trans h1.2.2.1, fun k =>
    ⟨(h2.2.2.2 k).1.trans (h1.2.2.2 k).1, (h2.2.2.2 k).2.trans (h1.2.2.2 k).2⟩⟩

/-- The full force on a body depends on the parameters, masses and positions only. -/
theorem netForce_congr_geometry (sqrt : K → K) {s t : NBodySystem2D K} (h : SameGeometry s t)
    (i : Nat) : netForce sqrt t i = netForce sqrt s i := by
  obtain ⟨a1, a2, a3, a4⟩ := h
  unfold netForce
  rw [a3]
  refine Finset.sum_congr rfl (fun j _ => ?_)
  simp only [newtonForce, a1, a2, (a4 i).1, (a4 i).2, (a4 j).1, (a4 j).2]

/-- The moved system, body by body. -/
theorem verletMoved_spec (sqrt : K → K) (dt : K) (s : NBodySystem2D K) :
    (verletMoved sqrt dt s).m_G = s.m_G ∧ (verletMoved sqrt dt s).m_eps2 = s.m_eps2 ∧
    (verletMoved sqrt dt s).bodyCount = s.bodyCount ∧
    ∀ k, k < s.bodyCount →
      ((verletMoved sqrt dt s).bodyAt k).m = (s.bodyAt k).m ∧
      ((verletMoved sqrt dt s).bodyAt k).v = (s.bodyAt k).v ∧
      ((verletMoved sqrt dt s).bodyAt k).r =
        ⟨(s.bodyAt k).r.x + (s.bodyAt k).v.x * dt +
            0.5 * ((netForce sqrt s k).x / (s.bodyAt k).m) * dt ^ 2,
         (s.bodyAt k).r.y + (s.bodyAt k).v.y * dt +
            0.5 * ((netForce sqrt s k).y / (s.bodyAt k).m) * dt ^ 2⟩ := by
  obtain ⟨⟨_, _, a3, a4⟩, a5⟩ := computeForces_spec sqrt s
  refine ⟨rfl, rfl, ?_, fun k hk => ?_⟩
  · simp only [verletMoved, NBodySystem2D.bodyCount, List.length_map] at a3 ⊢
    exact a3
  · unfold verletMoved
    rw [bodyAt_map s (s.computeForces sqrt) _ k (by omega)]
    simp only [(a4 k).1, (a4 k).2.1, (a4 k).2.2, a5 k hk, and_self]

/-- `stepVerlet`: the state after the step, body by body. -/
theorem stepVerlet_spec (sqrt : K → K) (dt : K) (s : NBodySystem2D K) :
    (s.stepVerlet sqrt dt).m_G = s.m_G ∧ (s.stepVerlet sqrt dt).m_eps2 = s.m_eps2 ∧
    (s.stepVerlet sqrt dt).bodyCount = s.bodyCount ∧
    ∀ k, k < s.bodyCount → (s.stepVerlet sqrt dt).bodyAt k =
      Body2D.verletVelocity dt
        ⟨((s.computeForces sqrt).bodyAt k).f.x / ((s.computeForces sqrt).bodyAt k).m,
         ((s.computeForces sqrt).bodyAt k).f.y / ((s.computeForces sqrt).bodyAt k).m⟩
        (((verletMoved sqrt dt s).computeForces sqrt).bodyAt k) := by
  by_cases hn : s.bodyCount = 0
  · have e : s.stepVerlet sqrt dt = s := by simp [NBodySystem2D.stepVerlet, hn]
    rw [e]
    exact ⟨rfl, rfl, rfl, fun k hk => by omega⟩
  · have e : s.stepVerlet sqrt dt = forLoop 0 s.bodyCount (fun i t =>
        t.modifyBody i (Body2D.verletVelocity dt
          (((s.computeForces sqrt).storeAccel s.bodyCount).getD i Vec2.zero)))
        ((verletMoved sqrt dt s).computeForces sqrt) := by
      rw [← verlet_position_loop]
      simp [NBodySystem2D.stepVerlet, hn]
    rw [e]
    obtain ⟨m1, m2, m3, _⟩ := verletMoved_spec sqrt dt s
    obtain ⟨a1, a2, a3, _⟩ := (computeForces_spec sqrt (verletMoved sqrt dt s)).1
    obtain ⟨h1, h2, h3, h4⟩ := forLoop_modifyBody (fun i => Body2D.verletVelocity dt
      (((s.computeForces sqrt).storeAccel s.bodyCount).getD i Vec2.zero))
      ((verletMoved sqrt dt s).computeForces sqrt) s.bodyCount
    refine ⟨(h1.trans a1).trans m1, (h2.trans a2).trans m2, (h3.trans a3).trans m3,
      fun k hk => ?_⟩
    have hk2 : k < ((verletMoved sqrt dt s).computeForces sqrt).bodyCount := by omega
    rw [h4 k, storeAccel_getD _ _ _ hk]
    simp [hk, hk2]

/-- `stepVerlet` in terms of the forces: masses are kept, positions move by
`v*dt + 0.5*a*dt^2` and velocities by the mean of the old and new accelerations. -/
theorem stepVerlet_netForce (sqrt : K → K) (dt : K) (s : NBodySystem2D K) (k : Nat)
    (hk : k < s.bodyCount) :
    ((s.stepVerlet sqrt dt).bodyAt k).m = (s.bodyAt k).m ∧
    ((s.stepVerlet sqrt dt).bodyAt k).r =
      ⟨(s.bodyAt k).r.x + (s.bodyAt k).v.x * dt +
          0.5 * ((netForce sqrt s k).x / (s.bodyAt k).m) * dt ^ 2,
       (s.bodyAt k).r.y + (s.bodyAt k).v.y * dt +
          0.5 * ((netForce sqrt s k).y / (s.bodyAt k).m) * dt ^ 2⟩ ∧
    ((s.stepVerlet sqrt dt).bodyAt k).v =
      ⟨(s.bodyAt k).v.x + 0.5 * ((netForce sqrt s k).x / (s.bodyAt k).m +
          (netForce sqrt (verletMoved sqrt dt s) k).x / (s.bodyAt k).m) * dt,
       (s.bodyAt k).v.y + 0.5 * ((netForce sqrt s k).y / (s.bodyAt k).m +
          (netForce sqrt (verletMoved sqrt dt s) k).y / (s.bodyAt k).m) * dt⟩ := by
  obtain ⟨_, _, m3, m4⟩ := verletMoved_spec sqrt dt s
  obtain ⟨mm, mv, mr⟩ := m4 k hk
  obtain ⟨⟨_, _, _, a4⟩, a5⟩ := computeForces_spec sqrt s
  obtain ⟨⟨_, _, _, b4⟩, b5⟩ := computeForces_spec sqrt (verletMoved sqrt dt s)
  rw [(stepVerlet_spec sqrt dt s).2.2.2 k hk]
  simp only [Body2D.verletVelocity, (a4 k).1, a5 k hk, (b4 k).1, (b4 k).2.1, (b4 k).2.2,
    b5 k (by omega), mm, mv, mr, and_self]

/-- The state after `stepVerlet` has the geometry of the moved system. -/
theorem stepVerlet_geometry (sqrt : K → K) (dt : K) (s : NBodySystem2D K) :
    SameGeometry (s.stepVerlet sqrt dt) (verletMoved sqrt dt s) := by
  obtain ⟨m1, m2, m3, m4⟩ := verletMoved_spec sqrt dt s
  obtain ⟨h1, h2, h3, _⟩ := stepVerlet_spec sqrt dt s
  refine ⟨m1.trans h1.symm, m2.trans h2.symm, m3.trans h3.symm, fun k => ?_⟩
  by_cases hk : k < s.bodyCount
  · obtain ⟨e1, e2, _⟩ := stepVerlet_netForce sqrt dt s k hk
    obtain ⟨mm, _, mr⟩ := m4 k hk
    exact ⟨mm.trans e1.symm, mr.trans e2.symm⟩
  · rw [bodyAt_of_le _ k (by omega), bodyAt_of_le _ k (by omega)]
    exact ⟨rfl, rfl⟩

end Loops

/-! ## Force computation: the claims -/

section Forces

variable {K : Type} [LinearOrderedField K]

/-- Claim C1. After `computeForces` the accumulator of every body `i` is the sum,
over all other bodies `j`, of the softened Newtonian force
`G * m_i * m_j * (r_j - r_i) * (1 / sqrt (|r_j - r_i|^2 + eps2))^3`, whatever
the accumulators held before the call. -/
theorem computeForces_full_force (sqrt : K → K) (s : NBodySystem2D K) (i : Nat)
    (hi : i < s.bodyCount) :
    ((s.computeForces sqrt).bodyAt i).f =
      ∑ j ∈ (Finset.range s.bodyCount).erase i, newtonForce sqrt s i j :=
  (computeForces_spec sqrt s).2 i hi

/-- Witness for C1: over the reals, body 0 of the unit pair is pulled with force
`(1, 0)`. -/
theorem computeForces_full_force_witness :
    0 < (unitPair : NBodySystem2D ℝ).bodyCount ∧
    (((unitPair : NBodySystem2D ℝ).computeForces Real.sqrt).bodyAt 0).f = ⟨1, 0⟩ := by
  have h0 : 0 < (unitPair : NBodySystem2D ℝ).bodyCount := by
    simp [unitPair, NBodySystem2D.bodyCount]
  refine ⟨h0, ?_⟩
  rw [computeForces_full_force Real.sqrt unitPair 0 h0]
  have e0 : (Finset.range 2).erase 0 = {1} := by decide
  simp [unitPair, NBodySystem2D.bodyCount, e0, newtonForce, NBodySystem2D.bodyAt, Body2D.make]

/-- Claim C10. `computeForces` changes nothing but the force accumulators: `G`,
`eps2`, and the list of the masses of the bodies, positions and velocities (hence
their number and order) are the same after the call as before. -/
theorem computeForces_frame (sqrt : K → K) (s : NBodySystem2D K) :
    (s.computeForces sqrt).m_G = s.m_G ∧
    (s.computeForces sqrt).m_eps2 = s.m_eps2 ∧
    (s.computeForces sqrt).bodyCount = s.bodyCount ∧
    (s.computeForces sqrt).m_bodies.map (fun b => (b.m, b.r, b.v)) =
      s.m_bodies.map (fun b => (b.m, b.r, b.v)) := by
  have h := (computeForces_spec sqrt s).1
  exact ⟨h.1, h.2.1, h.2.2.1, sameFrame_map_eq h⟩

end Forces

/-! ## The integrators: the claims -/

section Integrators

variable {K : Type} [LinearOrderedField K]

/-- Claim C3. After `stepVerlet(dt)` body `i` has position
`r_i + v_i*dt + 0.5*aOld_i*dt^2` and velocity `v_i + 0.5*(aOld_i + aNew_i)*dt`,
where `aOld_i = F_i/m_i` with `F` from `computeForces` on the state before the
step and `aNew_i = Fnew_i/m_i` with `Fnew` from `computeForces` on `verletMoved`,
the system that holds the already-updated positions of all bodies (last part of
the statement). -/
theorem stepVerlet_update (sqrt : K → K) (dt : K) (s : NBodySystem2D K) (i : Nat)
    (hi : i < s.bodyCount) :
    ((s.stepVerlet sqrt dt).bodyAt i).r =
      ⟨(s.bodyAt i).r.x + (s.bodyAt i).v.x * dt +
          0.5 * (((s.computeForces sqrt).bodyAt i).f.x / (s.bodyAt i).m) * dt ^ 2,
       (s.bodyAt i).r.y + (s.bodyAt i).v.y * dt +
          0.5 * (((s.computeForces sqrt).bodyAt i).f.y / (s.bodyAt i).m) * dt ^ 2⟩ ∧
    ((s.stepVerlet sqrt dt).bodyAt i).v =
      ⟨(s.bodyAt i).v.x + 0.5 * (((s.computeForces sqrt).bodyAt i).f.x / (s.bodyAt i).m +
          (((verletMoved sqrt dt s).computeForces sqrt).bodyAt i).f.x / (s.bodyAt i).m) * dt,
       (s.bodyAt i).v.y + 0.5 * (((s.computeForces sqrt).bodyAt i).f.y / (s.bodyAt i).m +
          (((verletMoved sqrt dt s).computeForces sqrt).bodyAt i).f.y / (s.bodyAt i).m) * dt⟩ ∧
    (verletMoved sqrt dt s).m_bodies.map (fun b => (b.m, b.r)) =
      (s.stepVerlet sqrt dt).m_bodies.map (fun b => (b.m, b.r)) := by
  obtain ⟨_, e2, e3⟩ := stepVerlet_netForce sqrt dt s i hi
  have a5 := (computeForces_spec sqrt s).2 i hi
  have b5 := (computeForces_spec sqrt (verletMoved sqrt dt s)).2 i
    (by rw [(verletMoved_spec sqrt dt s).2.2.1]; exact hi)
  rw [a5, b5]
  refine ⟨e2, e3, ?_⟩
  have hg := stepVerlet_geometry sqrt dt s
  apply map_eq_of_bodyAt _ _ _ hg.2.2.1
  intro k _
  rw [(hg.2.2.2 k).1, (hg.2.2.2 k).2]

/-- Witness for C3: over the reals, one Verlet step of the unit pair with
`dt = 1/2` moves body 0 to `(1/8, 0)`. -/
theorem stepVerlet_update_witness :
    0 < (unitPair : NBodySystem2D ℝ).bodyCount ∧
    (((unitPair : NBodySystem2D ℝ).stepVerlet Real.sqrt (1 / 2)).bodyAt 0).r = ⟨1 / 8, 0⟩ := by
  have h0 : 0 < (unitPair : NBodySystem2D ℝ).bodyCount := by
    simp [unitPair, NBodySystem2D.bodyCount]
  refine ⟨h0, ?_⟩
  rw [(stepVerlet_update Real.sqrt (1 / 2) unitPair 0 h0).1,
    (computeForces_spec Real.sqrt unitPair).2 0 h0]
  have e0 : (Finset.range 2).erase 0 = {1} := by decide
  simp [unitPair, NBodySystem2D.bodyCount, e0, netForce, newtonForce, NBodySystem2D.bodyAt,
    Body2D.make, Vec2.zero]
  norm_num

/-- Claim C4. After `stepEuler(dt)` body `i` has position `r_i + v_i*dt` and
velocity `v_i + (F_i/m_i)*dt`, with `r_i`, `v_i` the values before the step and
`F_i` the accumulator `computeForces` produces on the state before the step:
the position update uses the velocity from before the velocity update. -/
theorem stepEuler_update (sqrt : K → K) (dt : K) (s : NBodySystem2D K) (i : Nat)
    (hi : i < s.bodyCount) :
    ((s.stepEuler sqrt dt).bodyAt i).r =
      ⟨(s.bodyAt i).r.x + (s.bodyAt i).v.x * dt, (s.bodyAt i).r.y + (s.bodyAt i).v.y * dt⟩ ∧
    ((s.stepEuler sqrt dt).bodyAt i).v =
      ⟨(s.bodyAt i).v.x + ((s.computeForces sqrt).bodyAt i).f.x / (s.bodyAt i).m * dt,
       (s.bodyAt i).v.y + ((s.computeForces sqrt).bodyAt i).f.y / (s.bodyAt i).m * dt⟩ := by
  obtain ⟨_, _, _, a4⟩ := (computeForces_spec sqrt s).1
  rw [(stepEuler_spec sqrt dt s).2.2.2 i hi]
  simp only [Body2D.eulerUpdate, (a4 i).1, (a4 i).2.1, (a4 i).2.2, and_self]

/-- Witness for C4: over the reals, one Euler step of the unit pair with
`dt = 1` leaves body 0 at `(0, 0)` and gives it the velocity `(1, 0)`. -/
theorem stepEuler_update_witness :
    0 < (unitPair : NBodySystem2D ℝ).bodyCount ∧
    (((unitPair : NBodySystem2D ℝ).stepEuler Real.sqrt 1).bodyAt 0).r = ⟨0, 0⟩ ∧
    (((unitPair : NBodySystem2D ℝ).stepEuler Real.sqrt 1).bodyAt 0).v = ⟨1, 0⟩ := by
  have h0 : 0 < (unitPair : NBodySystem2D ℝ).bodyCount := by
    simp [unitPair, NBodySystem2D.bodyCount]
  refine ⟨h0, ?_, ?_⟩
  · rw [(stepEuler_update Real.sqrt 1 unitPair 0 h0).1]
    simp [unitPair, NBodySystem2D.bodyAt, Body2D.make, Vec2.zero]
  · rw [(stepEuler_update Real.sqrt 1 unitPair 0 h0).2,
      (computeForces_spec Real.sqrt unitPair).2 0 h0]
    have e0 : (Finset.range 2).erase 0 = {1} := by decide
    simp [unitPair, NBodySystem2D.bodyCount, e0, netForce, newtonForce, NBodySystem2D.bodyAt,
      Body2D.make, Vec2.zero]

/-- Claim C5. After `stepSemiEuler(dt)` body `i` has velocity
`w_i = v_i + (F_i/m_i)*dt` and position `r_i + w_i*dt`, with `r_i`, `v_i` the
values before the step and `F_i` the accumulator `computeForces` produces on the
state before the step: the position update uses the new velocity. -/
theorem stepSemiEuler_update (sqrt : K → K) (dt : K) (s : NBodySystem2D K) (i : Nat)
    (hi : i < s.bodyCount) :
    ((s.stepSemiEuler sqrt dt).bodyAt i).v =
      ⟨(s.bodyAt i).v.x + ((s.computeForces sqrt).bodyAt i).f.x / (s.bodyAt i).m * dt,
       (s.bodyAt i).v.y + ((s.computeForces sqrt).bodyAt i).f.y / (s.bodyAt i).m * dt⟩ ∧
    ((s.stepSemiEuler sqrt dt).bodyAt i).r =
      ⟨(s.bodyAt i).r.x + ((s.stepSemiEuler sqrt dt).bodyAt i).v.x * dt,
       (s.bodyAt i).r.y + ((s.stepSemiEuler sqrt dt).bodyAt i).v.y * dt⟩ := by
  obtain ⟨_, _, _, a4⟩ := (computeForces_spec sqrt s).1
  rw [(stepSemiEuler_spec sqrt dt s).2.2.2 i hi]
  simp only [Body2D.semiEulerUpdate, (a4 i).1, (a4 i).2.1, (a4 i).2.2, and_self]

/-- Witness for C5: over the reals, one semi-implicit Euler step of the unit
pair with `dt = 1` gives body 0 the velocity `(1, 0)` and moves it to `(1, 0)`. -/
theorem stepSemiEuler_update_witness :
    0 < (unitPair : NBodySystem2D ℝ).bodyCount ∧
    (((unitPair : NBodySystem2D ℝ).stepSemiEuler Real.sqrt 1).bodyAt 0).v = ⟨1, 0⟩ ∧
    (((unitPair : NBodySystem2D ℝ).stepSemiEuler Real.sqrt 1).bodyAt 0).r = ⟨1, 0⟩ := by
  have h0 : 0 < (unitPair : NBodySystem2D ℝ).bodyCount := by
    simp [unitPair, NBodySystem2D.bodyCount]
  have hv : (((unitPair : NBodySystem2D ℝ).stepSemiEuler Real.sqrt 1).bodyAt 0).v = ⟨1, 0⟩ := by
    rw [(stepSemiEuler_update Real.sqrt 1 unitPair 0 h0).1,
      (computeForces_spec Real.sqrt unitPair).2 0 h0]
    have e0 : (Finset.range 2).erase 0 = {1} := by decide
    simp [unitPair, NBodySystem2D.bodyCount, e0, netForce, newtonForce, NBodySystem2D.bodyAt,
      Body2D.make, Vec2.zero]
  refine ⟨h0, hv, ?_⟩
  rw [(stepSemiEuler_update Real.sqrt 1 unitPair 0 h0).2, hv]
  simp [unitPair, NBodySystem2D.bodyAt, Body2D.make, Vec2.zero]

/-- Claim C9. Each of `stepEuler`, `stepSemiEuler` and `stepVerlet` leaves `G`
and `eps2` unchanged, leaves the number of bodies unchanged, and leaves the mass
of every body unchanged at its index. -/
theorem steps_frame (sqrt : K → K) (dt : K) (s : NBodySystem2D K) :
    ((s.stepEuler sqrt dt).m_G = s.m_G ∧ (s.stepEuler sqrt dt).m_eps2 = s.m_eps2 ∧
      (s.stepEuler sqrt dt).bodyCount = s.bodyCount ∧
      (s.stepEuler sqrt dt).m_bodies.map (fun b => b.m) = s.m_bodies.map (fun b => b.m)) ∧
    ((s.stepSemiEuler sqrt dt).m_G = s.m_G ∧ (s.stepSemiEuler sqrt dt).m_eps2 = s.m_eps2 ∧
      (s.stepSemiEuler sqrt dt).bodyCount = s.bodyCount ∧
      (s.stepSemiEuler sqrt dt).m_bodies.map (fun b => b.m) = s.m_bodies.map (fun b => b.m)) ∧
    ((s.stepVerlet sqrt dt).m_G = s.m_G ∧ (s.stepVerlet sqrt dt).m_eps2 = s.m_eps2 ∧
      (s.stepVerlet sqrt dt).bodyCount = s.bodyCount ∧
      (s.stepVerlet sqrt dt).m_bodies.map (fun b => b.m) = s.m_bodies.map (fun b => b.m)) := by
  obtain ⟨_, _, _, a4⟩ := (computeForces_spec sqrt s).1
  refine ⟨?_, ?_, ?_⟩
  · obtain ⟨h1, h2, h3, h4⟩ := stepEuler_spec sqrt dt s
    refine ⟨h1, h2, h3, map_eq_of_bodyAt _ _ _ h3 (fun k hk => ?_)⟩
    rw [h4 k hk]
    exact (a4 k).1
  · obtain ⟨h1, h2, h3, h4⟩ := stepSemiEuler_spec sqrt dt s
    refine ⟨h1, h2, h3, map_eq_of_bodyAt _ _ _ h3 (fun k hk => ?_)⟩
    rw [h4 k hk]
    exact (a4 k).1
  · obtain ⟨h1, h2, h3, _⟩ := stepVerlet_spec sqrt dt s
    exact ⟨h1, h2, h3, map_eq_of_bodyAt _ _ _ h3 (fun k hk =>
      (stepVerlet_netForce sqrt dt s k hk).1)⟩

/-- The round trip of velocity Verlet in the field model: `stepVerlet(dt)`
followed by `stepVerlet(-dt)` gives every body back the position and the
velocity it had before the first step. On the program this is the behaviour of
the runs that divide by no zero. -/
theorem stepVerlet_round_trip (sqrt : K → K) (dt : K) (s : NBodySystem2D K) :
    ((s.stepVerlet sqrt dt).stepVerlet sqrt (-dt)).m_bodies.map (fun b => (b.r, b.v)) =
      s.m_bodies.map (fun b => (b.r, b.v)) := by
  have hc1 := (stepVerlet_spec sqrt dt s).2.2.1
  have hc2 := (stepVerlet_spec sqrt (-dt) (s.stepVerlet sqrt dt)).2.2.1
  have hF : ∀ k, netForce sqrt (verletMoved sqrt dt s) k =
      netForce sqrt (s.stepVerlet sqrt dt) k := fun k =>
    netForce_congr_geometry sqrt (stepVerlet_geometry sqrt dt s) k
  have hr : ∀ k, k < s.bodyCount →
      (((s.stepVerlet sqrt dt).stepVerlet sqrt (-dt)).bodyAt k).r = (s.bodyAt k).r := by
    intro k hk
    obtain ⟨e1, e2, e3⟩ := stepVerlet_netForce sqrt dt s k hk
    obtain ⟨_, g2, _⟩ := stepVerlet_netForce sqrt (-dt) (s.stepVerlet sqrt dt) k (by omega)
    rw [g2, e1, e2, e3, hF k, Vec2.ext_iff2]
    constructor <;> simp only <;> ring
  have hgeo : SameGeometry s ((s.stepVerlet sqrt dt).stepVerlet sqrt (-dt)) := by
    obtain ⟨a1, a2, _, _⟩ := stepVerlet_spec sqrt dt s
    obtain ⟨b1, b2, _, _⟩ := stepVerlet_spec sqrt (-dt) (s.stepVerlet sqrt dt)
    refine ⟨b1.trans a1, b2.trans a2, hc2.trans hc1, fun k => ?_⟩
    by_cases hk : k < s.bodyCount
    · refine ⟨?_, hr k hk⟩
      rw [(stepVerlet_netForce sqrt (-dt) (s.stepVerlet sqrt dt) k (by omega)).1,
        (stepVerlet_netForce sqrt dt s k hk).1]
    · rw [bodyAt_of_le _ k (by omega), bodyAt_of_le _ k (by omega)]
      exact ⟨rfl, rfl⟩
  apply map_eq_of_bodyAt _ _ _ (hc2.trans hc1)
  intro k hk
  obtain ⟨e1, e2, e3⟩ := stepVerlet_netForce sqrt dt s k hk
  obtain ⟨_, _, g3⟩ := stepVerlet_netForce sqrt (-dt) (s.stepVerlet sqrt dt) k (by omega)
  have hb : netForce sqrt (verletMoved sqrt (-dt) (s.stepVerlet sqrt dt)) k =
      netForce sqrt s k := by
    rw [netForce_congr_geometry sqrt
      (stepVerlet_geometry sqrt (-dt) (s.stepVerlet sqrt dt)) k]
    exact netForce_congr_geometry sqrt hgeo k
  rw [hr k hk, g3, hb, e1, e3, hF k]
  simp only [Prod.mk.injEq, true_and]
  rw [Vec2.ext_iff2]
  constructor <;> simp only <;> ring

end Integrators

/-! ## The energy diagnostic -/

section Energy

variable {K : Type} [LinearOrderedField K]

/-- A loop that adds `g i` to its accumulator at every index sums `g` over the
index range. -/
theorem forLoop_sum (lo hi : Nat) (h : lo ≤ hi) (body : Nat → K → K) (g : Nat → K)
    (hb : ∀ i acc, lo ≤ i → i < hi → body i acc = acc + g i) (a : K) :
    forLoop lo hi body a = a + ∑ i ∈ Finset.Ico lo hi, g i := by
  induction hi, h using Nat.le_induction with
  | base => simp [forLoop_empty]
  | succ m hm ih =>
    rw [forLoop_succ _ _ hm, hb _ _ hm (Nat.lt_succ_self m),
      ih (fun i acc h1 h2 => hb i acc h1 (Nat.lt_succ_of_lt h2)),
      Finset.sum_Ico_succ_top hm, add_assoc]

/-- Claim C6. `totalEnergy` is the sum over the bodies of `0.5 * m_i * |v_i|^2`
plus the sum over the pairs `i < j` of `-G * m_i * m_j / sqrt (|r_j - r_i|^2 + eps2)`,
where the term of a pair is left out exactly when its computed distance
`sqrt (|r_j - r_i|^2 + eps2)` is zero.  The square root is only asked to be
nonnegative, as the real one is. -/
theorem totalEnergy_formula (sqrt : K → K) (hsqrt : ∀ x, 0 ≤ sqrt x) (s : NBodySystem2D K) :
    s.totalEnergy sqrt =
      (∑ i ∈ Finset.range s.bodyCount,
        0.5 * (s.bodyAt i).m * ((s.bodyAt i).v.x ^ 2 + (s.bodyAt i).v.y ^ 2)) +
      ∑ i ∈ Finset.range s.bodyCount, ∑ j ∈ Finset.Ico (i + 1) s.bodyCount,
        (if sqrt (((s.bodyAt j).r.x - (s.bodyAt i).r.x) ^ 2 +
              ((s.bodyAt j).r.y - (s.bodyAt i).r.y) ^ 2 + s.m_eps2) = 0 then 0
         else -s.m_G * (s.bodyAt i).m * (s.bodyAt j).m /
            sqrt (((s.bodyAt j).r.x - (s.bodyAt i).r.x) ^ 2 +
              ((s.bodyAt j).r.y - (s.bodyAt i).r.y) ^ 2 + s.m_eps2)) := by
  unfold NBodySystem2D.totalEnergy
  simp only
  congr 1
  · rw [forLoop_sum 0 s.bodyCount (Nat.zero_le _) _
      (fun i => 0.5 * (s.bodyAt i).m * ((s.bodyAt i).v.x ^ 2 + (s.bodyAt i).v.y ^ 2))
      (fun i acc _ _ => by ring), zero_add, Finset.range_eq_Ico]
  · rw [forLoop_sum 0 s.bodyCount (Nat.zero_le _) _
      (fun i => ∑ j ∈ Finset.Ico (i + 1) s.bodyCount,
        (if sqrt (((s.bodyAt j).r.x - (s.bodyAt i).r.x) ^ 2 +
              ((s.bodyAt j).r.y - (s.bodyAt i).r.y) ^ 2 + s.m_eps2) = 0 then 0
         else -s.m_G * (s.bodyAt i).m * (s.bodyAt j).m /
            sqrt (((s.bodyAt j).r.x - (s.bodyAt i).r.x) ^ 2 +
              ((s.bodyAt j).r.y - (s.bodyAt i).r.y) ^ 2 + s.m_eps2))) ?_, zero_add,
      Finset.range_eq_Ico]
    intro i acc _ hi
    apply forLoop_sum (i + 1) s.bodyCount (by omega)
    intro j p _ _
    have e : ((s.bodyAt j).r.sub (s.bodyAt i).r).x * ((s.bodyAt j).r.sub (s.bodyAt i).r).x +
        ((s.bodyAt j).r.sub (s.bodyAt i).r).y * ((s.bodyAt j).r.sub (s.bodyAt i).r).y +
        s.m_eps2 = ((s.bodyAt j).r.x - (s.bodyAt i).r.x) ^ 2 +
              ((s.bodyAt j).r.y - (s.bodyAt i).r.y) ^ 2 + s.m_eps2 := by
      simp only [Vec2.sub]; ring
    rw [e]
    by_cases hz : sqrt (((s.bodyAt j).r.x - (s.bodyAt i).r.x) ^ 2 +
              ((s.bodyAt j).r.y - (s.bodyAt i).r.y) ^ 2 + s.m_eps2) = 0
    · simp [hz]
    · have hpos := lt_of_le_of_ne (hsqrt (((s.bodyAt j).r.x - (s.bodyAt i).r.x) ^ 2 +
              ((s.bodyAt j).r.y - (s.bodyAt i).r.y) ^ 2 + s.m_eps2)) (Ne.symm hz)
      simp only [gt_iff_lt, hpos, if_true, hz, if_false]
      ring

/-- Witness for C6: over the reals with the real square root, the unit pair
has total energy `-1`. -/
theorem totalEnergy_formula_witness :
    (unitPair : NBodySystem2D ℝ).totalEnergy Real.sqrt = -1 := by
  rw [totalEnergy_formula Real.sqrt Real.sqrt_nonneg]
  simp [unitPair, NBodySystem2D.bodyCount, NBodySystem2D.bodyAt, Finset.sum_range_succ,
    Body2D.make, Vec2.zero]

end Energy

/-! ## Divisions -/

section Divisors

variable {K : Type} [LinearOrderedField K]

theorem forLoop_fst {σ τ : Type} (body : Nat → σ → σ) (tbody : Nat → σ × τ → σ × τ)
    (h : ∀ i st, (tbody i st).1 = body i st.1) (lo hi : Nat) (st : σ × τ) :
    (forLoop lo hi tbody st).1 = forLoop lo hi body st.1 := by
  unfold forLoop
  generalize List.range' lo (hi - lo) = l
  induction l generalizing st with
  | nil => rfl
  | cons a l ih => simp only [List.foldl_cons]; rw [ih, h]

/-- The traced `computeForces` computes the state `computeForces` computes. -/
theorem computeForcesTraced_fst (sqrt : K → K) (st : NBodySystem2D K × List K) :
    (computeForcesTraced sqrt st).1 = st.1.computeForces sqrt := by
  unfold computeForcesTraced NBodySystem2D.computeForces NBodySystem2D.pairLoop
  simp only
  rw [forLoop_fst (fun i t => forLoop (i + 1) st.1.bodyCount (fun j u => u.pairStep sqrt i j) t)]
  intro i u
  rw [forLoop_fst (fun j u => u.pairStep sqrt i j)]
  intro j w
  rfl

theorem stepEulerTraced_fst (sqrt : K → K) (dt : K) (s : NBodySystem2D K) :
    (stepEulerTraced sqrt dt s).1 = s.stepEuler sqrt dt := by
  unfold stepEulerTraced NBodySystem2D.stepEuler
  simp only
  rw [forLoop_fst (fun i t => t.modifyBody i (Body2D.eulerUpdate dt)) _ (fun i st => rfl),
    computeForcesTraced_fst]

theorem stepSemiEulerTraced_fst (sqrt : K → K) (dt : K) (s : NBodySystem2D K) :
    (stepSemiEulerTraced sqrt dt s).1 = s.stepSemiEuler sqrt dt := by
  unfold stepSemiEulerTraced NBodySystem2D.stepSemiEuler
  simp only
  rw [forLoop_fst (fun i t => t.modifyBody i (Body2D.semiEulerUpdate dt)) _ (fun i st => rfl),
    computeForcesTraced_fst]

theorem stepVerletTraced_fst (sqrt : K → K) (dt : K) (s : NBodySystem2D K) :
    (stepVerletTraced sqrt dt s).1 = s.stepVerlet sqrt dt := by
  unfold stepVerletTraced NBodySystem2D.stepVerlet
  by_cases hn : s.bodyCount = 0
  · simp [hn]
  · simp only [hn, if_false]
    rw [forLoop_fst (fun i t => t.modifyBody i (Body2D.verletVelocity dt
      (((s.computeForces sqrt).storeAccel s.bodyCount).getD i Vec2.zero))) _ ?_,
      computeForcesTraced_fst, computeForcesTraced_fst]
    intro i st
    rw [computeForcesTraced_fst]
    rfl

theorem totalEnergyTraced_fst (sqrt : K → K) (s : NBodySystem2D K) :
    (totalEnergyTraced sqrt s).1 = s.totalEnergy sqrt := by
  unfold totalEnergyTraced NBodySystem2D.totalEnergy
  simp only
  congr 1
  rw [forLoop_fst (fun i pot => forLoop (i + 1) s.bodyCount (fun j p =>
      if sqrt (((s.bodyAt j).r.sub (s.bodyAt i).r).x * ((s.bodyAt j).r.sub (s.bodyAt i).r).x +
          ((s.bodyAt j).r.sub (s.bodyAt i).r).y * ((s.bodyAt j).r.sub (s.bodyAt i).r).y +
          s.m_eps2) > 0
      then p - s.m_G * (s.bodyAt i).m * (s.bodyAt j).m /
        sqrt (((s.bodyAt j).r.sub (s.bodyAt i).r).x * ((s.bodyAt j).r.sub (s.bodyAt i).r).x +
          ((s.bodyAt j).r.sub (s.bodyAt i).r).y * ((s.bodyAt j).r.sub (s.bodyAt i).r).y +
          s.m_eps2)
      else p) pot)]
  intro i st
  rw [forLoop_fst (fun j p =>
      if sqrt (((s.bodyAt j).r.sub (s.bodyAt i).r).x * ((s.bodyAt j).r.sub (s.bodyAt i).r).x +
          ((s.bodyAt j).r.sub (s.bodyAt i).r).y * ((s.bodyAt j).r.sub (s.bodyAt i).r).y +
          s.m_eps2) > 0
      then p - s.m_G * (s.bodyAt i).m * (s.bodyAt j).m /
        sqrt (((s.bodyAt j).r.sub (s.bodyAt i).r).x * ((s.bodyAt j).r.sub (s.bodyAt i).r).x +
          ((s.bodyAt j).r.sub (s.bodyAt i).r).y * ((s.bodyAt j).r.sub (s.bodyAt i).r).y +
          s.m_eps2)
      else p)]
  intro j p
  split <;> rfl

theorem dist2_congr {s t : NBodySystem2D K} (h : SameGeometry s t) (i j : Nat) :
    t.dist2 i j = s.dist2 i j := by
  obtain ⟨_, a2, _, a4⟩ := h
  simp only [NBodySystem2D.dist2, a2, (a4 i).2, (a4 j).2]

/-- With nonnegative softening, the squared distance of two bodies of a
separated system is positive. -/
theorem dist2_pos (s : NBodySystem2D K) (he : 0 ≤ s.m_eps2) (hs : Separated s) (i j : Nat)
    (hij : i < j) (hj : j < s.bodyCount) : 0 < s.dist2 i j := by
  unfold NBodySystem2D.dist2
  simp only [Vec2.sub]
  have hx := mul_self_nonneg ((s.bodyAt j).r.x - (s.bodyAt i).r.x)
  have hy := mul_self_nonneg ((s.bodyAt j).r.y - (s.bodyAt i).r.y)
  rcases hs with hpos | hne
  · linarith
  · have h := hne i j hij hj
    rw [Ne, Vec2.ext_iff2, not_and_or] at h
    rcases h with hx2 | hy2
    · have : (s.bodyAt j).r.x - (s.bodyAt i).r.x ≠ 0 := fun e => hx2 (by linarith)
      have := mul_self_pos.mpr this
      linarith
    · have : (s.bodyAt j).r.y - (s.bodyAt i).r.y ≠ 0 := fun e => hy2 (by linarith)
      have := mul_self_pos.mpr this
      linarith

theorem mass_pos_of_mem (s : NBodySystem2D K) (hm : ∀ b ∈ s.m_bodies, 0 < b.m) (i : Nat)
    (hi : i < s.bodyCount) : 0 < (s.bodyAt i).m := by
  unfold NBodySystem2D.bodyAt NBodySystem2D.bodyCount at *
  rw [List.getD_eq_getElem _ _ hi]
  exact hm _ (List.getElem_mem hi)

/-- The divisors `computeForces` adds to the list are nonzero on a separated
system. -/
theorem computeForcesTraced_log (sqrt : K → K) (hsqrt : ∀ x, 0 < x → sqrt x ≠ 0)
    (st : NBodySystem2D K × List K) (he : 0 ≤ st.1.m_eps2) (hs : Separated st.1)
    (hl : ∀ d ∈ st.2, d ≠ 0) : ∀ d ∈ (computeForcesTraced sqrt st).2, d ≠ 0 := by
  unfold computeForcesTraced
  simp only
  have hc := (clearForces_spec st.1).1
  have key := forLoop_induct
    (fun w : NBodySystem2D K × List K => SameFrame st.1 w.1 ∧ ∀ d ∈ w.2, d ≠ 0)
    0 st.1.bodyCount
    (fun i u => forLoop (i + 1) st.1.bodyCount (fun j w => pairStepTraced sqrt i j w) u)
    ?_ (st.1.clearForces, st.2) ⟨hc, hl⟩
  · exact key.2
  · intro i u _ hi hu
    apply forLoop_induct
      (fun w : NBodySystem2D K × List K => SameFrame st.1 w.1 ∧ ∀ d ∈ w.2, d ≠ 0) _ _ _ _ u hu
    intro j w hj1 hj2 hw
    obtain ⟨hw1, hw2⟩ := hw
    have hcount := hw1.2.2.1
    refine ⟨sameFrame_trans hw1 (pairStep_spec sqrt w.1 i j (by omega) (by omega) (by omega)).1, ?_⟩
    intro d hd
    simp only [pairStepTraced, List.mem_append, List.mem_singleton] at hd
    rcases hd with hd | hd
    · exact hw2 d hd
    · rw [hd, dist2_congr (sameFrame_toGeometry hw1)]
      exact hsqrt _ (dist2_pos st.1 he hs i j (by omega) hj2)

/-- A mass-dividing loop over the bodies records nonzero divisors when the
masses are positive. -/
theorem massLoop_log (s : NBodySystem2D K) (hm : ∀ b ∈ s.m_bodies, 0 < b.m)
    (g : Nat → Body2D K → Body2D K) (hg : ∀ i b, (g i b).m = b.m)
    (st : NBodySystem2D K × List K) (hc : st.1.bodyCount = s.bodyCount)
    (hmass : ∀ k, (st.1.bodyAt k).m = (s.bodyAt k).m) (hl : ∀ d ∈ st.2, d ≠ 0) :
    ∀ d ∈ (forLoop 0 s.bodyCount (massStepTraced g) st).2, d ≠ 0 := by
  have key := forLoop_induct
    (fun w : NBodySystem2D K × List K =>
      (w.1.bodyCount = s.bodyCount ∧ ∀ k, (w.1.bodyAt k).m = (s.bodyAt k).m) ∧
        ∀ d ∈ w.2, d ≠ 0)
    0 s.bodyCount (massStepTraced g) ?_ st ⟨⟨hc, hmass⟩, hl⟩
  · exact key.2
  · intro i w _ hi hw
    obtain ⟨⟨hw1, hw2⟩, hw3⟩ := hw
    refine ⟨⟨by simp [massStepTraced, hw1], fun k => ?_⟩, ?_⟩
    · simp only [massStepTraced, bodyAt_modifyBody]
      split
      · rw [hg, hw2]
      · exact hw2 k
    · intro d hd
      simp only [massStepTraced, List.mem_append, List.mem_cons, List.mem_singleton,
        List.not_mem_nil, or_false, or_self] at hd
      rcases hd with hd | hd
      · exact hw3 d hd
      · rw [hd, hw2]
        exact (mass_pos_of_mem s hm i hi).ne.symm

/-- The guard of `totalEnergy` keeps zero out of its divisors. -/
theorem totalEnergyTraced_log (sqrt : K → K) (s : NBodySystem2D K) :
    ∀ d ∈ (totalEnergyTraced sqrt s).2, d ≠ 0 := by
  unfold totalEnergyTraced
  simp only
  have key := forLoop_induct (fun w : K × List K => ∀ d ∈ w.2, d ≠ 0) 0 s.bodyCount
    (fun i pot => forLoop (i + 1) s.bodyCount (fun j (p : K × List K) =>
      if sqrt (((s.bodyAt j).r.sub (s.bodyAt i).r).x * ((s.bodyAt j).r.sub (s.bodyAt i).r).x +
          ((s.bodyAt j).r.sub (s.bodyAt i).r).y * ((s.bodyAt j).r.sub (s.bodyAt i).r).y +
          s.m_eps2) > 0
      then (p.1 - s.m_G * (s.bodyAt i).m * (s.bodyAt j).m /
        sqrt (((s.bodyAt j).r.sub (s.bodyAt i).r).x * ((s.bodyAt j).r.sub (s.bodyAt i).r).x +
          ((s.bodyAt j).r.sub (s.bodyAt i).r).y * ((s.bodyAt j).r.sub (s.bodyAt i).r).y +
          s.m_eps2), p.2 ++ [sqrt (((s.bodyAt j).r.sub (s.bodyAt i).r).x *
            ((s.bodyAt j).r.sub (s.bodyAt i).r).x +
          ((s.bodyAt j).r.sub (s.bodyAt i).r).y * ((s.bodyAt j).r.sub (s.bodyAt i).r).y +
          s.m_eps2)])
      else p) pot) ?_ ((0 : K), []) (by simp)
  · exact key
  · intro i u _ _ hu
    apply forLoop_induct (fun w : K × List K => ∀ d ∈ w.2, d ≠ 0) _ _ _ _ u hu
    intro j w _ _ hw
    split
    · rename_i hpos
      intro d hd
      simp only [List.mem_append, List.mem_singleton] at hd
      rcases hd with hd | hd
      · exact hw d hd
      · rw [hd]; exact (ne_of_gt hpos)
    · exact hw

theorem stepTraced_log (sqrt : K → K) (hsqrt : ∀ x, 0 < x → sqrt x ≠ 0)
    (s : NBodySystem2D K) (hm : ∀ b ∈ s.m_bodies, 0 < b.m) (he : 0 ≤ s.m_eps2)
    (hs : Separated s) (g : Nat → Body2D K → Body2D K) (hg : ∀ i b, (g i b).m = b.m) :
    ∀ d ∈ (forLoop 0 (computeForcesTraced sqrt (s, [])).1.bodyCount (massStepTraced g)
      (computeForcesTraced sqrt (s, []))).2, d ≠ 0 := by
  have hfr : SameFrame s (computeForcesTraced sqrt (s, [])).1 := by
    rw [computeForcesTraced_fst]; exact (computeForces_spec sqrt s).1
  rw [hfr.2.2.1]
  exact massLoop_log s hm g hg _ hfr.2.2.1 (fun k => (hfr.2.2.2 k).1)
    (computeForcesTraced_log sqrt hsqrt (s, []) he hs (by simp))

theorem stepVerletTraced_log (sqrt : K → K) (hsqrt : ∀ x, 0 < x → sqrt x ≠ 0) (dt : K)
    (s : NBodySystem2D K) (hm : ∀ b ∈ s.m_bodies, 0 < b.m) (he : 0 ≤ s.m_eps2)
    (hs : Separated s) (hs2 : Separated (verletMoved sqrt dt s)) :
    ∀ d ∈ (stepVerletTraced sqrt dt s).2, d ≠ 0 := by
  unfold stepVerletTraced
  by_cases hn : s.bodyCount = 0
  · simp [hn]
  · simp only [hn, if_false]
    have hfr : SameFrame s (computeForcesTraced sqrt (s, [])).1 := by
      rw [computeForcesTraced_fst]; exact (computeForces_spec sqrt s).1
    have hl1 : ∀ d ∈ forLoop 0 s.bodyCount (fun i l =>
        l ++ [((computeForcesTraced sqrt (s, [])).1.bodyAt i).m,
          ((computeForcesTraced sqrt (s, [])).1.bodyAt i).m])
        (computeForcesTraced sqrt (s, [])).2, d ≠ 0 := by
      apply forLoop_induct (fun l : List K => ∀ d ∈ l, d ≠ 0)
      · intro i l _ hi hl d hd
        simp only [List.mem_append, List.mem_cons, List.mem_singleton, List.not_mem_nil,
          or_false, or_self] at hd
        rcases hd with hd | hd
        · exact hl d hd
        · rw [hd, (hfr.2.2.2 i).1]
          exact (mass_pos_of_mem s hm i hi).ne.symm
      · exact computeForcesTraced_log sqrt hsqrt (s, []) he hs (by simp)
    have hpos : forLoop 0 s.bodyCount (fun i t => t.modifyBody i (Body2D.verletPosition dt
        (((computeForcesTraced sqrt (s, [])).1.storeAccel s.bodyCount).getD i Vec2.zero)))
        (computeForcesTraced sqrt (s, [])).1 = verletMoved sqrt dt s := by
      rw [computeForcesTraced_fst]; exact verlet_position_loop sqrt dt s
    rw [hpos]
    obtain ⟨_, m2, m3, m4⟩ := verletMoved_spec sqrt dt s
    have hfr3 : ∀ l : List K, SameFrame (verletMoved sqrt dt s)
        (computeForcesTraced sqrt (verletMoved sqrt dt s, l)).1 := by
      intro l
      rw [computeForcesTraced_fst]; exact (computeForces_spec sqrt _).1
    refine massLoop_log s hm _ ?_ _ ((hfr3 _).2.2.1.trans m3) ?_ ?_
    · intro i b; rfl
    · intro k
      rw [((hfr3 _).2.2.2 k).1]
      by_cases hk : k < s.bodyCount
      · exact (m4 k hk).1
      · rw [bodyAt_of_le _ k (by omega), bodyAt_of_le _ k (by omega)]
    · exact computeForcesTraced_log sqrt hsqrt _ (by rw [m2]; exact he) hs2 hl1

/-- Claim C8, amended. With every mass positive and `eps2 >= 0`, no divisor is
zero in `computeForces`, `stepEuler` and `stepSemiEuler` on a system that is
separated (no two bodies at the same place, or `eps2 > 0`), nor in `stepVerlet`
when the moved system it evaluates the second forces on is separated as well;
`eps2 > 0` makes every system separated; and `totalEnergy` never divides by
zero, whatever the system.  The square root is only asked to be nonzero on
positive numbers, as the real one is. -/
theorem divisors_nonzero (sqrt : K → K) (hsqrt : ∀ x, 0 < x → sqrt x ≠ 0) (dt : K)
    (s : NBodySystem2D K) (hm : ∀ b ∈ s.m_bodies, 0 < b.m) (he : 0 ≤ s.m_eps2) :
    (Separated s → ∀ d ∈ (computeForcesTraced sqrt (s, [])).2, d ≠ 0) ∧
    (Separated s → ∀ d ∈ (stepEulerTraced sqrt dt s).2, d ≠ 0) ∧
    (Separated s → ∀ d ∈ (stepSemiEulerTraced sqrt dt s).2, d ≠ 0) ∧
    (Separated s → Separated (verletMoved sqrt dt s) →
      ∀ d ∈ (stepVerletTraced sqrt dt s).2, d ≠ 0) ∧
    (∀ d ∈ (totalEnergyTraced sqrt s).2, d ≠ 0) ∧
    (0 < s.m_eps2 → Separated s ∧ Separated (verletMoved sqrt dt s)) := by
  refine ⟨fun hs => computeForcesTraced_log sqrt hsqrt (s, []) he hs (by simp),
    fun hs => stepTraced_log sqrt hsqrt s hm he hs _ (fun i b => rfl),
    fun hs => stepTraced_log sqrt hsqrt s hm he hs _ (fun i b => rfl),
    fun hs hs2 => stepVerletTraced_log sqrt hsqrt dt s hm he hs hs2,
    totalEnergyTraced_log sqrt s,
    fun hp => ⟨Or.inl hp, Or.inl ?_⟩⟩
  rw [(verletMoved_spec sqrt dt s).2.1]
  exact hp

/-- Counterexample to C8 as stated: over the reals, the two coincident bodies
have positive masses and `eps2 = 0 >= 0`, and `computeForces` divides by zero. -/
theorem divisors_zero_coincident :
    (0 ≤ (coincidentPair : NBodySystem2D ℝ).m_eps2 ∧
      ∀ b ∈ (coincidentPair : NBodySystem2D ℝ).m_bodies, 0 < b.m) ∧
    (0 : ℝ) ∈ (computeForcesTraced Real.sqrt ((coincidentPair : NBodySystem2D ℝ), [])).2 := by
  constructor
  · simp [coincidentPair, Body2D.make]
  · simp [computeForcesTraced, coincidentPair, NBodySystem2D.bodyCount, forLoop, List.range',
      pairStepTraced, NBodySystem2D.dist2, NBodySystem2D.clearForces, NBodySystem2D.bodyAt,
      NBodySystem2D.modifyBody, Body2D.make, Body2D.clearForce, Vec2.sub, Vec2.zero,
      NBodySystem2D.pairStep, Body2D.addForce]

/-- Witness for C8: over the reals with the real square root, one Euler step
of the unit pair divides by nonzero values only. -/
theorem divisors_nonzero_witness :
    (0 ≤ (unitPair : NBodySystem2D ℝ).m_eps2 ∧
      (∀ b ∈ (unitPair : NBodySystem2D ℝ).m_bodies, 0 < b.m) ∧
      Separated (unitPair : NBodySystem2D ℝ)) ∧
    ∀ d ∈ (stepEulerTraced Real.sqrt 1 (unitPair : NBodySystem2D ℝ)).2, d ≠ 0 := by
  have he : 0 ≤ (unitPair : NBodySystem2D ℝ).m_eps2 := by simp [unitPair]
  have hm : ∀ b ∈ (unitPair : NBodySystem2D ℝ).m_bodies, 0 < b.m := by
    simp [unitPair, Body2D.make]
  have hs : Separated (unitPair : NBodySystem2D ℝ) := by
    right
    intro i j hij hj
    have hj2 : j < 2 := hj
    have hj1 : j = 1 := by omega
    have hi0 : i = 0 := by omega
    subst hj1 hi0
    simp [unitPair, NBodySystem2D.bodyAt, Body2D.make]
  exact ⟨⟨he, hm, hs⟩,
    (divisors_nonzero Real.sqrt (fun x hx => (Real.sqrt_pos.mpr hx).ne.symm) 1 unitPair
      hm he).2.1 hs⟩

end Divisors

/-! ## Small systems and repeated calls -/

section Small

variable {K : Type} [LinearOrderedField K]

set_option linter.unusedSectionVars false

theorem body_ext (a b : Body2D K) (hm : a.m = b.m) (hr : a.r = b.r) (hv : a.v = b.v)
    (hf : a.f = b.f) : a = b := by
  cases a; cases b; simp_all

/-- What holds of the body at every index in range holds of every body of the list. -/
theorem forall_mem_of_bodyAt (s : NBodySystem2D K) (P : Body2D K → Prop)
    (h : ∀ k, k < s.bodyCount → P (s.bodyAt k)) : ∀ b ∈ s.m_bodies, P b := by
  intro b hb
  obtain ⟨k, hk, rfl⟩ := List.mem_iff_getElem.mp hb
  have := h k hk
  unfold NBodySystem2D.bodyAt at this
  rwa [List.getD_eq_getElem _ _ hk] at this

theorem stepVerlet_eq_stepVerletWith (sqrt : K → K) (dt : K) (s : NBodySystem2D K) :
    s.stepVerlet sqrt dt = s.stepVerletWith (fun t => t.computeForces sqrt) dt := rfl

/-- Claim C11. On a system with no body or exactly one body, every force
accumulator is `(0,0)` after `computeForces`, whatever it held before. -/
theorem computeForces_small (sqrt : K → K) (s : NBodySystem2D K) (h : s.bodyCount ≤ 1) :
    ∀ b ∈ (s.computeForces sqrt).m_bodies, b.f = ⟨0, 0⟩ := by
  obtain ⟨hfr, hf⟩ := computeForces_spec sqrt s
  apply forall_mem_of_bodyAt
  intro k hk
  rw [hfr.2.2.1] at hk
  rw [hf k hk, netForce]
  have hk0 : k = 0 := by omega
  have hn : s.bodyCount = 1 := by omega
  rw [hk0, hn]
  rfl

/-- Witness for C11: a lone body whose accumulator held `(3, -2)` before the call. -/
theorem computeForces_small_witness :
    (loneBody (⟨2, ⟨1, 1⟩, ⟨0, 1⟩, ⟨3, -2⟩⟩ : Body2D ℝ) 1 0).bodyCount ≤ 1 ∧
    ((loneBody (⟨2, ⟨1, 1⟩, ⟨0, 1⟩, ⟨3, -2⟩⟩ : Body2D ℝ) 1 0).computeForces Real.sqrt).m_bodies.map
      (fun b => b.f) = [⟨0, 0⟩] := by
  have h : (loneBody (⟨2, ⟨1, 1⟩, ⟨0, 1⟩, ⟨3, -2⟩⟩ : Body2D ℝ) 1 0).bodyCount ≤ 1 := by
    simp [loneBody, NBodySystem2D.bodyCount]
  refine ⟨h, ?_⟩
  have hall := computeForces_small Real.sqrt _ h
  have hlen : ((loneBody (⟨2, ⟨1, 1⟩, ⟨0, 1⟩, ⟨3, -2⟩⟩ : Body2D ℝ) 1 0).computeForces
      Real.sqrt).m_bodies.length = 1 := (computeForces_spec Real.sqrt _).1.2.2.1
  match hl : ((loneBody (⟨2, ⟨1, 1⟩, ⟨0, 1⟩, ⟨3, -2⟩⟩ : Body2D ℝ) 1 0).computeForces
      Real.sqrt).m_bodies, hlen, hall with
  | [b], _, hall =>
    simp only [List.map_cons, List.map_nil]
    rw [hall b (List.mem_singleton.mpr rfl)]

/-- Claim C12. On a system with no body, `stepVerlet(dt)` returns the state as
it was (empty body list, `G`, `eps2`); it divides by nothing; and it makes no
use of the force evaluation: the result is the same whatever procedure stands
in the place of `computeForces`. -/
theorem stepVerlet_empty (sqrt : K → K) (dt : K) (s : NBodySystem2D K)
    (h : s.bodyCount = 0) :
    s.stepVerlet sqrt dt = s ∧ s.m_bodies = [] ∧
    stepVerletTraced sqrt dt s = (s, []) ∧
    ∀ forces : NBodySystem2D K → NBodySystem2D K, s.stepVerletWith forces dt = s := by
  refine ⟨by simp [NBodySystem2D.stepVerlet, h], ?_, by simp [stepVerletTraced, h],
    fun forces => by simp [NBodySystem2D.stepVerletWith, h]⟩
  exact List.length_eq_zero.mp h

/-- Witness for C12: the empty system with `G = 1`, `eps2 = 0`, over the reals. -/
theorem stepVerlet_empty_witness :
    (⟨[], 1, 0⟩ : NBodySystem2D ℝ).bodyCount = 0 ∧
    (⟨[], 1, 0⟩ : NBodySystem2D ℝ).stepVerlet Real.sqrt 1 = ⟨[], 1, 0⟩ :=
  ⟨rfl, (stepVerlet_empty Real.sqrt 1 ⟨[], 1, 0⟩ rfl).1⟩

/-- The result of `computeForces` depends on the frame only, not on the
accumulators. -/
theorem computeForces_congr (sqrt : K → K) {s t : NBodySystem2D K} (h : SameFrame s t) :
    t.computeForces sqrt = s.computeForces sqrt := by
  obtain ⟨⟨a1, a2, a3, a4⟩, a5⟩ := computeForces_spec sqrt s
  obtain ⟨⟨b1, b2, b3, b4⟩, b5⟩ := computeForces_spec sqrt t
  obtain ⟨h1, h2, h3, h4⟩ := h
  apply system_ext
  · rw [b1, a1, h1]
  · rw [b2, a2, h2]
  · rw [b3, a3, h3]
  · intro k hk
    rw [b3] at hk
    apply body_ext
    · rw [(b4 k).1, (a4 k).1, (h4 k).1]
    · rw [(b4 k).2.1, (a4 k).2.1, (h4 k).2.1]
    · rw [(b4 k).2.2, (a4 k).2.2, (h4 k).2.2]
    · rw [b5 k hk, a5 k (by omega)]
      exact netForce_congr sqrt ⟨h1, h2, h3, h4⟩ k

/-- Claim C13. `computeForces` is idempotent: a second call in a row leaves the
state of the first; indeed the result is the same for any two systems that
differ in their accumulators only. -/
theorem computeForces_idempotent (sqrt : K → K) (s : NBodySystem2D K) :
    (s.computeForces sqrt).computeForces sqrt = s.computeForces sqrt ∧
    ∀ t, SameFrame s t → t.computeForces sqrt = s.computeForces sqrt :=
  ⟨computeForces_congr sqrt (computeForces_spec sqrt s).1, fun _ h => computeForces_congr sqrt h⟩

theorem bodies_of_two (s : NBodySystem2D K) (h : s.bodyCount = 2) :
    s.m_bodies = [s.bodyAt 0, s.bodyAt 1] := by
  unfold NBodySystem2D.bodyCount NBodySystem2D.bodyAt at *
  match hl : s.m_bodies, h with
  | [a, b], _ => simp

theorem bodyAt_mem (s : NBodySystem2D K) (k : Nat) (hk : k < s.bodyCount) :
    s.bodyAt k ∈ s.m_bodies := by
  unfold NBodySystem2D.bodyAt NBodySystem2D.bodyCount at *
  rw [List.getD_eq_getElem _ _ hk]
  exact List.getElem_mem hk

/-- Claim C14. When every body is at rest, one `stepEuler(dt)` leaves every
position unchanged; and on the unit pair (`G = 1`, `eps2 = 0`, masses 1, at
rest at `(0,0)` and `(1,0)`) over the reals, `stepEuler(1)` leaves the positions
at `(0,0)` and `(1,0)` and sets the velocities to `(1,0)` and `(-1,0)`. -/
theorem stepEuler_at_rest (sqrt : K → K) (dt : K) (s : NBodySystem2D K) :
    ((∀ b ∈ s.m_bodies, b.v = ⟨0, 0⟩) →
      (s.stepEuler sqrt dt).m_bodies.map (fun b => b.r) = s.m_bodies.map (fun b => b.r)) ∧
    ((unitPair : NBodySystem2D ℝ).stepEuler Real.sqrt 1).m_bodies.map (fun b => (b.r, b.v)) =
      [(⟨0, 0⟩, ⟨1, 0⟩), (⟨1, 0⟩, ⟨-1, 0⟩)] := by
  constructor
  · intro hv
    obtain ⟨_, _, h3, h4⟩ := stepEuler_spec sqrt dt s
    obtain ⟨_, _, _, a4⟩ := (computeForces_spec sqrt s).1
    apply map_eq_of_bodyAt _ _ _ h3
    intro k hk
    have hvk := hv _ (bodyAt_mem s k hk)
    rw [h4 k hk]
    simp only [Body2D.eulerUpdate, (a4 k).2.1, (a4 k).2.2, hvk]
    rw [Vec2.ext_iff2]
    simp
  · obtain ⟨_, _, h3, h4⟩ := stepEuler_spec Real.sqrt 1 (unitPair : NBodySystem2D ℝ)
    obtain ⟨⟨_, _, _, a4⟩, a5⟩ := computeForces_spec Real.sqrt (unitPair : NBodySystem2D ℝ)
    have hn : (unitPair : NBodySystem2D ℝ).bodyCount = 2 := rfl
    have e0 : (Finset.range 2).erase 0 = {1} := by decide
    have e1 : (Finset.range 2).erase 1 = {0} := by decide
    rw [bodies_of_two _ (h3.trans hn), h4 0 (by omega), h4 1 (by omega)]
    simp only [List.map_cons, List.map_nil, Body2D.eulerUpdate, (a4 0).1, (a4 0).2.1, (a4 0).2.2,
      (a4 1).1, (a4 1).2.1, (a4 1).2.2, a5 0 (by omega), a5 1 (by omega)]
    simp [unitPair, NBodySystem2D.bodyCount, e0, e1, netForce, newtonForce,
      NBodySystem2D.bodyAt, Body2D.make, Vec2.zero]

/-- Claim C15. A system with exactly one body, of mass `m` and velocity `v`, has
total energy `0.5 * m * (v.x^2 + v.y^2)`, whatever `G`, `eps2` and the position;
the energy is `0` when the body is at rest. -/
theorem totalEnergy_lone (sqrt : K → K) (b : Body2D K) (G eps2 : K) :
    (loneBody b G eps2).totalEnergy sqrt = 0.5 * b.m * (b.v.x ^ 2 + b.v.y ^ 2) ∧
    (b.v = ⟨0, 0⟩ → (loneBody b G eps2).totalEnergy sqrt = 0) := by
  have h : (loneBody b G eps2).totalEnergy sqrt = 0.5 * b.m * (b.v.x ^ 2 + b.v.y ^ 2) := by
    simp only [NBodySystem2D.totalEnergy, loneBody, NBodySystem2D.bodyCount, List.length_cons,
      List.length_nil, forLoop, NBodySystem2D.bodyAt]
    simp only [Nat.reduceAdd, Nat.reduceSub, List.range'_one, List.range'_zero, List.foldl_cons,
      List.foldl_nil, List.getD_cons_zero]
    ring
  refine ⟨h, fun hv => ?_⟩
  rw [h, hv]
  simp

end Small

/-! ## Softening, over the reals -/

section Softening

/-- The forces `computeForces` leaves on the two bodies of a two-body system. -/
theorem twoBodies_forces {K : Type} [LinearOrderedField K] (sqrt : K → K) (b0 b1 : Body2D K)
    (G eps2 : K) :
    (((twoBodies b0 b1 G eps2).computeForces sqrt).bodyAt 0).f =
      ⟨G * b0.m * b1.m * (1 / sqrt ((b1.r.x - b0.r.x) ^ 2 + (b1.r.y - b0.r.y) ^ 2 + eps2)) ^ 3 *
          (b1.r.x - b0.r.x),
       G * b0.m * b1.m * (1 / sqrt ((b1.r.x - b0.r.x) ^ 2 + (b1.r.y - b0.r.y) ^ 2 + eps2)) ^ 3 *
          (b1.r.y - b0.r.y)⟩ ∧
    (((twoBodies b0 b1 G eps2).computeForces sqrt).bodyAt 1).f =
      ⟨G * b0.m * b1.m * (1 / sqrt ((b1.r.x - b0.r.x) ^ 2 + (b1.r.y - b0.r.y) ^ 2 + eps2)) ^ 3 *
          (b0.r.x - b1.r.x),
       G * b0.m * b1.m * (1 / sqrt ((b1.r.x - b0.r.x) ^ 2 + (b1.r.y - b0.r.y) ^ 2 + eps2)) ^ 3 *
          (b0.r.y - b1.r.y)⟩ := by
  have h := (computeForces_spec sqrt (twoBodies b0 b1 G eps2)).2
  have hn : (twoBodies b0 b1 G eps2).bodyCount = 2 := rfl
  have e0 : (Finset.range 2).erase 0 = {1} := by decide
  have e1 : (Finset.range 2).erase 1 = {0} := by decide
  have h0 : (twoBodies b0 b1 G eps2).bodyAt 0 = b0 := rfl
  have h1 : (twoBodies b0 b1 G eps2).bodyAt 1 = b1 := rfl
  have hG : (twoBodies b0 b1 G eps2).m_G = G := rfl
  have he : (twoBodies b0 b1 G eps2).m_eps2 = eps2 := rfl
  have esq : (b0.r.x - b1.r.x) ^ 2 + (b0.r.y - b1.r.y) ^ 2 + eps2 =
      (b1.r.x - b0.r.x) ^ 2 + (b1.r.y - b0.r.y) ^ 2 + eps2 := by ring
  constructor
  · rw [h 0 (by omega), netForce, hn, e0, Finset.sum_singleton]
    simp only [newtonForce, h0, h1, hG, he]
  · rw [h 1 (by omega), netForce, hn, e1, Finset.sum_singleton]
    simp only [newtonForce, h0, h1, hG, he, esq]
    rw [Vec2.ext_iff2]
    constructor <;> ring

/-- The Euclidean length of a scaled vector, over the reals. -/
theorem norm_scaled (c x y : ℝ) :
    Vec2.norm Real.sqrt (⟨c * x, c * y⟩ : Vec2 ℝ) = |c| * Real.sqrt (x ^ 2 + y ^ 2) := by
  unfold Vec2.norm
  have e : c * x * (c * x) + c * y * (c * y) = c ^ 2 * (x ^ 2 + y ^ 2) := by ring
  rw [e, Real.sqrt_mul (sq_nonneg c), Real.sqrt_sq_eq_abs]

/-- The magnitudes of the two forces of a two-body system, over the reals. -/
theorem twoBodies_magnitude (b0 b1 : Body2D ℝ) (G eps2 : ℝ) :
    Vec2.norm Real.sqrt (((twoBodies b0 b1 G eps2).computeForces Real.sqrt).bodyAt 0).f =
      |G * b0.m * b1.m| *
        (1 / Real.sqrt ((b1.r.x - b0.r.x) ^ 2 + (b1.r.y - b0.r.y) ^ 2 + eps2)) ^ 3 *
        Real.sqrt ((b1.r.x - b0.r.x) ^ 2 + (b1.r.y - b0.r.y) ^ 2) ∧
    Vec2.norm Real.sqrt (((twoBodies b0 b1 G eps2).computeForces Real.sqrt).bodyAt 1).f =
      |G * b0.m * b1.m| *
        (1 / Real.sqrt ((b1.r.x - b0.r.x) ^ 2 + (b1.r.y - b0.r.y) ^ 2 + eps2)) ^ 3 *
        Real.sqrt ((b1.r.x - b0.r.x) ^ 2 + (b1.r.y - b0.r.y) ^ 2) := by
  obtain ⟨h0, h1⟩ := twoBodies_forces Real.sqrt b0 b1 G eps2
  have hinv : 0 ≤ (1 / Real.sqrt ((b1.r.x - b0.r.x) ^ 2 + (b1.r.y - b0.r.y) ^ 2 + eps2)) ^ 3 :=
    pow_nonneg (div_nonneg zero_le_one (Real.sqrt_nonneg _)) 3
  have esq : (b0.r.x - b1.r.x) ^ 2 + (b0.r.y - b1.r.y) ^ 2 =
      (b1.r.x - b0.r.x) ^ 2 + (b1.r.y - b0.r.y) ^ 2 := by ring
  rw [h0, h1, norm_scaled, norm_scaled, esq, abs_mul, abs_of_nonneg hinv]
  exact ⟨rfl, rfl⟩

theorem sep_sq_pos (b0 b1 : Body2D ℝ) (hsep : b0.r ≠ b1.r) :
    0 < (b1.r.x - b0.r.x) ^ 2 + (b1.r.y - b0.r.y) ^ 2 := by
  rw [Ne, Vec2.ext_iff2, not_and_or] at hsep
  have hx := sq_nonneg (b1.r.x - b0.r.x)
  have hy := sq_nonneg (b1.r.y - b0.r.y)
  rcases hsep with h | h
  · have : b1.r.x - b0.r.x ≠ 0 := fun e => h (by linarith)
    have := sq_pos_of_ne_zero this
    linarith
  · have : b1.r.y - b0.r.y ≠ 0 := fun e => h (by linarith)
    have := sq_pos_of_ne_zero this
    linarith

/-- With `G` nonzero, positive masses and distinct positions, a larger
softening gives a strictly smaller magnitude factor. -/
theorem magnitude_strict (b0 b1 : Body2D ℝ) (G ea eb : ℝ) (hG : G ≠ 0) (hm0 : 0 < b0.m)
    (hm1 : 0 < b1.m) (hsep : b0.r ≠ b1.r) (ha : 0 ≤ ea) (hab : ea < eb) :
    |G * b0.m * b1.m| *
        (1 / Real.sqrt ((b1.r.x - b0.r.x) ^ 2 + (b1.r.y - b0.r.y) ^ 2 + eb)) ^ 3 *
        Real.sqrt ((b1.r.x - b0.r.x) ^ 2 + (b1.r.y - b0.r.y) ^ 2) <
    |G * b0.m * b1.m| *
        (1 / Real.sqrt ((b1.r.x - b0.r.x) ^ 2 + (b1.r.y - b0.r.y) ^ 2 + ea)) ^ 3 *
        Real.sqrt ((b1.r.x - b0.r.x) ^ 2 + (b1.r.y - b0.r.y) ^ 2) := by
  have hR := sep_sq_pos b0 b1 hsep
  have hsR : 0 < Real.sqrt ((b1.r.x - b0.r.x) ^ 2 + (b1.r.y - b0.r.y) ^ 2) :=
    Real.sqrt_pos.mpr hR
  have hc : 0 < |G * b0.m * b1.m| :=
    abs_pos.mpr (mul_ne_zero (mul_ne_zero hG hm0.ne.symm) hm1.ne.symm)
  have hDa : 0 < (b1.r.x - b0.r.x) ^ 2 + (b1.r.y - b0.r.y) ^ 2 + ea := by linarith
  have hsa : 0 < Real.sqrt ((b1.r.x - b0.r.x) ^ 2 + (b1.r.y - b0.r.y) ^ 2 + ea) :=
    Real.sqrt_pos.mpr hDa
  have hlt : Real.sqrt ((b1.r.x - b0.r.x) ^ 2 + (b1.r.y - b0.r.y) ^ 2 + ea) <
      Real.sqrt ((b1.r.x - b0.r.x) ^ 2 + (b1.r.y - b0.r.y) ^ 2 + eb) :=
    Real.sqrt_lt_sqrt hDa.le (by linarith)
  have hinv := one_div_lt_one_div_of_lt hsa hlt
  have hpos : 0 ≤ 1 / Real.sqrt ((b1.r.x - b0.r.x) ^ 2 + (b1.r.y - b0.r.y) ^ 2 + eb) :=
    div_nonneg zero_le_one (Real.sqrt_nonneg _)
  have hpow := pow_lt_pow_left₀ hinv hpos (by norm_num : (3 : ℕ) ≠ 0)
  exact mul_lt_mul_of_pos_right (mul_lt_mul_of_pos_left hpow hc) hsR

/-- Claim C16, amended. For every `G` other than zero, two bodies with positive
masses at distinct positions, and `0 <= eps2_a < eps2_b`, the magnitude of the
force `computeForces` puts on each of the two bodies with `eps2 = eps2_b` is
strictly smaller than with `eps2 = eps2_a` (real-number model). -/
theorem softening_decreases (b0 b1 : Body2D ℝ) (G ea eb : ℝ) (hG : G ≠ 0) (hm0 : 0 < b0.m)
    (hm1 : 0 < b1.m) (hsep : b0.r ≠ b1.r) (ha : 0 ≤ ea) (hab : ea < eb) :
    Vec2.norm Real.sqrt (((twoBodies b0 b1 G eb).computeForces Real.sqrt).bodyAt 0).f <
      Vec2.norm Real.sqrt (((twoBodies b0 b1 G ea).computeForces Real.sqrt).bodyAt 0).f ∧
    Vec2.norm Real.sqrt (((twoBodies b0 b1 G eb).computeForces Real.sqrt).bodyAt 1).f <
      Vec2.norm Real.sqrt (((twoBodies b0 b1 G ea).computeForces Real.sqrt).bodyAt 1).f := by
  obtain ⟨a0, a1⟩ := twoBodies_magnitude b0 b1 G ea
  obtain ⟨c0, c1⟩ := twoBodies_magnitude b0 b1 G eb
  rw [a0, a1, c0, c1]
  exact ⟨magnitude_strict b0 b1 G ea eb hG hm0 hm1 hsep ha hab,
    magnitude_strict b0 b1 G ea eb hG hm0 hm1 hsep ha hab⟩

/-- Counterexample to C16 as stated: with `G = 0` the two unit masses at
`(0,0)` and `(1,0)` feel a force of magnitude zero both with `eps2 = 0` and with
`eps2 = 1`, so the magnitude with the larger softening is not strictly smaller. -/
theorem softening_not_strict_at_zero_G :
    ((0 : ℝ) < (Body2D.make 1 ⟨0, 0⟩ ⟨0, 0⟩ : Body2D ℝ).m ∧
      (0 : ℝ) < (Body2D.make 1 ⟨1, 0⟩ ⟨0, 0⟩ : Body2D ℝ).m ∧
      (Body2D.make 1 ⟨0, 0⟩ ⟨0, 0⟩ : Body2D ℝ).r ≠ (Body2D.make 1 ⟨1, 0⟩ ⟨0, 0⟩ : Body2D ℝ).r ∧
      (0 : ℝ) ≤ 0 ∧ (0 : ℝ) < 1) ∧
    ¬ (Vec2.norm Real.sqrt (((twoBodies (Body2D.make 1 ⟨0, 0⟩ ⟨0, 0⟩)
          (Body2D.make 1 ⟨1, 0⟩ ⟨0, 0⟩) (0 : ℝ) 1).computeForces Real.sqrt).bodyAt 0).f <
       Vec2.norm Real.sqrt (((twoBodies (Body2D.make 1 ⟨0, 0⟩ ⟨0, 0⟩)
          (Body2D.make 1 ⟨1, 0⟩ ⟨0, 0⟩) (0 : ℝ) 0).computeForces Real.sqrt).bodyAt 0).f) := by
  refine ⟨⟨by simp [Body2D.make], by simp [Body2D.make], by simp [Body2D.make], le_refl _,
    zero_lt_one⟩, ?_⟩
  rw [(twoBodies_magnitude _ _ 0 1).1, (twoBodies_magnitude _ _ 0 0).1]
  simp

/-- Witness for C16: over the reals, the unit masses at `(0,0)` and `(1,0)` with
`G = 1`, and the softenings `0 < 3`. -/
theorem softening_decreases_witness :
    ((1 : ℝ) ≠ 0 ∧ (0 : ℝ) ≤ 0 ∧ (0 : ℝ) < 3) ∧
    Vec2.norm Real.sqrt (((twoBodies (Body2D.make 1 ⟨0, 0⟩ ⟨0, 0⟩)
          (Body2D.make 1 ⟨1, 0⟩ ⟨0, 0⟩) (1 : ℝ) 3).computeForces Real.sqrt).bodyAt 0).f <
      Vec2.norm Real.sqrt (((twoBodies (Body2D.make 1 ⟨0, 0⟩ ⟨0, 0⟩)
          (Body2D.make 1 ⟨1, 0⟩ ⟨0, 0⟩) (1 : ℝ) 0).computeForces Real.sqrt).bodyAt 0).f :=
  ⟨⟨one_ne_zero, le_refl _, by norm_num⟩,
   (softening_decreases (Body2D.make 1 ⟨0, 0⟩ ⟨0, 0⟩) (Body2D.make 1 ⟨1, 0⟩ ⟨0, 0⟩) 1 0 3
      one_ne_zero (by simp [Body2D.make]) (by simp [Body2D.make]) (by simp [Body2D.make])
      (le_refl _) (by norm_num)).1⟩

/-- The pair force of `computeForces`, component by component. -/
theorem pairForce_components {K : Type} [LinearOrderedField K] (sqrt : K → K)
    (s : NBodySystem2D K) (i j : Nat) :
    s.pairForce sqrt i j =
      ⟨s.m_G * (s.bodyAt i).m * (s.bodyAt j).m *
          (1 / sqrt (((s.bodyAt j).r.x - (s.bodyAt i).r.x) ^ 2 +
            ((s.bodyAt j).r.y - (s.bodyAt i).r.y) ^ 2 + s.m_eps2)) ^ 3 *
          ((s.bodyAt j).r.x - (s.bodyAt i).r.x),
       s.m_G * (s.bodyAt i).m * (s.bodyAt j).m *
          (1 / sqrt (((s.bodyAt j).r.x - (s.bodyAt i).r.x) ^ 2 +
            ((s.bodyAt j).r.y - (s.bodyAt i).r.y) ^ 2 + s.m_eps2)) ^ 3 *
          ((s.bodyAt j).r.y - (s.bodyAt i).r.y)⟩ := by
  rw [pairForce_eq_newtonForce]
  rfl

/-- The magnitude of the pair force, over the reals. -/
theorem norm_pairForce (s : NBodySystem2D ℝ) (i j : Nat) :
    Vec2.norm Real.sqrt (s.pairForce Real.sqrt i j) =
      |s.m_G * (s.bodyAt i).m * (s.bodyAt j).m| *
        (1 / Real.sqrt (((s.bodyAt j).r.x - (s.bodyAt i).r.x) ^ 2 +
            ((s.bodyAt j).r.y - (s.bodyAt i).r.y) ^ 2 + s.m_eps2)) ^ 3 *
        Real.sqrt (((s.bodyAt j).r.x - (s.bodyAt i).r.x) ^ 2 +
            ((s.bodyAt j).r.y - (s.bodyAt i).r.y) ^ 2) := by
  have hinv : 0 ≤ (1 / Real.sqrt (((s.bodyAt j).r.x - (s.bodyAt i).r.x) ^ 2 +
            ((s.bodyAt j).r.y - (s.bodyAt i).r.y) ^ 2 + s.m_eps2)) ^ 3 :=
    pow_nonneg (div_nonneg zero_le_one (Real.sqrt_nonneg _)) 3
  rw [pairForce_components, norm_scaled, abs_mul, abs_of_nonneg hinv]

/-- For positive `e`, `sqrt R / (sqrt (R + e))^3` is at most `1 / e`. -/
theorem softened_factor_le (R e : ℝ) (hR : 0 ≤ R) (he : 0 < e) :
    (1 / Real.sqrt (R + e)) ^ 3 * Real.sqrt R ≤ 1 / e := by
  have hD : 0 < R + e := by linarith
  have hS : 0 < Real.sqrt (R + e) := Real.sqrt_pos.mpr hD
  have h1 : Real.sqrt R ≤ Real.sqrt (R + e) := Real.sqrt_le_sqrt (by linarith)
  have h2 : e ≤ Real.sqrt (R + e) * Real.sqrt (R + e) := by
    rw [Real.mul_self_sqrt hD.le]; linarith
  have h3 : Real.sqrt R * e ≤ Real.sqrt (R + e) * (Real.sqrt (R + e) * Real.sqrt (R + e)) :=
    mul_le_mul h1 h2 he.le hS.le
  have e1 : (1 / Real.sqrt (R + e)) ^ 3 * Real.sqrt R = Real.sqrt R / Real.sqrt (R + e) ^ 3 := by
    field_simp
  rw [e1, div_le_div_iff₀ (pow_pos hS 3) he]
  calc Real.sqrt R * e ≤ Real.sqrt (R + e) * (Real.sqrt (R + e) * Real.sqrt (R + e)) := h3
    _ = 1 * Real.sqrt (R + e) ^ 3 := by ring

/-- Claim C18. With `eps2 > 0`, the force a pair `(i, j)` contributes in
`computeForces` (the vector `F` added to body `i`, and `F.scale(-1)` added to
body `j`) has magnitude at most `|G * m_i * m_j| / eps2` whatever the
separation, and it is exactly `(0,0)` when the two bodies coincide (real-number
model). -/
theorem softening_bounds_force (s : NBodySystem2D ℝ) (i j : Nat) (he : 0 < s.m_eps2) :
    Vec2.norm Real.sqrt (s.pairForce Real.sqrt i j) ≤
      |s.m_G * (s.bodyAt i).m * (s.bodyAt j).m| / s.m_eps2 ∧
    Vec2.norm Real.sqrt ((s.pairForce Real.sqrt i j).scale (-1)) ≤
      |s.m_G * (s.bodyAt i).m * (s.bodyAt j).m| / s.m_eps2 ∧
    ((s.bodyAt i).r = (s.bodyAt j).r →
      s.pairForce Real.sqrt i j = ⟨0, 0⟩ ∧ (s.pairForce Real.sqrt i j).scale (-1) = ⟨0, 0⟩) := by
  have hb : Vec2.norm Real.sqrt (s.pairForce Real.sqrt i j) ≤
      |s.m_G * (s.bodyAt i).m * (s.bodyAt j).m| / s.m_eps2 := by
    have key := mul_le_mul_of_nonneg_left
      (softened_factor_le (((s.bodyAt j).r.x - (s.bodyAt i).r.x) ^ 2 +
        ((s.bodyAt j).r.y - (s.bodyAt i).r.y) ^ 2) s.m_eps2
        (add_nonneg (sq_nonneg _) (sq_nonneg _)) he)
      (abs_nonneg (s.m_G * (s.bodyAt i).m * (s.bodyAt j).m))
    rw [norm_pairForce, mul_assoc]
    exact key.trans_eq (mul_one_div _ _)
  have hneg : Vec2.norm Real.sqrt ((s.pairForce Real.sqrt i j).scale (-1)) =
      Vec2.norm Real.sqrt (s.pairForce Real.sqrt i j) := by
    simp [Vec2.norm, Vec2.scale]
  refine ⟨hb, hneg ▸ hb, fun hr => ?_⟩
  rw [pairForce_components, hr]
  simp [Vec2.scale]

/-- Witness for C18: the unit masses at `(0,0)` and `(1,0)` with `G = 1` and
`eps2 = 3`, over the reals. -/
theorem softening_bounds_force_witness :
    (0 : ℝ) < (twoBodies (Body2D.make 1 ⟨0, 0⟩ ⟨0, 0⟩) (Body2D.make 1 ⟨1, 0⟩ ⟨0, 0⟩)
      (1 : ℝ) 3).m_eps2 ∧
    Vec2.norm Real.sqrt ((twoBodies (Body2D.make 1 ⟨0, 0⟩ ⟨0, 0⟩) (Body2D.make 1 ⟨1, 0⟩ ⟨0, 0⟩)
      (1 : ℝ) 3).pairForce Real.sqrt 0 1) ≤ 1 / 3 := by
  have he : (0 : ℝ) < (twoBodies (Body2D.make 1 ⟨0, 0⟩ ⟨0, 0⟩)
      (Body2D.make 1 ⟨1, 0⟩ ⟨0, 0⟩) (1 : ℝ) 3).m_eps2 := by
    simp [twoBodies]
  refine ⟨he, ?_⟩
  have h := (softening_bounds_force _ 0 1 he).1
  simpa [twoBodies, NBodySystem2D.bodyAt, Body2D.make] using h

/-- The scalar function of the softening behind each force component is
continuous at `eps2 = 0` when the bodies are apart. -/
theorem softened_component_tendsto (c R x : ℝ) (hR : 0 < R) :
    Filter.Tendsto (fun e : ℝ => c * (1 / Real.sqrt (R + e)) ^ 3 * x)
      (nhdsWithin 0 (Set.Ioi 0)) (nhds (c * x / Real.sqrt R ^ 3)) := by
  have hS : Real.sqrt (R + 0) ≠ 0 := by
    rw [add_zero]; exact (Real.sqrt_pos.mpr hR).ne.symm
  have h1 : ContinuousAt (fun e : ℝ => Real.sqrt (R + e)) 0 :=
    (Real.continuous_sqrt.comp (continuous_const.add continuous_id)).continuousAt
  have h2 : ContinuousAt (fun e : ℝ => 1 / Real.sqrt (R + e)) 0 :=
    ContinuousAt.div continuousAt_const h1 hS
  have h3 : ContinuousAt (fun e : ℝ => (1 / Real.sqrt (R + e)) ^ 3) 0 := h2.pow 3
  have hcont : ContinuousAt (fun e : ℝ => c * (1 / Real.sqrt (R + e)) ^ 3 * x) 0 :=
    (continuousAt_const.mul h3).mul continuousAt_const
  have hval : c * (1 / Real.sqrt (R + 0)) ^ 3 * x = c * x / Real.sqrt R ^ 3 := by
    rw [add_zero]; ring
  have := hcont.tendsto
  rw [hval] at this
  exact tendsto_nhdsWithin_of_tendsto_nhds this

/-- The magnitude of the unsoftened force. -/
theorem norm_unsoftenedForce (G : ℝ) (bi bj : Body2D ℝ) (hd : 0 < separation Real.sqrt bi bj) :
    Vec2.norm Real.sqrt (unsoftenedForce Real.sqrt G bi bj) =
      |G * bi.m * bj.m| / separation Real.sqrt bi bj ^ 2 := by
  have e1 : ∀ x : ℝ, G * bi.m * bj.m * x / separation Real.sqrt bi bj ^ 3 =
      G * bi.m * bj.m / separation Real.sqrt bi bj ^ 3 * x := fun x => by ring
  have hsq : Real.sqrt ((bj.r.x - bi.r.x) ^ 2 + (bj.r.y - bi.r.y) ^ 2) =
      separation Real.sqrt bi bj := rfl
  have hne : separation Real.sqrt bi bj ≠ 0 := hd.ne.symm
  unfold unsoftenedForce
  rw [e1, e1, norm_scaled, abs_div, abs_of_pos (pow_pos hd 3), hsq]
  field_simp
  ring

/-- Claim C17. For two bodies at distance `d > 0`, the force `computeForces` puts
on either body converges, as `eps2` tends to `0` from above, to the unsoftened
Newtonian value `G * m_i * m_j * (r_j - r_i) / d^3`, whose magnitude is
`|G * m_i * m_j| / d^2`, and this limit is exactly the force computed with
`eps2 = 0` (real-number model). -/
theorem softening_limit (b0 b1 : Body2D ℝ) (G : ℝ) (hd : 0 < separation Real.sqrt b0 b1) :
    (Filter.Tendsto
        (fun e : ℝ => (((twoBodies b0 b1 G e).computeForces Real.sqrt).bodyAt 0).f.x)
        (nhdsWithin 0 (Set.Ioi 0)) (nhds (unsoftenedForce Real.sqrt G b0 b1).x) ∧
      Filter.Tendsto
        (fun e : ℝ => (((twoBodies b0 b1 G e).computeForces Real.sqrt).bodyAt 0).f.y)
        (nhdsWithin 0 (Set.Ioi 0)) (nhds (unsoftenedForce Real.sqrt G b0 b1).y) ∧
      Filter.Tendsto
        (fun e : ℝ => (((twoBodies b0 b1 G e).computeForces Real.sqrt).bodyAt 1).f.x)
        (nhdsWithin 0 (Set.Ioi 0)) (nhds (unsoftenedForce Real.sqrt G b1 b0).x) ∧
      Filter.Tendsto
        (fun e : ℝ => (((twoBodies b0 b1 G e).computeForces Real.sqrt).bodyAt 1).f.y)
        (nhdsWithin 0 (Set.Ioi 0)) (nhds (unsoftenedForce Real.sqrt G b1 b0).y)) ∧
    (((twoBodies b0 b1 G 0).computeForces Real.sqrt).bodyAt 0).f =
      unsoftenedForce Real.sqrt G b0 b1 ∧
    (((twoBodies b0 b1 G 0).computeForces Real.sqrt).bodyAt 1).f =
      unsoftenedForce Real.sqrt G b1 b0 ∧
    Vec2.norm Real.sqrt (unsoftenedForce Real.sqrt G b0 b1) =
      |G * b0.m * b1.m| / separation Real.sqrt b0 b1 ^ 2 ∧
    Vec2.norm Real.sqrt (unsoftenedForce Real.sqrt G b1 b0) =
      |G * b1.m * b0.m| / separation Real.sqrt b1 b0 ^ 2 := by
  have hR : 0 < (b1.r.x - b0.r.x) ^ 2 + (b1.r.y - b0.r.y) ^ 2 := Real.sqrt_pos.mp hd
  have esq : (b0.r.x - b1.r.x) ^ 2 + (b0.r.y - b1.r.y) ^ 2 =
      (b1.r.x - b0.r.x) ^ 2 + (b1.r.y - b0.r.y) ^ 2 := by ring
  have hsym : separation Real.sqrt b1 b0 = separation Real.sqrt b0 b1 := by
    unfold separation; rw [esq]
  have hcomm : G * b1.m * b0.m = G * b0.m * b1.m := by ring
  refine ⟨⟨?_, ?_, ?_, ?_⟩, ?_, ?_, norm_unsoftenedForce G b0 b1 hd,
    norm_unsoftenedForce G b1 b0 (hsym ▸ hd)⟩
  · simp only [(twoBodies_forces Real.sqrt b0 b1 G _).1, unsoftenedForce, separation]
    exact softened_component_tendsto _ _ _ hR
  · simp only [(twoBodies_forces Real.sqrt b0 b1 G _).1, unsoftenedForce, separation]
    exact softened_component_tendsto _ _ _ hR
  · simp only [(twoBodies_forces Real.sqrt b0 b1 G _).2, unsoftenedForce, separation, esq, hcomm]
    exact softened_component_tendsto _ _ _ hR
  · simp only [(twoBodies_forces Real.sqrt b0 b1 G _).2, unsoftenedForce, separation, esq, hcomm]
    exact softened_component_tendsto _ _ _ hR
  · rw [(twoBodies_forces Real.sqrt b0 b1 G 0).1, unsoftenedForce, separation, add_zero,
      Vec2.ext_iff2]
    constructor <;> simp only <;> ring
  · rw [(twoBodies_forces Real.sqrt b0 b1 G 0).2, unsoftenedForce, separation, esq, add_zero,
      Vec2.ext_iff2]
    constructor <;> simp only <;> ring

/-- Witness for C17: the unit masses at `(0,0)` and `(1,0)` with `G = 1`, over
the reals; the force on body 0 without softening is `(1, 0)`. -/
theorem softening_limit_witness :
    0 < separation Real.sqrt (Body2D.make (1 : ℝ) ⟨0, 0⟩ ⟨0, 0⟩) (Body2D.make 1 ⟨1, 0⟩ ⟨0, 0⟩) ∧
    (((twoBodies (Body2D.make (1 : ℝ) ⟨0, 0⟩ ⟨0, 0⟩) (Body2D.make 1 ⟨1, 0⟩ ⟨0, 0⟩)
      1 0).computeForces Real.sqrt).bodyAt 0).f = ⟨1, 0⟩ := by
  have hd : 0 < separation Real.sqrt (Body2D.make (1 : ℝ) ⟨0, 0⟩ ⟨0, 0⟩)
      (Body2D.make 1 ⟨1, 0⟩ ⟨0, 0⟩) := by
    simp [separation, Body2D.make]
  refine ⟨hd, ?_⟩
  rw [(softening_limit _ _ 1 hd).2.1]
  simp [unsoftenedForce, separation, Body2D.make]

end Softening

/-! ## The header comment of `computeForces` -/

section Header

theorem sqrt_four : Real.sqrt 4 = 2 := by
  have h : (4 : ℝ) = 2 ^ 2 := by norm_num
  rw [h]
  exact Real.sqrt_sq (by norm_num)

theorem scaled_unit (L c S x : ℝ) (h : L = 0 → x = 0) :
    c * (1 / S * (1 / S) * (1 / S)) * x = L * (c / S ^ 3 * (x / L)) := by
  by_cases hL : L = 0
  · rw [h hL, hL]; simp
  · have e : L * (c / S ^ 3 * (x / L)) = c / S ^ 3 * (L * (x / L)) := by ring
    rw [e, mul_div_cancel₀ x hL]
    ring

/-- Over the reals the pair force of the code is the documented vector
multiplied by the length of the displacement. -/
theorem pairForce_eq_scaled_headerForce (t : NBodySystem2D ℝ) (a b : Nat) :
    t.pairForce Real.sqrt a b =
      (headerForce Real.sqrt t a b).scale
        (Vec2.norm Real.sqrt ((t.bodyAt b).r.sub (t.bodyAt a).r)) := by
  have hR : 0 ≤ ((t.bodyAt b).r.x - (t.bodyAt a).r.x) * ((t.bodyAt b).r.x - (t.bodyAt a).r.x) +
      ((t.bodyAt b).r.y - (t.bodyAt a).r.y) * ((t.bodyAt b).r.y - (t.bodyAt a).r.y) :=
    add_nonneg (mul_self_nonneg _) (mul_self_nonneg _)
  have hz : Real.sqrt (((t.bodyAt b).r.x - (t.bodyAt a).r.x) *
      ((t.bodyAt b).r.x - (t.bodyAt a).r.x) +
      ((t.bodyAt b).r.y - (t.bodyAt a).r.y) * ((t.bodyAt b).r.y - (t.bodyAt a).r.y)) = 0 →
      (t.bodyAt b).r.x - (t.bodyAt a).r.x = 0 ∧ (t.bodyAt b).r.y - (t.bodyAt a).r.y = 0 := by
    intro hz
    have h0 := (Real.sqrt_eq_zero hR).mp hz
    have hx := mul_self_nonneg ((t.bodyAt b).r.x - (t.bodyAt a).r.x)
    have hy := mul_self_nonneg ((t.bodyAt b).r.y - (t.bodyAt a).r.y)
    exact ⟨mul_self_eq_zero.mp (by linarith), mul_self_eq_zero.mp (by linarith)⟩
  simp only [NBodySystem2D.pairForce, headerForce, Vec2.scale, Vec2.norm, Vec2.sub,
    Real.sq_sqrt hR]
  rw [Vec2.ext_iff2]
  exact ⟨scaled_unit _ _ _ _ (fun h => (hz h).1), scaled_unit _ _ _ _ (fun h => (hz h).2)⟩

/-- What the pair loop adds: for a pair `i < j` the force added to body `i` is
`F = G * m_i * m_j * r / (|r|^2 + eps2)^(3/2)` with the displacement
`r = r_j - r_i` itself, not the unit vector along it, and `-F` is added to body
`j`; over the reals `F` is the vector of the header comment multiplied by `|r|`. -/
theorem pairForce_unnormalised {K : Type} [LinearOrderedField K] (sqrt : K → K)
    (s : NBodySystem2D K) (i j : Nat) (hij : i < j) (hj : j < s.bodyCount) :
    s.pairForce sqrt i j =
      ⟨s.m_G * (s.bodyAt i).m * (s.bodyAt j).m * ((s.bodyAt j).r.x - (s.bodyAt i).r.x) /
          sqrt (((s.bodyAt j).r.x - (s.bodyAt i).r.x) ^ 2 +
            ((s.bodyAt j).r.y - (s.bodyAt i).r.y) ^ 2 + s.m_eps2) ^ 3,
       s.m_G * (s.bodyAt i).m * (s.bodyAt j).m * ((s.bodyAt j).r.y - (s.bodyAt i).r.y) /
          sqrt (((s.bodyAt j).r.x - (s.bodyAt i).r.x) ^ 2 +
            ((s.bodyAt j).r.y - (s.bodyAt i).r.y) ^ 2 + s.m_eps2) ^ 3⟩ ∧
    ((s.pairStep sqrt i j).bodyAt i).f = (s.bodyAt i).f + s.pairForce sqrt i j ∧
    ((s.pairStep sqrt i j).bodyAt j).f = (s.bodyAt j).f + -(s.pairForce sqrt i j) ∧
    ∀ (t : NBodySystem2D ℝ) (a b : Nat), t.pairForce Real.sqrt a b =
      (headerForce Real.sqrt t a b).scale
        (Vec2.norm Real.sqrt ((t.bodyAt b).r.sub (t.bodyAt a).r)) := by
  have h := (pairStep_spec sqrt s i j (by omega) (by omega) hj).2
  have hji : j ≠ i := by omega
  refine ⟨?_, ?_, ?_, pairForce_eq_scaled_headerForce⟩
  · rw [pairForce_components, Vec2.ext_iff2]
    constructor <;> simp only <;> ring
  · rw [h i]; simp [pairContribution]
  · rw [h j]; simp [pairContribution, hji]

/-- Claim C20, on the code. The header comment documents the force of a pair as
`G * m_i * m_j * r_hat / (|r|^2 + eps2)^(3/2)` with the unit vector `r_hat`, and
the code does not compute that: over the reals, for the unit masses at `(0,0)`
and `(2,0)` with `G = 1` and no softening, the code adds `(1/4, 0)` to body 0
while the documented formula gives `(1/8, 0)`. -/
theorem pairForce_ne_headerForce :
    (farPair : NBodySystem2D ℝ).pairForce Real.sqrt 0 1 = ⟨1 / 4, 0⟩ ∧
    headerForce Real.sqrt (farPair : NBodySystem2D ℝ) 0 1 = ⟨1 / 8, 0⟩ ∧
    (farPair : NBodySystem2D ℝ).pairForce Real.sqrt 0 1 ≠
      headerForce Real.sqrt (farPair : NBodySystem2D ℝ) 0 1 := by
  have h1 : (farPair : NBodySystem2D ℝ).pairForce Real.sqrt 0 1 = ⟨1 / 4, 0⟩ := by
    simp [NBodySystem2D.pairForce, farPair, NBodySystem2D.bodyAt, Body2D.make, Vec2.sub,
      Vec2.scale]
    norm_num [sqrt_four]
  have h2 : headerForce Real.sqrt (farPair : NBodySystem2D ℝ) 0 1 = ⟨1 / 8, 0⟩ := by
    simp [headerForce, farPair, NBodySystem2D.bodyAt, Body2D.make, Vec2.sub, Vec2.norm]
    norm_num [sqrt_four]
  refine ⟨h1, h2, ?_⟩
  rw [h1, h2]
  intro h
  have := congrArg Vec2.x h
  norm_num at this

/-- An instance of `pairForce_unnormalised`: the pair `(0, 1)` of the far pair over
the reals. -/
theorem pairForce_unnormalised_witness :
    ((0 : Nat) < 1 ∧ 1 < (farPair : NBodySystem2D ℝ).bodyCount) ∧
    (((farPair : NBodySystem2D ℝ).pairStep Real.sqrt 0 1).bodyAt 0).f =
      ((farPair : NBodySystem2D ℝ).bodyAt 0).f + (farPair : NBodySystem2D ℝ).pairForce Real.sqrt 0 1 :=
  ⟨⟨by decide, by simp [farPair, NBodySystem2D.bodyCount]⟩,
   (pairForce_unnormalised Real.sqrt farPair 0 1 (by decide)
      (by simp [farPair, NBodySystem2D.bodyCount])).2.1⟩

end Header

/-! ## The order of the bodies -/

section Order

variable {K : Type} [LinearOrderedField K]

/-- `totalEnergy` as a sum of kinetic terms and a sum of pair terms. -/
theorem totalEnergy_sums (sqrt : K → K) (s : NBodySystem2D K) :
    s.totalEnergy sqrt =
      (∑ i ∈ Finset.range s.bodyCount, kineticTerm s i) +
      ∑ i ∈ Finset.range s.bodyCount, ∑ j ∈ Finset.Ico (i + 1) s.bodyCount,
        potentialTerm sqrt s i j := by
  unfold NBodySystem2D.totalEnergy
  simp only
  congr 1
  · rw [forLoop_sum 0 s.bodyCount (Nat.zero_le _) _ (fun i => kineticTerm s i)
      (fun i acc _ _ => by rfl), zero_add, Finset.range_eq_Ico]
  · rw [forLoop_sum 0 s.bodyCount (Nat.zero_le _) _
      (fun i => ∑ j ∈ Finset.Ico (i + 1) s.bodyCount, potentialTerm sqrt s i j) ?_, zero_add,
      Finset.range_eq_Ico]
    intro i acc _ hi
    apply forLoop_sum (i + 1) s.bodyCount (by omega)
    intro j p _ _
    unfold potentialTerm NBodySystem2D.dist2
    simp only
    split
    · ring
    · ring

theorem dist2_symm (s : NBodySystem2D K) (i j : Nat) : s.dist2 i j = s.dist2 j i := by
  unfold NBodySystem2D.dist2
  simp only [Vec2.sub]
  ring

theorem potentialTerm_symm (sqrt : K → K) (s : NBodySystem2D K) (i j : Nat) :
    potentialTerm sqrt s i j = potentialTerm sqrt s j i := by
  unfold potentialTerm
  rw [dist2_symm s i j]
  split
  · ring
  · rfl

/-- The sum of a symmetric function over the square is twice its sum over the
pairs `i < j` plus its sum over the diagonal. -/
theorem sum_square_of_symm (g : Nat → Nat → K) (hg : ∀ i j, g i j = g j i) (n : Nat) :
    ∑ i ∈ Finset.range n, ∑ j ∈ Finset.range n, g i j =
      2 * (∑ i ∈ Finset.range n, ∑ j ∈ Finset.Ico (i + 1) n, g i j) +
        ∑ i ∈ Finset.range n, g i i := by
  have hsplit : ∀ i ∈ Finset.range n, ∑ j ∈ Finset.range n, g i j =
      (∑ j ∈ Finset.Ico 0 i, g i j) + g i i + ∑ j ∈ Finset.Ico (i + 1) n, g i j := by
    intro i hi
    rw [Finset.mem_range] at hi
    rw [Finset.range_eq_Ico, ← Finset.sum_Ico_consecutive (fun j => g i j) (Nat.zero_le i)
      (Nat.le_of_lt hi), Finset.sum_eq_sum_Ico_succ_bot hi, add_assoc]
  have hlow : ∑ i ∈ Finset.range n, ∑ j ∈ Finset.Ico 0 i, g i j =
      ∑ i ∈ Finset.range n, ∑ j ∈ Finset.Ico (i + 1) n, g i j := by
    rw [Finset.range_eq_Ico, Finset.sum_Ico_Ico_comm' 0 n (fun i j => g i j)]
    exact Finset.sum_congr rfl (fun j _ => Finset.sum_congr rfl (fun i _ => hg j i))
  rw [Finset.sum_congr rfl hsplit, Finset.sum_add_distrib, Finset.sum_add_distrib, hlow]
  ring

theorem sum_range_reindex {M : Type} [AddCommMonoid M] (σ : Equiv.Perm Nat) (n : Nat)
    (hσ : ∀ i, i < n ↔ σ i < n) (g : Nat → M) :
    ∑ i ∈ Finset.range n, g (σ i) = ∑ i ∈ Finset.range n, g i :=
  Finset.sum_equiv σ (fun i => by simpa using hσ i) (fun _ _ => rfl)

/-- Reordering the bodies leaves the total energy unchanged. -/
theorem totalEnergy_reordered (sqrt : K → K) (s t : NBodySystem2D K) (σ : Equiv.Perm Nat)
    (hσ : ∀ i, i < s.bodyCount ↔ σ i < s.bodyCount) (h : ReorderedBy σ s t) :
    t.totalEnergy sqrt = s.totalEnergy sqrt := by
  obtain ⟨hG, he, hn, hb⟩ := h
  have hkin : ∀ i ∈ Finset.range s.bodyCount, kineticTerm t i = kineticTerm s (σ i) := by
    intro i hi
    rw [Finset.mem_range] at hi
    simp only [kineticTerm, hb i hi]
  have hpot : ∀ i ∈ Finset.range s.bodyCount, ∀ j ∈ Finset.range s.bodyCount,
      potentialTerm sqrt t i j = potentialTerm sqrt s (σ i) (σ j) := by
    intro i hi j hj
    rw [Finset.mem_range] at hi hj
    simp only [potentialTerm, NBodySystem2D.dist2, hb i hi, hb j hj, hG, he]
  have hsq : ∑ i ∈ Finset.range s.bodyCount, ∑ j ∈ Finset.range s.bodyCount,
      potentialTerm sqrt t i j =
      ∑ i ∈ Finset.range s.bodyCount, ∑ j ∈ Finset.range s.bodyCount,
        potentialTerm sqrt s i j := by
    rw [Finset.sum_congr rfl (fun i hi => Finset.sum_congr rfl (fun j hj => hpot i hi j hj)),
      sum_range_reindex σ _ hσ (fun a => ∑ j ∈ Finset.range s.bodyCount,
        potentialTerm sqrt s a (σ j))]
    exact Finset.sum_congr rfl (fun i _ =>
      sum_range_reindex σ _ hσ (fun b => potentialTerm sqrt s i b))
  have hdiag : ∑ i ∈ Finset.range s.bodyCount, potentialTerm sqrt t i i =
      ∑ i ∈ Finset.range s.bodyCount, potentialTerm sqrt s i i := by
    rw [Finset.sum_congr rfl (fun i hi => hpot i hi i hi),
      sum_range_reindex σ _ hσ (fun a => potentialTerm sqrt s a a)]
  have h1 := sum_square_of_symm (fun i j => potentialTerm sqrt t i j)
    (potentialTerm_symm sqrt t) s.bodyCount
  have h2 := sum_square_of_symm (fun i j => potentialTerm sqrt s i j)
    (potentialTerm_symm sqrt s) s.bodyCount
  simp only at h1 h2
  rw [hsq, hdiag, h2] at h1
  have hT : ∑ i ∈ Finset.range s.bodyCount, ∑ j ∈ Finset.Ico (i + 1) s.bodyCount,
      potentialTerm sqrt t i j =
      ∑ i ∈ Finset.range s.bodyCount, ∑ j ∈ Finset.Ico (i + 1) s.bodyCount,
        potentialTerm sqrt s i j := by
    linarith
  rw [totalEnergy_sums, totalEnergy_sums, hn, hT, Finset.sum_congr rfl hkin,
    sum_range_reindex σ _ hσ (fun a => kineticTerm s a)]

/-- Reordering the bodies reorders the states after `computeForces` the same way. -/
theorem computeForces_reordered (sqrt : K → K) (s t : NBodySystem2D K) (σ : Equiv.Perm Nat)
    (hσ : ∀ i, i < s.bodyCount ↔ σ i < s.bodyCount) (h : ReorderedBy σ s t) :
    ReorderedBy σ (s.computeForces sqrt) (t.computeForces sqrt) := by
  obtain ⟨hG, he, hn, hb⟩ := h
  obtain ⟨⟨a1, a2, a3, a4⟩, a5⟩ := computeForces_spec sqrt s
  obtain ⟨⟨b1, b2, b3, b4⟩, b5⟩ := computeForces_spec sqrt t
  refine ⟨by rw [b1, a1, hG], by rw [b2, a2, he], by rw [b3, a3, hn], fun i hi => ?_⟩
  rw [a3] at hi
  have hsi : σ i < s.bodyCount := (hσ i).mp hi
  apply body_ext
  · rw [(b4 i).1, (a4 (σ i)).1, hb i hi]
  · rw [(b4 i).2.1, (a4 (σ i)).2.1, hb i hi]
  · rw [(b4 i).2.2, (a4 (σ i)).2.2, hb i hi]
  · rw [b5 i (by omega), a5 (σ i) hsi, netForce, netForce, hn]
    apply Finset.sum_equiv σ
    · intro j
      simp only [Finset.mem_erase, Finset.mem_range, ne_eq, EmbeddingLike.apply_eq_iff_eq]
      rw [hσ j]
    · intro j hj
      simp only [Finset.mem_erase, Finset.mem_range] at hj
      simp only [newtonForce, hb i hi, hb j hj.2, hG, he]

theorem shiftPerm_zero (σ : Equiv.Perm Nat) : shiftPerm σ 0 = 0 := rfl

theorem shiftPerm_succ (σ : Equiv.Perm Nat) (k : Nat) : shiftPerm σ (k + 1) = σ k + 1 := rfl

/-- Every permutation of a list is a reordering by a permutation of the indices. -/
theorem perm_reindex {α : Type} {l l2 : List α} (h : l.Perm l2) :
    ∃ σ : Equiv.Perm Nat, ∀ i, l2[i]? = l[σ i]? := by
  induction h with
  | nil => exact ⟨Equiv.refl Nat, fun i => rfl⟩
  | cons x _ ih =>
    obtain ⟨σ, hσ⟩ := ih
    refine ⟨shiftPerm σ, fun i => ?_⟩
    cases i with
    | zero => rw [shiftPerm_zero]; simp
    | succ k => rw [shiftPerm_succ]; simpa using hσ k
  | swap x y l =>
    refine ⟨Equiv.swap 0 1, fun i => ?_⟩
    match i with
    | 0 => simp
    | 1 => simp
    | k + 2 =>
      rw [Equiv.swap_apply_of_ne_of_ne (by omega) (by omega)]
      simp
  | trans _ _ ih1 ih2 =>
    obtain ⟨σ1, h1⟩ := ih1
    obtain ⟨σ2, h2⟩ := ih2
    exact ⟨σ2.trans σ1, fun i => by rw [h2 i, h1 (σ2 i)]; rfl⟩

theorem reindex_range {α : Type} {l l2 : List α} (hlen : l2.length = l.length)
    (σ : Equiv.Perm Nat) (h : ∀ i, l2[i]? = l[σ i]?) (i : Nat) :
    i < l.length ↔ σ i < l.length := by
  have hi := h i
  constructor
  · intro hlt
    by_contra hc
    rw [List.getElem?_eq_getElem (by omega), List.getElem?_eq_none (by omega)] at hi
    exact Option.noConfusion hi
  · intro hlt
    by_contra hc
    rw [List.getElem?_eq_none (by omega), List.getElem?_eq_getElem hlt] at hi
    exact Option.noConfusion hi

/-- A system whose body list is a permutation of that of `s`, with the same
parameters, is `s` reordered by a permutation of the indices. -/
theorem reorderedBy_of_perm (s t : NBodySystem2D K) (hG : t.m_G = s.m_G)
    (he : t.m_eps2 = s.m_eps2) (hp : s.m_bodies.Perm t.m_bodies) :
    ∃ σ : Equiv.Perm Nat, (∀ i, i < s.bodyCount ↔ σ i < s.bodyCount) ∧ ReorderedBy σ s t := by
  obtain ⟨σ, hσ⟩ := perm_reindex hp
  have hlen : t.m_bodies.length = s.m_bodies.length := hp.length_eq.symm
  refine ⟨σ, reindex_range hlen σ hσ, hG, he, hlen, fun i _ => ?_⟩
  simp only [NBodySystem2D.bodyAt, List.getD_eq_getElem?_getD, hσ i]

/-- A reordering by a permutation of the indices is a permutation of the body list. -/
theorem perm_of_reorderedBy (s t : NBodySystem2D K) (σ : Equiv.Perm Nat)
    (hσ : ∀ i, i < s.bodyCount ↔ σ i < s.bodyCount) (h : ReorderedBy σ s t) :
    s.m_bodies.Perm t.m_bodies := by
  obtain ⟨_, _, hn, hb⟩ := h
  have hs : s.m_bodies = (List.range s.bodyCount).map (fun i => s.bodyAt i) := by
    apply List.ext_getElem (by simp [NBodySystem2D.bodyCount])
    intro k h1 h2
    simp [NBodySystem2D.bodyAt, List.getElem?_eq_getElem h1]
  have ht : t.m_bodies = ((List.range s.bodyCount).map σ).map (fun i => s.bodyAt i) := by
    apply List.ext_getElem (by simpa [NBodySystem2D.bodyCount] using hn)
    intro k h1 h2
    have hk : k < s.bodyCount := by simpa using h2
    have := hb k hk
    simp only [NBodySystem2D.bodyAt, List.getD_eq_getElem?_getD, List.getElem?_eq_getElem h1,
      Option.getD_some] at this
    simp [this, NBodySystem2D.bodyAt]
  rw [ht]
  nth_rewrite 1 [hs]
  apply List.Perm.map
  apply (List.perm_ext_iff_of_nodup (List.nodup_range _)
    ((List.nodup_range _).map σ.injective)).mpr
  intro a
  simp only [List.mem_range, List.mem_map]
  constructor
  · intro ha
    refine ⟨σ.symm a, ?_, by simp⟩
    rw [hσ (σ.symm a)]
    simpa using ha
  · rintro ⟨i, hi, rfl⟩
    exact (hσ i).mp hi

/-- Claim C19. The order of the bodies carries no meaning: when the body list of
`t` is a permutation of that of `s` (same `G` and `eps2`), then `t` is `s`
reordered by a permutation `σ` of the indices and the states after
`computeForces` are reordered by the same `σ` (body `i` of `t` ends with the
accumulator of body `σ i` of `s`), and this for every such `σ`; the body lists
after `computeForces` are permutations of each other; and `totalEnergy` returns
the same value. -/
theorem bodies_order_irrelevant (sqrt : K → K) (s t : NBodySystem2D K) (hG : t.m_G = s.m_G)
    (he : t.m_eps2 = s.m_eps2) (hp : s.m_bodies.Perm t.m_bodies) :
    (∃ σ : Equiv.Perm Nat, ReorderedBy σ s t ∧
      ReorderedBy σ (s.computeForces sqrt) (t.computeForces sqrt)) ∧
    (∀ σ : Equiv.Perm Nat, (∀ i, i < s.bodyCount ↔ σ i < s.bodyCount) → ReorderedBy σ s t →
      ReorderedBy σ (s.computeForces sqrt) (t.computeForces sqrt)) ∧
    (s.computeForces sqrt).m_bodies.Perm (t.computeForces sqrt).m_bodies ∧
    t.totalEnergy sqrt = s.totalEnergy sqrt := by
  obtain ⟨σ, hσ, hr⟩ := reorderedBy_of_perm s t hG he hp
  have hcf := computeForces_reordered sqrt s t σ hσ hr
  have hn : (s.computeForces sqrt).bodyCount = s.bodyCount :=
    (computeForces_spec sqrt s).1.2.2.1
  refine ⟨⟨σ, hr, hcf⟩, fun τ hτ h => computeForces_reordered sqrt s t τ hτ h, ?_,
    totalEnergy_reordered sqrt s t σ hσ hr⟩
  exact perm_of_reorderedBy _ _ σ (fun i => by rw [hn]; exact hσ i) hcf

/-- Witness for C19: the unit pair and the same pair in the other order, over
the reals. -/
theorem bodies_order_irrelevant_witness :
    (unitPair : NBodySystem2D ℝ).m_bodies.Perm (swappedPair : NBodySystem2D ℝ).m_bodies ∧
    (swappedPair : NBodySystem2D ℝ).totalEnergy Real.sqrt =
      (unitPair : NBodySystem2D ℝ).totalEnergy Real.sqrt :=
  ⟨List.Perm.swap _ _ [],
   (bodies_order_irrelevant Real.sqrt unitPair swappedPair rfl rfl (List.Perm.swap _ _ [])).2.2.2⟩

end Order


/-! ## The data model: vectors, bodies, the body list -/

section DataModel

variable {K : Type} [LinearOrderedField K]

/-- Claim C21. `addBody` appends: after `addBody(b)` the body count is one more
than before, every body that was present is unchanged at its index, the last
element of `bodies()` is `b`, and `G` and `eps2` are unchanged. -/
theorem addBody_appends (s : NBodySystem2D K) (b : Body2D K) :
    (s.addBody b).bodyCount = s.bodyCount + 1 ∧
    (∀ i, i < s.bodyCount → (s.addBody b).bodyAt i = s.bodyAt i) ∧
    (s.addBody b).bodies.take s.bodyCount = s.bodies ∧
    (s.addBody b).bodies.getLast? = some b ∧
    (s.addBody b).getG = s.getG ∧ (s.addBody b).getEps2 = s.getEps2 := by
  refine ⟨by simp [NBodySystem2D.addBody, NBodySystem2D.bodyCount], fun i hi => ?_,
    by simp [NBodySystem2D.addBody, NBodySystem2D.bodyCount, NBodySystem2D.bodies],
    by simp [NBodySystem2D.addBody, NBodySystem2D.bodies], rfl, rfl⟩
  unfold NBodySystem2D.bodyCount at hi
  simp [NBodySystem2D.addBody, NBodySystem2D.bodyAt, List.getElem?_append_left hi]

/-- Claim C22. A default-constructed system has `getG() = 1`, `getEps2() = 0` and
no body; a system constructed with `(G, eps2)` returns exactly those; `setG(g)`
makes `getG()` return `g` and leaves `eps2` and the bodies unchanged, and
`setEps2(e)` makes `getEps2()` return `e` and leaves `G` and the bodies
unchanged. -/
theorem parameters_accessors (s : NBodySystem2D K) (G eps2 g e : K) :
    ((NBodySystem2D.init : NBodySystem2D K).getG = 1 ∧
      (NBodySystem2D.init : NBodySystem2D K).getEps2 = 0 ∧
      (NBodySystem2D.init : NBodySystem2D K).bodyCount = 0) ∧
    ((NBodySystem2D.make G eps2).getG = G ∧ (NBodySystem2D.make G eps2).getEps2 = eps2 ∧
      (NBodySystem2D.make G eps2).bodyCount = 0) ∧
    ((s.setG g).getG = g ∧ (s.setG g).getEps2 = s.getEps2 ∧ (s.setG g).bodies = s.bodies) ∧
    ((s.setEps2 e).getEps2 = e ∧ (s.setEps2 e).getG = s.getG ∧
      (s.setEps2 e).bodies = s.bodies) :=
  ⟨⟨rfl, rfl, rfl⟩, ⟨rfl, rfl, rfl⟩, ⟨rfl, rfl, rfl⟩, ⟨rfl, rfl, rfl⟩⟩

/-- Claim C23. `clearForce()` sets the accumulator to `(0,0)` and `addForce(F)`
replaces it by the componentwise sum `f + F`, each leaving mass, position and
velocity unchanged; a body built by either constructor starts with the force
`(0,0)`; and `clearForce()` followed by `addForce(F)` leaves the accumulator
equal to `F`. -/
theorem body_force_accumulator (b : Body2D K) (F : Vec2 K) (mass : K)
    (position velocity : Vec2 K) :
    (b.clearForce.f = ⟨0, 0⟩ ∧ b.clearForce.m = b.m ∧ b.clearForce.r = b.r ∧
      b.clearForce.v = b.v) ∧
    ((b.addForce F).f = ⟨b.f.x + F.x, b.f.y + F.y⟩ ∧ (b.addForce F).m = b.m ∧
      (b.addForce F).r = b.r ∧ (b.addForce F).v = b.v) ∧
    ((Body2D.empty : Body2D K).f = ⟨0, 0⟩ ∧
      (Body2D.make mass position velocity).f = ⟨0, 0⟩) ∧
    (b.clearForce.addForce F).f = F := by
  refine ⟨⟨rfl, rfl, rfl, rfl⟩, ⟨rfl, rfl, rfl, rfl⟩, ⟨rfl, rfl⟩, ?_⟩
  simp [Body2D.clearForce, Body2D.addForce]

/-- Claim C24. `a.add(b) = (a.x+b.x, a.y+b.y)`, `a.sub(b) = (a.x-b.x, a.y-b.y)`,
`v.scale(k) = (k*v.x, k*v.y)` and `v.norm() = sqrt(v.x^2 + v.y^2)`; the
operations are functions of their operands, defined for all of them. -/
theorem vec2_operations (sqrt : K → K) (a b v : Vec2 K) (k : K) :
    a.add b = ⟨a.x + b.x, a.y + b.y⟩ ∧ a.sub b = ⟨a.x - b.x, a.y - b.y⟩ ∧
    v.scale k = ⟨k * v.x, k * v.y⟩ ∧ v.norm sqrt = sqrt (v.x ^ 2 + v.y ^ 2) := by
  refine ⟨rfl, rfl, rfl, ?_⟩
  unfold Vec2.norm
  congr 1
  ring

end DataModel

/-! ## Conservation laws -/

section Conservation

variable {K : Type} [LinearOrderedField K]

theorem sum_ite_two (n i j : Nat) (hi : i < n) (hj : j < n) (A B : K) :
    ∑ k ∈ Finset.range n, (if k = i then A else if k = j then B else 0) =
      A + (if j = i then 0 else B) := by
  have h : ∀ k ∈ Finset.range n, (if k = i then A else if k = j then B else 0) =
      (if k = i then A else 0) + (if k = j then (if j = i then 0 else B) else 0) := by
    intro k _
    by_cases hki : k = i
    · by_cases hkj : k = j
      · have : j = i := hkj ▸ hki
        simp [hki, this]
      · have hij : ¬ i = j := fun e => hkj (hki.trans e)
        simp [hki, hij]
    · by_cases hkj : k = j
      · have : ¬ j = i := fun e => hki (hkj.trans e)
        simp [hki, hkj, this]
      · simp [hki, hkj]
  rw [Finset.sum_congr rfl h, Finset.sum_add_distrib, Finset.sum_ite_eq', Finset.sum_ite_eq',
    if_pos (Finset.mem_range.mpr hi), if_pos (Finset.mem_range.mpr hj)]

/-- A weighted sum of the full forces, pair by pair: the pair `(i, j)` enters
with the difference of the weights of `i` and `j`. -/
theorem weighted_force_sum (sqrt : K → K) (s : NBodySystem2D K) (a b : Nat → K) :
    ∑ k ∈ Finset.range s.bodyCount,
        (a k * (netForce sqrt s k).x + b k * (netForce sqrt s k).y) =
      ∑ i ∈ Finset.range s.bodyCount, ∑ j ∈ Finset.Ico (i + 1) s.bodyCount,
        ((a i - a j) * (s.pairForce sqrt i j).x + (b i - b j) * (s.pairForce sqrt i j).y) := by
  have h1 : ∀ k ∈ Finset.range s.bodyCount,
      a k * (netForce sqrt s k).x + b k * (netForce sqrt s k).y =
      ∑ i ∈ Finset.range s.bodyCount, ∑ j ∈ Finset.Ico (i + 1) s.bodyCount,
        (a k * (pairContribution sqrt s i j k).x + b k * (pairContribution sqrt s i j k).y) := by
    intro k hk
    rw [← sum_pairContribution sqrt s k (Finset.mem_range.mp hk), Vec2.sum_x, Vec2.sum_y,
      Finset.mul_sum, Finset.mul_sum, ← Finset.sum_add_distrib]
    refine Finset.sum_congr rfl (fun i _ => ?_)
    rw [Vec2.sum_x, Vec2.sum_y, Finset.mul_sum, Finset.mul_sum, ← Finset.sum_add_distrib]
  rw [Finset.sum_congr rfl h1, Finset.sum_comm]
  refine Finset.sum_congr rfl (fun i hi => ?_)
  rw [Finset.sum_comm]
  refine Finset.sum_congr rfl (fun j hj => ?_)
  rw [Finset.mem_range] at hi
  rw [Finset.mem_Ico] at hj
  have hji : ¬ j = i := by omega
  have h2 : ∀ k ∈ Finset.range s.bodyCount,
      a k * (pairContribution sqrt s i j k).x + b k * (pairContribution sqrt s i j k).y =
      (if k = i then a i * (s.pairForce sqrt i j).x + b i * (s.pairForce sqrt i j).y
       else if k = j then -(a j * (s.pairForce sqrt i j).x + b j * (s.pairForce sqrt i j).y)
       else 0) := by
    intro k _
    unfold pairContribution
    by_cases hki : k = i
    · simp [hki]
    · by_cases hkj : k = j
      · simp [hkj, hji]; ring
      · simp [hki, hkj]
  rw [Finset.sum_congr rfl h2, sum_ite_two _ i j hi hj.2, if_neg hji]
  ring

/-- The full forces of a system add up to zero. -/
theorem sum_netForce (sqrt : K → K) (s : NBodySystem2D K) :
    ∑ k ∈ Finset.range s.bodyCount, (netForce sqrt s k).x = 0 ∧
    ∑ k ∈ Finset.range s.bodyCount, (netForce sqrt s k).y = 0 := by
  have hx := weighted_force_sum sqrt s (fun _ => 1) (fun _ => 0)
  have hy := weighted_force_sum sqrt s (fun _ => 0) (fun _ => 1)
  simp only [one_mul, zero_mul, add_zero, zero_add, sub_self, Finset.sum_const_zero] at hx hy
  exact ⟨hx, hy⟩

/-- Each pair force is parallel to the displacement of the pair. -/
theorem pairForce_parallel (sqrt : K → K) (s : NBodySystem2D K) (i j : Nat) :
    ((s.bodyAt j).r.x - (s.bodyAt i).r.x) * (s.pairForce sqrt i j).y -
      ((s.bodyAt j).r.y - (s.bodyAt i).r.y) * (s.pairForce sqrt i j).x = 0 := by
  simp only [NBodySystem2D.pairForce, Vec2.scale, Vec2.sub]
  ring

/-- The torques of the full forces add up to zero. -/
theorem sum_torque (sqrt : K → K) (s : NBodySystem2D K) :
    ∑ k ∈ Finset.range s.bodyCount,
      ((s.bodyAt k).r.x * (netForce sqrt s k).y - (s.bodyAt k).r.y * (netForce sqrt s k).x) = 0 := by
  have h := weighted_force_sum sqrt s (fun k => -(s.bodyAt k).r.y) (fun k => (s.bodyAt k).r.x)
  have e : ∀ k ∈ Finset.range s.bodyCount,
      (s.bodyAt k).r.x * (netForce sqrt s k).y - (s.bodyAt k).r.y * (netForce sqrt s k).x =
      -(s.bodyAt k).r.y * (netForce sqrt s k).x + (s.bodyAt k).r.x * (netForce sqrt s k).y :=
    fun k _ => by ring
  rw [Finset.sum_congr rfl e, h]
  refine Finset.sum_eq_zero (fun i _ => Finset.sum_eq_zero (fun j _ => ?_))
  have hp := pairForce_parallel sqrt s i j
  linear_combination (-1 : K) * hp

/-- The full force on a body of mass zero is zero, so that `m * (F / m) = F`
for every body. -/
theorem mass_mul_accel (sqrt : K → K) (s : NBodySystem2D K) (k : Nat) :
    (s.bodyAt k).m * ((netForce sqrt s k).x / (s.bodyAt k).m) = (netForce sqrt s k).x ∧
    (s.bodyAt k).m * ((netForce sqrt s k).y / (s.bodyAt k).m) = (netForce sqrt s k).y := by
  by_cases hm : (s.bodyAt k).m = 0
  · have hz : netForce sqrt s k = 0 := by
      unfold netForce
      refine Finset.sum_eq_zero (fun j _ => ?_)
      simp [newtonForce, hm, Vec2.zero_def]
    simp [hm, hz]
  · exact ⟨mul_div_cancel₀ _ hm, mul_div_cancel₀ _ hm⟩

theorem totalMomentum_components (t : NBodySystem2D K) :
    (totalMomentum t).x = ∑ i ∈ Finset.range t.bodyCount, (t.bodyAt i).m * (t.bodyAt i).v.x ∧
    (totalMomentum t).y = ∑ i ∈ Finset.range t.bodyCount, (t.bodyAt i).m * (t.bodyAt i).v.y := by
  unfold totalMomentum
  rw [Vec2.sum_x, Vec2.sum_y]
  exact ⟨rfl, rfl⟩

/-- Velocity increments whose mass-weighted sum is zero leave the total
momentum unchanged. -/
theorem totalMomentum_of_increments (s t : NBodySystem2D K) (hn : t.bodyCount = s.bodyCount)
    (dx dy : Nat → K)
    (ht : ∀ i, i < s.bodyCount → (t.bodyAt i).m = (s.bodyAt i).m ∧
      (t.bodyAt i).v.x = (s.bodyAt i).v.x + dx i ∧ (t.bodyAt i).v.y = (s.bodyAt i).v.y + dy i)
    (hx : ∑ i ∈ Finset.range s.bodyCount, (s.bodyAt i).m * dx i = 0)
    (hy : ∑ i ∈ Finset.range s.bodyCount, (s.bodyAt i).m * dy i = 0) :
    totalMomentum t = totalMomentum s := by
  obtain ⟨tx, ty⟩ := totalMomentum_components t
  obtain ⟨sx, sy⟩ := totalMomentum_components s
  rw [Vec2.ext_iff2, tx, ty, sx, sy, hn]
  constructor
  · have e : ∀ i ∈ Finset.range s.bodyCount, (t.bodyAt i).m * (t.bodyAt i).v.x =
        (s.bodyAt i).m * (s.bodyAt i).v.x + (s.bodyAt i).m * dx i := by
      intro i hi
      obtain ⟨h1, h2, _⟩ := ht i (Finset.mem_range.mp hi)
      rw [h1, h2]; ring
    rw [Finset.sum_congr rfl e, Finset.sum_add_distrib, hx, add_zero]
  · have e : ∀ i ∈ Finset.range s.bodyCount, (t.bodyAt i).m * (t.bodyAt i).v.y =
        (s.bodyAt i).m * (s.bodyAt i).v.y + (s.bodyAt i).m * dy i := by
      intro i hi
      obtain ⟨h1, _, h3⟩ := ht i (Finset.mem_range.mp hi)
      rw [h1, h3]; ring
    rw [Finset.sum_congr rfl e, Finset.sum_add_distrib, hy, add_zero]

/-- The mass-weighted sum of the kicks `(F_i / m_i) * c` is zero. -/
theorem sum_mass_kick (sqrt : K → K) (s : NBodySystem2D K) (c : K) :
    ∑ i ∈ Finset.range s.bodyCount,
        (s.bodyAt i).m * ((netForce sqrt s i).x / (s.bodyAt i).m * c) = 0 ∧
    ∑ i ∈ Finset.range s.bodyCount,
        (s.bodyAt i).m * ((netForce sqrt s i).y / (s.bodyAt i).m * c) = 0 := by
  obtain ⟨hx, hy⟩ := sum_netForce sqrt s
  constructor
  · have e : ∀ i ∈ Finset.range s.bodyCount,
        (s.bodyAt i).m * ((netForce sqrt s i).x / (s.bodyAt i).m * c) =
        (netForce sqrt s i).x * c := by
      intro i _
      rw [← mul_assoc, (mass_mul_accel sqrt s i).1]
    rw [Finset.sum_congr rfl e, ← Finset.sum_mul, hx, zero_mul]
  · have e : ∀ i ∈ Finset.range s.bodyCount,
        (s.bodyAt i).m * ((netForce sqrt s i).y / (s.bodyAt i).m * c) =
        (netForce sqrt s i).y * c := by
      intro i _
      rw [← mul_assoc, (mass_mul_accel sqrt s i).2]
    rw [Finset.sum_congr rfl e, ← Finset.sum_mul, hy, zero_mul]

/-- Linear momentum in the field model: the force accumulators add up to
`(0,0)` after `computeForces`, and the total momentum (the sum over the bodies
of `m_i * v_i`) is the same after `stepEuler(dt)`, after `stepSemiEuler(dt)` and
after `stepVerlet(dt)` as before the step. On the program this is the behaviour
of the runs that divide by no zero. -/
theorem momentum_unchanged (sqrt : K → K) (dt : K) (s : NBodySystem2D K) :
    totalForce (s.computeForces sqrt) = ⟨0, 0⟩ ∧
    totalMomentum (s.stepEuler sqrt dt) = totalMomentum s ∧
    totalMomentum (s.stepSemiEuler sqrt dt) = totalMomentum s ∧
    totalMomentum (s.stepVerlet sqrt dt) = totalMomentum s := by
  obtain ⟨⟨_, _, a3, a4⟩, a5⟩ := computeForces_spec sqrt s
  obtain ⟨kx, ky⟩ := sum_mass_kick sqrt s dt
  refine ⟨?_, ?_, ?_, ?_⟩
  · obtain ⟨hx, hy⟩ := sum_netForce sqrt s
    have ex : ∑ i ∈ Finset.range s.bodyCount, ((s.computeForces sqrt).bodyAt i).f.x =
        ∑ i ∈ Finset.range s.bodyCount, (netForce sqrt s i).x :=
      Finset.sum_congr rfl (fun i hi => by rw [a5 i (Finset.mem_range.mp hi)])
    have ey : ∑ i ∈ Finset.range s.bodyCount, ((s.computeForces sqrt).bodyAt i).f.y =
        ∑ i ∈ Finset.range s.bodyCount, (netForce sqrt s i).y :=
      Finset.sum_congr rfl (fun i hi => by rw [a5 i (Finset.mem_range.mp hi)])
    unfold totalForce
    rw [a3, Vec2.ext_iff2, Vec2.sum_x, Vec2.sum_y, ex, ey]
    exact ⟨hx, hy⟩
  · obtain ⟨_, _, h3, h4⟩ := stepEuler_spec sqrt dt s
    refine totalMomentum_of_increments s _ h3 _ _ (fun i hi => ?_) kx ky
    rw [h4 i hi]
    simp only [Body2D.eulerUpdate, (a4 i).1, (a4 i).2.2, a5 i hi, and_self]
  · obtain ⟨_, _, h3, h4⟩ := stepSemiEuler_spec sqrt dt s
    refine totalMomentum_of_increments s _ h3 _ _ (fun i hi => ?_) kx ky
    rw [h4 i hi]
    simp only [Body2D.semiEulerUpdate, (a4 i).1, (a4 i).2.2, a5 i hi, and_self]
  · obtain ⟨_, _, h3, _⟩ := stepVerlet_spec sqrt dt s
    obtain ⟨_, _, m3, m4⟩ := verletMoved_spec sqrt dt s
    obtain ⟨vx, vy⟩ := sum_mass_kick sqrt (verletMoved sqrt dt s) dt
    rw [m3] at vx vy
    have hmv : ∀ i ∈ Finset.range s.bodyCount,
        ((verletMoved sqrt dt s).bodyAt i).m = (s.bodyAt i).m :=
      fun i hi => (m4 i (Finset.mem_range.mp hi)).1
    rw [Finset.sum_congr rfl (fun i hi => by rw [hmv i hi])] at vx vy
    refine totalMomentum_of_increments s _ h3
      (fun i => 0.5 * ((netForce sqrt s i).x / (s.bodyAt i).m +
        (netForce sqrt (verletMoved sqrt dt s) i).x / (s.bodyAt i).m) * dt)
      (fun i => 0.5 * ((netForce sqrt s i).y / (s.bodyAt i).m +
        (netForce sqrt (verletMoved sqrt dt s) i).y / (s.bodyAt i).m) * dt)
      (fun i hi => ?_) ?_ ?_
    · obtain ⟨e1, _, e3⟩ := stepVerlet_netForce sqrt dt s i hi
      rw [e3]
      exact ⟨e1, rfl, rfl⟩
    · have e : ∀ i ∈ Finset.range s.bodyCount,
          (s.bodyAt i).m * (0.5 * ((netForce sqrt s i).x / (s.bodyAt i).m +
            (netForce sqrt (verletMoved sqrt dt s) i).x / (s.bodyAt i).m) * dt) =
          0.5 * ((s.bodyAt i).m * ((netForce sqrt s i).x / (s.bodyAt i).m * dt)) +
          0.5 * ((s.bodyAt i).m *
            ((netForce sqrt (verletMoved sqrt dt s) i).x / (s.bodyAt i).m * dt)) :=
        fun i _ => by ring
      rw [Finset.sum_congr rfl e, Finset.sum_add_distrib, ← Finset.mul_sum, ← Finset.mul_sum,
        kx, vx]
      ring
    · have e : ∀ i ∈ Finset.range s.bodyCount,
          (s.bodyAt i).m * (0.5 * ((netForce sqrt s i).y / (s.bodyAt i).m +
            (netForce sqrt (verletMoved sqrt dt s) i).y / (s.bodyAt i).m) * dt) =
          0.5 * ((s.bodyAt i).m * ((netForce sqrt s i).y / (s.bodyAt i).m * dt)) +
          0.5 * ((s.bodyAt i).m *
            ((netForce sqrt (verletMoved sqrt dt s) i).y / (s.bodyAt i).m * dt)) :=
        fun i _ => by ring
      rw [Finset.sum_congr rfl e, Finset.sum_add_distrib, ← Finset.mul_sum, ← Finset.mul_sum,
        ky, vy]
      ring

/-- Angular momentum in the field model: the total angular momentum (the sum
over the bodies of `m_i * (r_i.x * v_i.y - r_i.y * v_i.x)`) is the same after
`stepSemiEuler(dt)` and after `stepVerlet(dt)` as before the step; each pair
force is parallel to the displacement `r_j - r_i` of its pair. On the program
this is the behaviour of the runs that divide by no zero. -/
theorem angularMomentum_unchanged (sqrt : K → K) (dt : K) (s : NBodySystem2D K) :
    angularMomentum (s.stepSemiEuler sqrt dt) = angularMomentum s ∧
    angularMomentum (s.stepVerlet sqrt dt) = angularMomentum s ∧
    ∀ i j, ((s.bodyAt j).r.x - (s.bodyAt i).r.x) * (s.pairForce sqrt i j).y -
      ((s.bodyAt j).r.y - (s.bodyAt i).r.y) * (s.pairForce sqrt i j).x = 0 := by
  obtain ⟨⟨_, _, a3, a4⟩, a5⟩ := computeForces_spec sqrt s
  have htq := sum_torque sqrt s
  refine ⟨?_, ?_, pairForce_parallel sqrt s⟩
  · obtain ⟨_, _, h3, h4⟩ := stepSemiEuler_spec sqrt dt s
    unfold angularMomentum
    rw [h3]
    have e : ∀ i ∈ Finset.range s.bodyCount,
        ((s.stepSemiEuler sqrt dt).bodyAt i).m *
          (((s.stepSemiEuler sqrt dt).bodyAt i).r.x * ((s.stepSemiEuler sqrt dt).bodyAt i).v.y -
           ((s.stepSemiEuler sqrt dt).bodyAt i).r.y * ((s.stepSemiEuler sqrt dt).bodyAt i).v.x) =
        (s.bodyAt i).m * ((s.bodyAt i).r.x * (s.bodyAt i).v.y -
          (s.bodyAt i).r.y * (s.bodyAt i).v.x) +
        dt * ((s.bodyAt i).r.x * (netForce sqrt s i).y -
          (s.bodyAt i).r.y * (netForce sqrt s i).x) := by
      intro i hi
      rw [Finset.mem_range] at hi
      obtain ⟨mx, my⟩ := mass_mul_accel sqrt s i
      rw [h4 i hi]
      simp only [Body2D.semiEulerUpdate, (a4 i).1, (a4 i).2.1, (a4 i).2.2, a5 i hi]
      linear_combination (dt * (s.bodyAt i).r.x) * my - (dt * (s.bodyAt i).r.y) * mx
    rw [Finset.sum_congr rfl e, Finset.sum_add_distrib, ← Finset.mul_sum, htq, mul_zero, add_zero]
  · obtain ⟨_, _, h3, _⟩ := stepVerlet_spec sqrt dt s
    obtain ⟨_, _, m3, m4⟩ := verletMoved_spec sqrt dt s
    have htq2 := sum_torque sqrt (verletMoved sqrt dt s)
    rw [m3] at htq2
    unfold angularMomentum
    rw [h3]
    have e : ∀ i ∈ Finset.range s.bodyCount,
        ((s.stepVerlet sqrt dt).bodyAt i).m *
          (((s.stepVerlet sqrt dt).bodyAt i).r.x * ((s.stepVerlet sqrt dt).bodyAt i).v.y -
           ((s.stepVerlet sqrt dt).bodyAt i).r.y * ((s.stepVerlet sqrt dt).bodyAt i).v.x) =
        (s.bodyAt i).m * ((s.bodyAt i).r.x * (s.bodyAt i).v.y -
          (s.bodyAt i).r.y * (s.bodyAt i).v.x) +
        0.5 * dt * ((s.bodyAt i).r.x * (netForce sqrt s i).y -
          (s.bodyAt i).r.y * (netForce sqrt s i).x) +
        0.5 * dt * (((verletMoved sqrt dt s).bodyAt i).r.x *
            (netForce sqrt (verletMoved sqrt dt s) i).y -
          ((verletMoved sqrt dt s).bodyAt i).r.y *
            (netForce sqrt (verletMoved sqrt dt s) i).x) := by
      intro i hi
      rw [Finset.mem_range] at hi
      obtain ⟨mx, my⟩ := mass_mul_accel sqrt s i
      obtain ⟨nx, ny⟩ := mass_mul_accel sqrt (verletMoved sqrt dt s) i
      obtain ⟨vm, _, vr⟩ := m4 i hi
      rw [vm] at nx ny
      obtain ⟨e1, e2, e3⟩ := stepVerlet_netForce sqrt dt s i hi
      rw [e1, e2, e3, vr]
      simp only
      linear_combination
        (0.5 * dt * (s.bodyAt i).r.x) * my - (0.5 * dt * (s.bodyAt i).r.y) * mx +
        (0.5 * dt * ((s.bodyAt i).r.x + (s.bodyAt i).v.x * dt +
          0.5 * ((netForce sqrt s i).x / (s.bodyAt i).m) * dt ^ 2)) * ny -
        (0.5 * dt * ((s.bodyAt i).r.y + (s.bodyAt i).v.y * dt +
          0.5 * ((netForce sqrt s i).y / (s.bodyAt i).m) * dt ^ 2)) * nx
    rw [Finset.sum_congr rfl e, Finset.sum_add_distrib, Finset.sum_add_distrib,
      ← Finset.mul_sum, ← Finset.mul_sum, htq, htq2, mul_zero, add_zero, add_zero]

/-- What is the same function of the bodies at every index, up to a change of
function, is the same in the body lists. -/
theorem map_eq_of_bodyAt_two {α : Type} (s t : NBodySystem2D K) (g h : Body2D K → α)
    (hn : t.bodyCount = s.bodyCount)
    (hb : ∀ k, k < s.bodyCount → g (t.bodyAt k) = h (s.bodyAt k)) :
    t.m_bodies.map g = s.m_bodies.map h := by
  unfold NBodySystem2D.bodyCount NBodySystem2D.bodyAt at *
  apply List.ext_getElem (by simpa using hn)
  intro k h1 h2
  simp only [List.length_map] at h1 h2
  have := hb k h2
  rw [List.getD_eq_getElem _ _ h1, List.getD_eq_getElem _ _ h2] at this
  simpa using this

/-- Claim C30. Explicit and semi-implicit Euler differ only in the position
update: from the same state and with the same `dt` they leave the same
velocity and the same force accumulator on every body, and the semi-implicit
position of body `i` is the explicit position plus `(F_i/m_i)*dt^2`, where
`F_i` is the accumulator and `m_i` the mass of the body after either step (and
`F_i` is what `computeForces` produces on the state before the step). -/
theorem euler_variants (sqrt : K → K) (dt : K) (s : NBodySystem2D K) :
    (s.stepSemiEuler sqrt dt).m_bodies.map (fun b => (b.m, b.v, b.f)) =
      (s.stepEuler sqrt dt).m_bodies.map (fun b => (b.m, b.v, b.f)) ∧
    (s.stepSemiEuler sqrt dt).m_bodies.map (fun b => b.r) =
      (s.stepEuler sqrt dt).m_bodies.map
        (fun b => (⟨b.r.x + b.f.x / b.m * dt ^ 2, b.r.y + b.f.y / b.m * dt ^ 2⟩ : Vec2 K)) ∧
    (∀ i, i < s.bodyCount →
      ((s.stepEuler sqrt dt).bodyAt i).f = ((s.computeForces sqrt).bodyAt i).f ∧
      ((s.stepEuler sqrt dt).bodyAt i).m = (s.bodyAt i).m ∧
      ((s.stepSemiEuler sqrt dt).bodyAt i).r =
        ⟨((s.stepEuler sqrt dt).bodyAt i).r.x +
            ((s.computeForces sqrt).bodyAt i).f.x / (s.bodyAt i).m * dt ^ 2,
         ((s.stepEuler sqrt dt).bodyAt i).r.y +
            ((s.computeForces sqrt).bodyAt i).f.y / (s.bodyAt i).m * dt ^ 2⟩) := by
  obtain ⟨⟨_, _, a3, a4⟩, _⟩ := computeForces_spec sqrt s
  obtain ⟨_, _, h3, h4⟩ := stepEuler_spec sqrt dt s
  obtain ⟨_, _, g3, g4⟩ := stepSemiEuler_spec sqrt dt s
  refine ⟨?_, ?_, fun i hi => ?_⟩
  · apply map_eq_of_bodyAt _ _ _ (g3.trans h3.symm)
    intro k hk
    rw [h3] at hk
    rw [h4 k hk, g4 k hk]
    rfl
  · apply map_eq_of_bodyAt_two _ _ _ _ (g3.trans h3.symm)
    intro k hk
    rw [h3] at hk
    rw [h4 k hk, g4 k hk]
    simp only [Body2D.semiEulerUpdate, Body2D.eulerUpdate]
    rw [Vec2.ext_iff2]
    constructor <;> simp only <;> ring
  · rw [h4 i hi, g4 i hi]
    refine ⟨rfl, (a4 i).1, ?_⟩
    simp only [Body2D.semiEulerUpdate, Body2D.eulerUpdate, (a4 i).1]
    rw [Vec2.ext_iff2]
    constructor <;> simp only <;> ring

end Conservation

/-! ## Configuration and loading -/

section Collaborators

variable {K : Type} [LinearOrderedField K]

/-- What `validate` checks: it returns true exactly when `method` is one of
"euler", "semieuler", "verlet", the comparison `dt <= 0` is false,
`steps > 0`, `outputEvery > 0`, and `bodiesFile` and `outTrajFile` are not
empty; it appends to the stream one message for each failing check, in the
order of the checks, and nothing when it returns true; a default-constructed
config is rejected; and for a `dt` that is a number, `dt <= 0` is false exactly
when `dt > 0`. -/
theorem validate_checks (c : SimulationConfig K) (err : List String) :
    ((c.validate err).1 = true ↔
      (c.method = "euler" ∨ c.method = "semieuler" ∨ c.method = "verlet") ∧
        leValue c.dt 0 = false ∧
        0 < c.steps ∧ 0 < c.outputEvery ∧ c.bodiesFile ≠ "" ∧ c.outTrajFile ≠ "") ∧
    (c.validate err).2 = err ++
      ((if c.method = "euler" ∨ c.method = "semieuler" ∨ c.method = "verlet" then []
        else ["Method must be \x27euler\x27 or \x27semieuler\x27 or \x27verlet\x27.\n"]) ++
       (if leValue c.dt 0 = false then [] else ["dt must be greater than 0.\n"]) ++
       (if 0 < c.steps then [] else ["steps must be greater than 0.\n"]) ++
       (if 0 < c.outputEvery then [] else ["outputEvery must be greater than 0.\n"]) ++
       (if c.bodiesFile ≠ "" then [] else ["bodiesFile is empty.\n"]) ++
       (if c.outTrajFile ≠ "" then [] else ["outTrajFile is empty.\n"])) ∧
    ((c.validate err).1 = true → (c.validate err).2 = err) ∧
    ((SimulationConfig.init : SimulationConfig K).validate err).1 = false ∧
    (∀ x : K, leValue (some x) 0 = false ↔ 0 < x) := by
  have hm : (c.method ≠ "euler" ∧ c.method ≠ "semieuler" ∧ c.method ≠ "verlet") ↔
      ¬ (c.method = "euler" ∨ c.method = "semieuler" ∨ c.method = "verlet") := by
    simp only [not_or]
  have hinit : ((SimulationConfig.init : SimulationConfig K).validate err).1 = false := by
    simp [SimulationConfig.validate, SimulationConfig.init, leValue]
  have hnum : ∀ x : K, leValue (some x) 0 = false ↔ 0 < x := by
    intro x
    simp [leValue]
  refine ⟨?_, ?_, ?_, hinit, hnum⟩ <;>
  · unfold SimulationConfig.validate
    simp only [hm, ← not_lt]
    by_cases h1 : (c.method = "euler" ∨ c.method = "semieuler" ∨ c.method = "verlet") <;>
    by_cases h2 : leValue c.dt 0 = true <;> by_cases h3 : 0 < c.steps <;>
    by_cases h4 : 0 < c.outputEvery <;> by_cases h5 : c.bodiesFile = "" <;>
    by_cases h6 : c.outTrajFile = "" <;> simp [h1, h2, h3, h4, h5, h6]

/-- C25, the code at the failing input: a config whose `dt` is NaN passes
`validate`. On `nanStepConfig`, whatever the stream holds, `validate` returns
true and writes no message, although `dt > 0` does not hold; the check of the
code, `dt <= 0`, is false for NaN. -/
theorem validate_accepts_nan_dt :
    (∀ err : List String,
      (nanStepConfig : SimulationConfig ℝ).validate err = (true, err)) ∧
    gtValue (nanStepConfig : SimulationConfig ℝ).dt 0 = false ∧
    leValue (nanStepConfig : SimulationConfig ℝ).dt 0 = false := by
  refine ⟨fun err => ?_, rfl, rfl⟩
  simp [SimulationConfig.validate, nanStepConfig, leValue]

/-- A line of exactly five tokens that parse is read as `mass,x,y,vx,vy`:
the fourth and fifth values are the velocity components as they stand. -/
theorem parseBodyLine_five (stold : List Char → Option K) (cos sin : K → K) (line : List Char)
    (h1 : line ≠ []) (h2 : line.head? ≠ some '#') (t0 t1 t2 t3 t4 : List Char)
    (ht : (splitCommas line).map stripCR = [t0, t1, t2, t3, t4]) (m x y a b : K)
    (hm : stold t0 = some m) (hx : stold t1 = some x) (hy : stold t2 = some y)
    (ha : stold t3 = some a) (hb : stold t4 = some b) :
    parseBodyLine stold cos sin line = some (Body2D.make m ⟨x, y⟩ ⟨a, b⟩) := by
  unfold parseBodyLine
  simp [h1, h2, ht, hm, hx, hy, ha, hb]

/-- Only a line of more than five tokens is read as speed and direction. -/
theorem parseBodyLine_more (stold : List Char → Option K) (cos sin : K → K) (line : List Char)
    (h1 : line ≠ []) (h2 : line.head? ≠ some '#') (t0 t1 t2 t3 t4 t5 : List Char)
    (rest : List (List Char))
    (ht : (splitCommas line).map stripCR = t0 :: t1 :: t2 :: t3 :: t4 :: t5 :: rest)
    (m x y a b : K)
    (hm : stold t0 = some m) (hx : stold t1 = some x) (hy : stold t2 = some y)
    (ha : stold t3 = some a) (hb : stold t4 = some b) :
    parseBodyLine stold cos sin line =
      some (Body2D.make m ⟨x, y⟩
        ⟨a * cos (b * (loaderPI / 180.0)), a * sin (b * (loaderPI / 180.0))⟩) := by
  unfold parseBodyLine
  simp [h1, h2, ht, hm, hx, hy, ha, hb]

theorem stoldDigits_examples :
    (stoldDigits "1".toList : Option K) = some 1 ∧ (stoldDigits "0".toList : Option K) = some 0 ∧
    (stoldDigits "2".toList : Option K) = some 2 ∧
    (stoldDigits "90".toList : Option K) = some 90 := by
  have h1 : digitsValue "1".toList = some 1 := by decide
  have h0 : digitsValue "0".toList = some 0 := by decide
  have h2 : digitsValue "2".toList = some 2 := by decide
  have h90 : digitsValue "90".toList = some 90 := by decide
  unfold stoldDigits
  rw [h1, h0, h2, h90]
  simp

/-- Claim C26, on the code. The record `1,0,0,2,90`, of the documented form
`mass,x,y,speed,direction_deg`, is added with the velocity `(2, 90)`: a record
of five fields is always read as `mass,x,y,vx,vy`. The velocity the
documentation promises, `(2*cos(90*pi/180), 2*sin(90*pi/180))`, is another one,
whatever `pi` is. -/
theorem loader_reads_five_fields_as_components :
    loadLine stoldDigits Real.cos Real.sin "1,0,0,2,90".toList
        (NBodySystem2D.init : NBodySystem2D ℝ) =
      (NBodySystem2D.init : NBodySystem2D ℝ).addBody (Body2D.make 1 ⟨0, 0⟩ ⟨2, 90⟩) ∧
    (∀ p : ℝ, (⟨2, 90⟩ : Vec2 ℝ) ≠
      ⟨2 * Real.cos (90 * (p / 180)), 2 * Real.sin (90 * (p / 180))⟩) := by
  obtain ⟨e1, e0, e2, e90⟩ := stoldDigits_examples (K := ℝ)
  constructor
  · have hp := parseBodyLine_five (stoldDigits : List Char → Option ℝ) Real.cos Real.sin
      "1,0,0,2,90".toList (by decide) (by decide) "1".toList "0".toList "0".toList "2".toList
      "90".toList (by decide) 1 0 0 2 90 e1 e0 e0 e2 e90
    unfold loadLine
    rw [hp]
  · intro p h
    have hy := congrArg Vec2.y h
    simp only at hy
    have := Real.sin_le_one (90 * (p / 180))
    linarith

end Collaborators

/-! ## Runs that divide by no zero: reversibility and the conserved momenta -/

section Checked

variable {K : Type} [LinearOrderedField K]

/-- A run that divides by no zero has its final state as value. -/
theorem checkedRun_some (st : NBodySystem2D K × List K) (h : ∀ d ∈ st.2, d ≠ 0) :
    checkedRun st = some st.1 := by
  unfold checkedRun
  rw [if_neg (fun h0 => h 0 h0 rfl)]

/-- A run that divides by zero has no value. -/
theorem checkedRun_none (st : NBodySystem2D K × List K) (h : (0 : K) ∈ st.2) :
    checkedRun st = none := by
  unfold checkedRun
  rw [if_pos h]

/-- The mass loop keeps the divisors recorded before it. -/
theorem massLoop_mem (g : Nat → Body2D K → Body2D K) (lo hi : Nat)
    (st : NBodySystem2D K × List K) (d : K) (h : d ∈ st.2) :
    d ∈ (forLoop lo hi (massStepTraced g) st).2 := by
  apply forLoop_induct (fun w : NBodySystem2D K × List K => d ∈ w.2) _ _ _ _ st h
  intro i w _ _ hw
  simp only [massStepTraced, List.mem_append]
  exact Or.inl hw

/-- The traced `computeForces` keeps the divisors recorded before it. -/
theorem computeForcesTraced_mem (sqrt : K → K) (st : NBodySystem2D K × List K) (d : K)
    (h : d ∈ st.2) : d ∈ (computeForcesTraced sqrt st).2 := by
  unfold computeForcesTraced
  simp only
  apply forLoop_induct (fun w : NBodySystem2D K × List K => d ∈ w.2) _ _ _ _
    (st.1.clearForces, st.2) h
  intro i u _ _ hu
  apply forLoop_induct (fun w : NBodySystem2D K × List K => d ∈ w.2) _ _ _ _ u hu
  intro j w _ _ hw
  simp only [pairStepTraced, List.mem_append]
  exact Or.inl hw

/-- On two bodies the traced `computeForces` divides by `sqrt(dist2)` of the
pair `(0, 1)`. -/
theorem computeForcesTraced_pair (sqrt : K → K) (st : NBodySystem2D K × List K)
    (hn : st.1.bodyCount = 2) : sqrt (st.1.dist2 0 1) ∈ (computeForcesTraced sqrt st).2 := by
  have hc := (clearForces_spec st.1).1
  have hd : st.1.clearForces.dist2 0 1 = st.1.dist2 0 1 :=
    dist2_congr (sameFrame_toGeometry hc) 0 1
  unfold computeForcesTraced
  simp only [hn]
  rw [forLoop_first 0 2 (by omega), forLoop_first 1 2 (by omega), forLoop_empty 2 2 (by omega),
    forLoop_first 1 2 (by omega), forLoop_empty 2 2 (by omega), forLoop_empty 2 2 (by omega)]
  simp only [pairStepTraced, hd, List.mem_append, List.mem_singleton, or_true]

/-- On two bodies `stepEuler` and `stepSemiEuler` divide by `sqrt(dist2)` of the
pair. -/
theorem stepTraced_pair (sqrt : K → K) (dt : K) (s : NBodySystem2D K) (hn : s.bodyCount = 2) :
    sqrt (s.dist2 0 1) ∈ (stepEulerTraced sqrt dt s).2 ∧
    sqrt (s.dist2 0 1) ∈ (stepSemiEulerTraced sqrt dt s).2 :=
  ⟨massLoop_mem _ _ _ _ _ (computeForcesTraced_pair sqrt (s, []) hn),
    massLoop_mem _ _ _ _ _ (computeForcesTraced_pair sqrt (s, []) hn)⟩

/-- On two bodies `stepVerlet` divides by `sqrt(dist2)` of the pair, at the
positions before the step and at the moved positions. -/
theorem stepVerletTraced_pair (sqrt : K → K) (dt : K) (s : NBodySystem2D K)
    (hn : s.bodyCount = 2) :
    sqrt (s.dist2 0 1) ∈ (stepVerletTraced sqrt dt s).2 ∧
    sqrt ((verletMoved sqrt dt s).dist2 0 1) ∈ (stepVerletTraced sqrt dt s).2 := by
  have hn0 : ¬ s.bodyCount = 0 := by omega
  have hpos : forLoop 0 s.bodyCount (fun i t => t.modifyBody i (Body2D.verletPosition dt
      (((computeForcesTraced sqrt (s, [])).1.storeAccel s.bodyCount).getD i Vec2.zero)))
      (computeForcesTraced sqrt (s, [])).1 = verletMoved sqrt dt s := by
    rw [computeForcesTraced_fst]; exact verlet_position_loop sqrt dt s
  have hm2 : (verletMoved sqrt dt s).bodyCount = 2 :=
    (verletMoved_spec sqrt dt s).2.2.1.trans hn
  unfold stepVerletTraced
  simp only [hn0, if_false]
  rw [hpos]
  constructor
  · apply massLoop_mem
    apply computeForcesTraced_mem
    apply forLoop_induct (fun l : List K => sqrt (s.dist2 0 1) ∈ l)
    · intro i l _ _ hl
      exact List.mem_append_left _ hl
    · exact computeForcesTraced_pair sqrt (s, []) hn
  · apply massLoop_mem
    exact computeForcesTraced_pair sqrt (verletMoved sqrt dt s, _) hm2

/-- With positive masses and positive softening no run divides by zero. -/
theorem softened_divisors (sqrt : K → K) (hsqrt : ∀ x, 0 < x → sqrt x ≠ 0) (dt : K)
    (s : NBodySystem2D K) (hm : ∀ b ∈ s.m_bodies, 0 < b.m) (he : 0 < s.m_eps2) :
    (∀ d ∈ (computeForcesTraced sqrt (s, [])).2, d ≠ 0) ∧
    (∀ d ∈ (stepEulerTraced sqrt dt s).2, d ≠ 0) ∧
    (∀ d ∈ (stepSemiEulerTraced sqrt dt s).2, d ≠ 0) ∧
    (∀ d ∈ (stepVerletTraced sqrt dt s).2, d ≠ 0) :=
  ⟨computeForcesTraced_log sqrt hsqrt (s, []) he.le (Or.inl he) (by simp),
    stepTraced_log sqrt hsqrt s hm he.le (Or.inl he) _ (fun _ _ => rfl),
    stepTraced_log sqrt hsqrt s hm he.le (Or.inl he) _ (fun _ _ => rfl),
    stepVerletTraced_log sqrt hsqrt dt s hm he.le (Or.inl he)
      (Or.inl (by rw [(verletMoved_spec sqrt dt s).2.1]; exact he))⟩

/-- With positive masses and positive softening the Verlet step back from the
state after a Verlet step divides by no zero either. -/
theorem softened_return_divisors (sqrt : K → K) (hsqrt : ∀ x, 0 < x → sqrt x ≠ 0) (dt : K)
    (s : NBodySystem2D K) (hm : ∀ b ∈ s.m_bodies, 0 < b.m) (he : 0 < s.m_eps2) :
    ∀ d ∈ (stepVerletTraced sqrt (-dt) (s.stepVerlet sqrt dt)).2, d ≠ 0 := by
  obtain ⟨_, h2, h3, _⟩ := stepVerlet_spec sqrt dt s
  have hm1 : ∀ b ∈ (s.stepVerlet sqrt dt).m_bodies, 0 < b.m := by
    apply forall_mem_of_bodyAt
    intro k hk
    rw [(stepVerlet_netForce sqrt dt s k (by omega)).1]
    exact mass_pos_of_mem s hm k (by omega)
  exact (softened_divisors sqrt hsqrt (-dt) (s.stepVerlet sqrt dt) hm1
    (by rw [h2]; exact he)).2.2.2

/-- The softened pair has positive masses and positive softening. -/
theorem softenedPair_positive :
    (∀ b ∈ (softenedPair : NBodySystem2D ℝ).m_bodies, 0 < b.m) ∧
    0 < (softenedPair : NBodySystem2D ℝ).m_eps2 := by
  constructor
  · simp [softenedPair, Body2D.make]
  · simp [softenedPair]

/-- The real square root is nonzero on positive numbers. -/
theorem real_sqrt_ne_zero (x : ℝ) (hx : 0 < x) : Real.sqrt x ≠ 0 :=
  (Real.sqrt_pos.mpr hx).ne.symm

/-- The two coincident bodies are at computed distance zero. -/
theorem coincidentPair_distance :
    (coincidentPair : NBodySystem2D ℝ).bodyCount = 2 ∧
    Real.sqrt ((coincidentPair : NBodySystem2D ℝ).dist2 0 1) = 0 := by
  constructor
  · rfl
  · simp [coincidentPair, NBodySystem2D.dist2, NBodySystem2D.bodyAt, Body2D.make, Vec2.sub]

/-- `stepVerlet(1)` moves both bodies of the unit pair to `(1/2, 0)`: the moved
pair is at computed distance zero. -/
theorem unitPair_collision :
    (unitPair : NBodySystem2D ℝ).bodyCount = 2 ∧
    Real.sqrt ((verletMoved Real.sqrt 1 (unitPair : NBodySystem2D ℝ)).dist2 0 1) = 0 := by
  have hn : (unitPair : NBodySystem2D ℝ).bodyCount = 2 := rfl
  refine ⟨hn, ?_⟩
  obtain ⟨_, m2, _, m4⟩ := verletMoved_spec Real.sqrt 1 (unitPair : NBodySystem2D ℝ)
  obtain ⟨_, _, r0⟩ := m4 0 (by omega)
  obtain ⟨_, _, r1⟩ := m4 1 (by omega)
  have e0 : (Finset.range 2).erase 0 = {1} := by decide
  have e1 : (Finset.range 2).erase 1 = {0} := by decide
  have hd : (verletMoved Real.sqrt 1 (unitPair : NBodySystem2D ℝ)).dist2 0 1 = 0 := by
    unfold NBodySystem2D.dist2
    rw [r0, r1, m2]
    simp [unitPair, NBodySystem2D.bodyCount, e0, e1, netForce, newtonForce,
      NBodySystem2D.bodyAt, Body2D.make, Vec2.sub]
    norm_num
  rw [hd, Real.sqrt_zero]

/-- C7, amended. In the real-number model velocity Verlet is time-reversible on
the runs that divide by no zero: when no divisor of `stepVerlet(dt)` on `s` is
zero and no divisor of `stepVerlet(-dt)` on the state after it is zero (the
divisors of a step are `sqrt(dist2)` of every pair, at the positions before the
step and at the moved positions, and the mass of every body), both steps have a
value and the second gives every body back the position and the velocity it had
before the first. -/
theorem stepVerlet_reversible (sqrt : K → K) (dt : K) (s : NBodySystem2D K)
    (h1 : ∀ d ∈ (stepVerletTraced sqrt dt s).2, d ≠ 0)
    (h2 : ∀ d ∈ (stepVerletTraced sqrt (-dt) (s.stepVerlet sqrt dt)).2, d ≠ 0) :
    stepVerletChecked sqrt dt s = some (s.stepVerlet sqrt dt) ∧
    stepVerletChecked sqrt (-dt) (s.stepVerlet sqrt dt) =
      some ((s.stepVerlet sqrt dt).stepVerlet sqrt (-dt)) ∧
    ((s.stepVerlet sqrt dt).stepVerlet sqrt (-dt)).m_bodies.map (fun b => (b.r, b.v)) =
      s.m_bodies.map (fun b => (b.r, b.v)) := by
  refine ⟨?_, ?_, stepVerlet_round_trip sqrt dt s⟩
  · unfold stepVerletChecked
    rw [checkedRun_some _ h1, stepVerletTraced_fst]
  · unfold stepVerletChecked
    rw [checkedRun_some _ h2, stepVerletTraced_fst]

/-- Counterexample to C7 as stated: over the reals the unit pair has nonzero
masses, and `stepVerlet(1)` brings its two bodies to the same place, where the
second force evaluation divides by `sqrt(0)`: the step has no value, so no run
of `stepVerlet(1)` and `stepVerlet(-1)` restores the positions and velocities. -/
theorem stepVerlet_collision_not_reversible :
    (∀ b ∈ (unitPair : NBodySystem2D ℝ).m_bodies, b.m ≠ 0) ∧
    stepVerletChecked Real.sqrt 1 (unitPair : NBodySystem2D ℝ) = none ∧
    ¬ ∃ s1 s2 : NBodySystem2D ℝ,
      stepVerletChecked Real.sqrt 1 (unitPair : NBodySystem2D ℝ) = some s1 ∧
      stepVerletChecked Real.sqrt (-1) s1 = some s2 ∧
      s2.m_bodies.map (fun b => (b.r, b.v)) =
        (unitPair : NBodySystem2D ℝ).m_bodies.map (fun b => (b.r, b.v)) := by
  obtain ⟨hn, hd⟩ := unitPair_collision
  have h0 : stepVerletChecked Real.sqrt 1 (unitPair : NBodySystem2D ℝ) = none := by
    unfold stepVerletChecked
    apply checkedRun_none
    rw [← hd]
    exact (stepVerletTraced_pair Real.sqrt 1 unitPair hn).2
  refine ⟨by simp [unitPair, Body2D.make], h0, ?_⟩
  rintro ⟨s1, s2, e1, _, _⟩
  rw [h0] at e1
  exact Option.noConfusion e1

/-- Witness for C7: over the reals, on the softened pair neither `stepVerlet(1)`
nor the `stepVerlet(-1)` after it divides by zero. -/
theorem stepVerlet_reversible_witness :
    ((∀ d ∈ (stepVerletTraced Real.sqrt 1 (softenedPair : NBodySystem2D ℝ)).2, d ≠ 0) ∧
      ∀ d ∈ (stepVerletTraced Real.sqrt (-1)
        ((softenedPair : NBodySystem2D ℝ).stepVerlet Real.sqrt 1)).2, d ≠ 0) ∧
    stepVerletChecked Real.sqrt (-1) ((softenedPair : NBodySystem2D ℝ).stepVerlet Real.sqrt 1) =
      some (((softenedPair : NBodySystem2D ℝ).stepVerlet Real.sqrt 1).stepVerlet
        Real.sqrt (-1)) ∧
    (((softenedPair : NBodySystem2D ℝ).stepVerlet Real.sqrt 1).stepVerlet
        Real.sqrt (-1)).m_bodies.map (fun b => (b.r, b.v)) =
      (softenedPair : NBodySystem2D ℝ).m_bodies.map (fun b => (b.r, b.v)) := by
  obtain ⟨hm, he⟩ := softenedPair_positive
  have h1 := (softened_divisors Real.sqrt real_sqrt_ne_zero 1 softenedPair hm he).2.2.2
  have h2 := softened_return_divisors Real.sqrt real_sqrt_ne_zero 1 softenedPair hm he
  exact ⟨⟨h1, h2⟩, (stepVerlet_reversible Real.sqrt 1 softenedPair h1 h2).2⟩

/-- C28, amended. In the real-number model linear momentum is conserved on the
runs that divide by no zero: when no divisor of `computeForces` is zero, the
call has a value and the force accumulators after it add up to `(0,0)`; and for
each of `stepEuler(dt)`, `stepSemiEuler(dt)` and `stepVerlet(dt)`, when no
divisor of the step is zero, the step has a value and the total momentum (the
sum over the bodies of `m_i * v_i`) after it is the one before it. The divisors
are `sqrt(dist2)` of every pair, at the positions the forces are evaluated on,
and the mass of every body. -/
theorem momentum_conserved (sqrt : K → K) (dt : K) (s : NBodySystem2D K) :
    ((∀ d ∈ (computeForcesTraced sqrt (s, [])).2, d ≠ 0) →
      computeForcesChecked sqrt s = some (s.computeForces sqrt) ∧
      totalForce (s.computeForces sqrt) = ⟨0, 0⟩) ∧
    ((∀ d ∈ (stepEulerTraced sqrt dt s).2, d ≠ 0) →
      stepEulerChecked sqrt dt s = some (s.stepEuler sqrt dt) ∧
      totalMomentum (s.stepEuler sqrt dt) = totalMomentum s) ∧
    ((∀ d ∈ (stepSemiEulerTraced sqrt dt s).2, d ≠ 0) →
      stepSemiEulerChecked sqrt dt s = some (s.stepSemiEuler sqrt dt) ∧
      totalMomentum (s.stepSemiEuler sqrt dt) = totalMomentum s) ∧
    ((∀ d ∈ (stepVerletTraced sqrt dt s).2, d ≠ 0) →
      stepVerletChecked sqrt dt s = some (s.stepVerlet sqrt dt) ∧
      totalMomentum (s.stepVerlet sqrt dt) = totalMomentum s) := by
  obtain ⟨m1, m2, m3, m4⟩ := momentum_unchanged sqrt dt s
  refine ⟨fun h => ⟨?_, m1⟩, fun h => ⟨?_, m2⟩, fun h => ⟨?_, m3⟩, fun h => ⟨?_, m4⟩⟩
  · unfold computeForcesChecked
    rw [checkedRun_some _ h, computeForcesTraced_fst]
  · unfold stepEulerChecked
    rw [checkedRun_some _ h, stepEulerTraced_fst]
  · unfold stepSemiEulerChecked
    rw [checkedRun_some _ h, stepSemiEulerTraced_fst]
  · unfold stepVerletChecked
    rw [checkedRun_some _ h, stepVerletTraced_fst]

/-- Counterexample to C28 as stated: over the reals the two coincident bodies
have nonzero masses and `eps2 = 0`, and `computeForces` and `stepEuler(1)`
divide by `sqrt(0)` on them: neither has a value, so there is no sum of
accumulators equal to `(0,0)` and no momentum after the step. -/
theorem momentum_undefined_at_coincidence :
    (∀ b ∈ (coincidentPair : NBodySystem2D ℝ).m_bodies, b.m ≠ 0) ∧
    computeForcesChecked Real.sqrt (coincidentPair : NBodySystem2D ℝ) = none ∧
    stepEulerChecked Real.sqrt 1 (coincidentPair : NBodySystem2D ℝ) = none ∧
    (¬ ∃ t : NBodySystem2D ℝ, computeForcesChecked Real.sqrt coincidentPair = some t ∧
      totalForce t = ⟨0, 0⟩) ∧
    ¬ ∃ t : NBodySystem2D ℝ, stepEulerChecked Real.sqrt 1 coincidentPair = some t ∧
      totalMomentum t = totalMomentum (coincidentPair : NBodySystem2D ℝ) := by
  obtain ⟨hn, hd⟩ := coincidentPair_distance
  have hF : computeForcesChecked Real.sqrt (coincidentPair : NBodySystem2D ℝ) = none := by
    unfold computeForcesChecked
    apply checkedRun_none
    rw [← hd]
    exact computeForcesTraced_pair Real.sqrt (coincidentPair, []) hn
  have hE : stepEulerChecked Real.sqrt 1 (coincidentPair : NBodySystem2D ℝ) = none := by
    unfold stepEulerChecked
    apply checkedRun_none
    rw [← hd]
    exact (stepTraced_pair Real.sqrt 1 coincidentPair hn).1
  refine ⟨by simp [coincidentPair, Body2D.make], hF, hE, ?_, ?_⟩
  · rintro ⟨t, e, _⟩
    rw [hF] at e
    exact Option.noConfusion e
  · rintro ⟨t, e, _⟩
    rw [hE] at e
    exact Option.noConfusion e

/-- Witness for C28: over the reals, on the softened pair none of the four runs
divides by zero, and the momentum after each step is the one before it. -/
theorem momentum_conserved_witness :
    ((∀ d ∈ (computeForcesTraced Real.sqrt ((softenedPair : NBodySystem2D ℝ), [])).2, d ≠ 0) ∧
      (∀ d ∈ (stepEulerTraced Real.sqrt 1 (softenedPair : NBodySystem2D ℝ)).2, d ≠ 0) ∧
      (∀ d ∈ (stepSemiEulerTraced Real.sqrt 1 (softenedPair : NBodySystem2D ℝ)).2, d ≠ 0) ∧
      ∀ d ∈ (stepVerletTraced Real.sqrt 1 (softenedPair : NBodySystem2D ℝ)).2, d ≠ 0) ∧
    totalForce ((softenedPair : NBodySystem2D ℝ).computeForces Real.sqrt) = ⟨0, 0⟩ ∧
    totalMomentum ((softenedPair : NBodySystem2D ℝ).stepEuler Real.sqrt 1) =
      totalMomentum (softenedPair : NBodySystem2D ℝ) ∧
    totalMomentum ((softenedPair : NBodySystem2D ℝ).stepSemiEuler Real.sqrt 1) =
      totalMomentum (softenedPair : NBodySystem2D ℝ) ∧
    totalMomentum ((softenedPair : NBodySystem2D ℝ).stepVerlet Real.sqrt 1) =
      totalMomentum (softenedPair : NBodySystem2D ℝ) := by
  obtain ⟨hm, he⟩ := softenedPair_positive
  have h := softened_divisors Real.sqrt real_sqrt_ne_zero 1 softenedPair hm he
  have c := momentum_conserved Real.sqrt 1 (softenedPair : NBodySystem2D ℝ)
  exact ⟨h, (c.1 h.1).2, (c.2.1 h.2.1).2, (c.2.2.1 h.2.2.1).2, (c.2.2.2 h.2.2.2).2⟩

/-- C29, amended. In the real-number model angular momentum is conserved by the
two symplectic schemes on the runs that divide by no zero: for each of
`stepSemiEuler(dt)` and `stepVerlet(dt)`, when no divisor of the step is zero,
the step has a value and the total angular momentum (the sum over the bodies of
`m_i * (r_i.x * v_i.y - r_i.y * v_i.x)`) after it is the one before it; and the
force of every pair whose `sqrt(dist2)` is not zero is parallel to the
displacement `r_j - r_i` of the pair. -/
theorem angular_momentum_conserved (sqrt : K → K) (dt : K) (s : NBodySystem2D K) :
    ((∀ d ∈ (stepSemiEulerTraced sqrt dt s).2, d ≠ 0) →
      stepSemiEulerChecked sqrt dt s = some (s.stepSemiEuler sqrt dt) ∧
      angularMomentum (s.stepSemiEuler sqrt dt) = angularMomentum s) ∧
    ((∀ d ∈ (stepVerletTraced sqrt dt s).2, d ≠ 0) →
      stepVerletChecked sqrt dt s = some (s.stepVerlet sqrt dt) ∧
      angularMomentum (s.stepVerlet sqrt dt) = angularMomentum s) ∧
    ∀ i j, sqrt (s.dist2 i j) ≠ 0 →
      ((s.bodyAt j).r.x - (s.bodyAt i).r.x) * (s.pairForce sqrt i j).y -
        ((s.bodyAt j).r.y - (s.bodyAt i).r.y) * (s.pairForce sqrt i j).x = 0 := by
  obtain ⟨a1, a2, a3⟩ := angularMomentum_unchanged sqrt dt s
  refine ⟨fun h => ⟨?_, a1⟩, fun h => ⟨?_, a2⟩, fun i j _ => a3 i j⟩
  · unfold stepSemiEulerChecked
    rw [checkedRun_some _ h, stepSemiEulerTraced_fst]
  · unfold stepVerletChecked
    rw [checkedRun_some _ h, stepVerletTraced_fst]

/-- Counterexample to C29 as stated: over the reals the two coincident bodies
have nonzero masses and `eps2 = 0`, and `stepSemiEuler(1)` and `stepVerlet(1)`
divide by `sqrt(0)` on them: neither step has a value, so there is no angular
momentum after the step. -/
theorem angular_momentum_undefined_at_coincidence :
    (∀ b ∈ (coincidentPair : NBodySystem2D ℝ).m_bodies, b.m ≠ 0) ∧
    stepSemiEulerChecked Real.sqrt 1 (coincidentPair : NBodySystem2D ℝ) = none ∧
    stepVerletChecked Real.sqrt 1 (coincidentPair : NBodySystem2D ℝ) = none ∧
    (¬ ∃ t : NBodySystem2D ℝ, stepSemiEulerChecked Real.sqrt 1 coincidentPair = some t ∧
      angularMomentum t = angularMomentum (coincidentPair : NBodySystem2D ℝ)) ∧
    ¬ ∃ t : NBodySystem2D ℝ, stepVerletChecked Real.sqrt 1 coincidentPair = some t ∧
      angularMomentum t = angularMomentum (coincidentPair : NBodySystem2D ℝ) := by
  obtain ⟨hn, hd⟩ := coincidentPair_distance
  have hS : stepSemiEulerChecked Real.sqrt 1 (coincidentPair : NBodySystem2D ℝ) = none := by
    unfold stepSemiEulerChecked
    apply checkedRun_none
    rw [← hd]
    exact (stepTraced_pair Real.sqrt 1 coincidentPair hn).2
  have hV : stepVerletChecked Real.sqrt 1 (coincidentPair : NBodySystem2D ℝ) = none := by
    unfold stepVerletChecked
    apply checkedRun_none
    rw [← hd]
    exact (stepVerletTraced_pair Real.sqrt 1 coincidentPair hn).1
  refine ⟨by simp [coincidentPair, Body2D.make], hS, hV, ?_, ?_⟩
  · rintro ⟨t, e, _⟩
    rw [hS] at e
    exact Option.noConfusion e
  · rintro ⟨t, e, _⟩
    rw [hV] at e
    exact Option.noConfusion e

/-- Witness for C29: over the reals, on the softened pair neither step divides
by zero, and the angular momentum after each step is the one before it. -/
theorem angular_momentum_conserved_witness :
    ((∀ d ∈ (stepSemiEulerTraced Real.sqrt 1 (softenedPair : NBodySystem2D ℝ)).2, d ≠ 0) ∧
      ∀ d ∈ (stepVerletTraced Real.sqrt 1 (softenedPair : NBodySystem2D ℝ)).2, d ≠ 0) ∧
    angularMomentum ((softenedPair : NBodySystem2D ℝ).stepSemiEuler Real.sqrt 1) =
      angularMomentum (softenedPair : NBodySystem2D ℝ) ∧
    angularMomentum ((softenedPair : NBodySystem2D ℝ).stepVerlet Real.sqrt 1) =
      angularMomentum (softenedPair : NBodySystem2D ℝ) := by
  obtain ⟨hm, he⟩ := softenedPair_positive
  have h := softened_divisors Real.sqrt real_sqrt_ne_zero 1 softenedPair hm he
  have c := angular_momentum_conserved Real.sqrt 1 (softenedPair : NBodySystem2D ℝ)
  exact ⟨⟨h.2.2.1, h.2.2.2⟩, (c.1 h.2.2.1).2, (c.2.1 h.2.2.2).2⟩

end Checked

/-! ## The circular-orbit test: energy drift of `stepVerlet` and `stepEuler` -/

section Orbit

/-- The polynomial part of the energy change of a Verlet step. -/
theorem verlet_kinetic_change (a b c d a2 b2 c2 d2 h k k2 : ℝ)
    (ha2 : a2 = a + h * c - h ^ 2 / 2 * k * a) (hb2 : b2 = b + h * d - h ^ 2 / 2 * k * b)
    (hc2 : c2 = c - h / 2 * (k * a + k2 * a2)) (hd2 : d2 = d - h / 2 * (k * b + k2 * b2)) :
    c2 ^ 2 + d2 ^ 2 - (c ^ 2 + d ^ 2) =
      -k * ((a * a2 + b * b2) - (a ^ 2 + b ^ 2)) - k2 * ((a2 ^ 2 + b2 ^ 2) - (a * a2 + b * b2)) +
        h ^ 2 / 4 * (k2 ^ 2 * (a2 ^ 2 + b2 ^ 2) - k ^ 2 * (a ^ 2 + b ^ 2)) := by
  subst hc2 hd2
  subst ha2 hb2
  ring

/-- Angular momentum of the relative motion is kept by a Verlet step. -/
theorem verlet_angular (a b c d a2 b2 c2 d2 h k k2 : ℝ)
    (ha2 : a2 = a + h * c - h ^ 2 / 2 * k * a) (hb2 : b2 = b + h * d - h ^ 2 / 2 * k * b)
    (hc2 : c2 = c - h / 2 * (k * a + k2 * a2)) (hd2 : d2 = d - h / 2 * (k * b + k2 * b2)) :
    a2 * d2 - b2 * c2 = a * d - b * c := by
  subst hc2 hd2
  subst ha2 hb2
  ring

/-- The squared length of the position change of a Verlet step. -/
theorem verlet_step_length (a b c d a2 b2 h k : ℝ)
    (ha2 : a2 = a + h * c - h ^ 2 / 2 * k * a) (hb2 : b2 = b + h * d - h ^ 2 / 2 * k * b) :
    (a2 - a) ^ 2 + (b2 - b) ^ 2 =
      h ^ 2 * (c ^ 2 + d ^ 2) - h ^ 3 * (k * (a * c + b * d)) +
        h ^ 4 / 4 * (k ^ 2 * (a ^ 2 + b ^ 2)) := by
  subst ha2 hb2
  ring


/-- Where the radius can be when the relative energy is within `2e-4` of `-1/2`
and the angular momentum squared is `1/8`. -/
theorem verlet_region (x w s : ℝ) (hx0 : 0 ≤ x) (hL : 1 / 8 + s ^ 2 = x ^ 2 * w)
    (hE : w - 1 / (2 * x) ≤ -(4998 / 10000)) :
    48 / 100 ≤ x ∧ x ≤ 52 / 100 ∧ w ≤ 55 / 100 ∧ s ^ 2 ≤ 3 / 100 := by
  have hxpos : 0 < x := by
    rcases hx0.lt_or_eq with h | h
    · exact h
    · rw [← h] at hL
      nlinarith [sq_nonneg s]
  have hi : x ^ 2 * (1 / (2 * x)) = x / 2 := by
    field_simp
    ring
  have hq : 1 / 8 + s ^ 2 ≤ -(4998 / 10000) * x ^ 2 + x / 2 := by
    have : x ^ 2 * (w - 1 / (2 * x)) ≤ x ^ 2 * (-(4998 / 10000)) :=
      mul_le_mul_of_nonneg_left hE (sq_nonneg x)
    nlinarith
  have h1 : 48 / 100 ≤ x := by
    by_contra hc
    push_neg at hc
    nlinarith [sq_nonneg s]
  have h2 : x ≤ 52 / 100 := by
    by_contra hc
    push_neg at hc
    nlinarith [sq_nonneg s]
  have hinv : 1 / (2 * x) ≤ 1 / (2 * (48 / 100)) :=
    one_div_le_one_div_of_le (by norm_num) (by linarith)
  have h3 : w ≤ 55 / 100 := by
    have e : (1 : ℝ) / (2 * (48 / 100)) = 25 / 24 := by norm_num
    rw [e] at hinv
    linarith
  refine ⟨h1, h2, h3, ?_⟩
  nlinarith [sq_nonneg s]



theorem trapezoid_remainder (x y c : ℝ) (hx : 0 < x) (hy : 0 < y) :
    1 / (2 * x) - 1 / (2 * y) - 1 / (4 * x ^ 3) * (c - x ^ 2) - 1 / (4 * y ^ 3) * (y ^ 2 - c) =
      (y - x) * ((x ^ 2 + y ^ 2 - 2 * c) * (x ^ 2 + x * y + y ^ 2) -
        (y - x) ^ 2 * ((x + y) ^ 2 + x * y)) / (8 * x ^ 3 * y ^ 3) := by
  field_simp
  ring

/-- Two radii differ by at most the distance of the points. -/
theorem radius_diff (a b a2 b2 x y e : ℝ) (hx0 : 0 ≤ x) (hy0 : 0 ≤ y) (he : 0 ≤ e)
    (hx2 : x ^ 2 = a ^ 2 + b ^ 2) (hy2 : y ^ 2 = a2 ^ 2 + b2 ^ 2)
    (hD : (a2 - a) ^ 2 + (b2 - b) ^ 2 ≤ e ^ 2) :
    a * a2 + b * b2 ≤ x * y ∧ |y - x| ≤ e := by
  have hc : a * a2 + b * b2 ≤ x * y := by
    by_contra h
    push_neg at h
    have h0 := mul_nonneg hx0 hy0
    have h1 : (x * y) ^ 2 < (a * a2 + b * b2) ^ 2 := pow_lt_pow_left₀ h h0 (by norm_num)
    have h2 : (a * a2 + b * b2) ^ 2 ≤ (x * y) ^ 2 := by
      rw [mul_pow, hx2, hy2]
      nlinarith only [sq_nonneg (a * b2 - b * a2)]
    linarith only [h1, h2]
  have hsq : (y - x) ^ 2 ≤ e ^ 2 := by nlinarith only [hc, hD, hx2, hy2]
  exact ⟨hc, abs_le.mpr (abs_le_of_sq_le_sq' hsq he)⟩

/-- The size of the trapezoid remainder between two nearby radii. -/
theorem trapezoid_bound (x y c e U : ℝ) (hx : 0 < x) (hy : 0 < y)
    (hu : 1 / x ≤ U) (ht : 1 / y ≤ U) (hc : c ≤ x * y)
    (hD : x ^ 2 + y ^ 2 - 2 * c ≤ e ^ 2) (he : 0 ≤ e) :
    |1 / (2 * x) - 1 / (2 * y) - 1 / (4 * x ^ 3) * (c - x ^ 2) - 1 / (4 * y ^ 3) * (y ^ 2 - c)| ≤
      e ^ 3 * (5 * U ^ 4 / 8) := by
  rw [trapezoid_remainder x y c hx hy]
  have hu0 : 0 < 1 / x := by positivity
  have ht0 : 0 < 1 / y := by positivity
  have hU : 0 ≤ U := le_trans hu0.le hu
  have hexp : (y - x) ^ 2 = x ^ 2 + y ^ 2 - 2 * (x * y) := by ring
  have hsq : (y - x) ^ 2 ≤ e ^ 2 := by linarith only [hexp, hc, hD]
  have hxy : |y - x| ≤ e := abs_le.mpr (abs_le_of_sq_le_sq' hsq he)
  have hD0 : 0 ≤ x ^ 2 + y ^ 2 - 2 * c := by linarith only [sq_nonneg (y - x), hexp, hc]
  -- the two products, with the denominators folded in
  have e1 : (x ^ 2 + x * y + y ^ 2) / (x ^ 3 * y ^ 3) =
      1 / x * (1 / y) ^ 3 + (1 / x) ^ 2 * (1 / y) ^ 2 + (1 / x) ^ 3 * (1 / y) := by
    field_simp
    ring
  have e2 : ((x + y) ^ 2 + x * y) / (x ^ 3 * y ^ 3) =
      1 / x * (1 / y) ^ 3 + 3 * ((1 / x) ^ 2 * (1 / y) ^ 2) + (1 / x) ^ 3 * (1 / y) := by
    field_simp
    ring
  have b13 : 1 / x * (1 / y) ^ 3 ≤ U * U ^ 3 :=
    mul_le_mul hu (pow_le_pow_left₀ ht0.le ht 3) (by positivity) hU
  have b22 : (1 / x) ^ 2 * (1 / y) ^ 2 ≤ U ^ 2 * U ^ 2 :=
    mul_le_mul (pow_le_pow_left₀ hu0.le hu 2) (pow_le_pow_left₀ ht0.le ht 2) (by positivity)
      (by positivity)
  have b31 : (1 / x) ^ 3 * (1 / y) ≤ U ^ 3 * U :=
    mul_le_mul (pow_le_pow_left₀ hu0.le hu 3) ht (by positivity) (by positivity)
  have w13 : U * U ^ 3 = U ^ 4 := by ring
  have w22 : U ^ 2 * U ^ 2 = U ^ 4 := by ring
  have w31 : U ^ 3 * U = U ^ 4 := by ring
  rw [w13] at b13
  rw [w22] at b22
  rw [w31] at b31
  have p13 : 0 ≤ 1 / x * (1 / y) ^ 3 := mul_nonneg hu0.le (pow_nonneg ht0.le 3)
  have p22 : 0 ≤ (1 / x) ^ 2 * (1 / y) ^ 2 := mul_nonneg (sq_nonneg _) (sq_nonneg _)
  have p31 : 0 ≤ (1 / x) ^ 3 * (1 / y) := mul_nonneg (pow_nonneg hu0.le 3) ht0.le
  have hU4 : 0 ≤ U ^ 4 := pow_nonneg hU 4
  have hA0 : 0 ≤ (x ^ 2 + y ^ 2 - 2 * c) * ((x ^ 2 + x * y + y ^ 2) / (x ^ 3 * y ^ 3)) := by
    rw [e1]
    exact mul_nonneg hD0 (by linarith only [p13, p22, p31])
  have hA1 : (x ^ 2 + y ^ 2 - 2 * c) * ((x ^ 2 + x * y + y ^ 2) / (x ^ 3 * y ^ 3)) ≤
      e ^ 2 * (5 * U ^ 4) := by
    rw [e1]
    exact mul_le_mul hD (by linarith only [b13, b22, b31, hU4]) (by linarith only [p13, p22, p31])
      (sq_nonneg e)
  have hB0 : 0 ≤ (y - x) ^ 2 * (((x + y) ^ 2 + x * y) / (x ^ 3 * y ^ 3)) := by
    rw [e2]
    exact mul_nonneg (sq_nonneg _) (by linarith only [p13, p22, p31])
  have hB1 : (y - x) ^ 2 * (((x + y) ^ 2 + x * y) / (x ^ 3 * y ^ 3)) ≤ e ^ 2 * (5 * U ^ 4) := by
    rw [e2]
    exact mul_le_mul hsq (by linarith only [b13, b22, b31]) (by linarith only [p13, p22, p31])
      (sq_nonneg e)
  have e3 : (y - x) * ((x ^ 2 + y ^ 2 - 2 * c) * (x ^ 2 + x * y + y ^ 2) -
        (y - x) ^ 2 * ((x + y) ^ 2 + x * y)) / (8 * x ^ 3 * y ^ 3) =
      (y - x) * ((x ^ 2 + y ^ 2 - 2 * c) * ((x ^ 2 + x * y + y ^ 2) / (x ^ 3 * y ^ 3)) -
        (y - x) ^ 2 * (((x + y) ^ 2 + x * y) / (x ^ 3 * y ^ 3))) / 8 := by
    ring
  rw [e3, abs_div, abs_mul, abs_of_pos (by norm_num : (0 : ℝ) < 8)]
  have hW : |(x ^ 2 + y ^ 2 - 2 * c) * ((x ^ 2 + x * y + y ^ 2) / (x ^ 3 * y ^ 3)) -
      (y - x) ^ 2 * (((x + y) ^ 2 + x * y) / (x ^ 3 * y ^ 3))| ≤ e ^ 2 * (5 * U ^ 4) :=
    abs_le.mpr ⟨by linarith only [hA0, hB1], by linarith only [hA1, hB0]⟩
  have hprod := mul_le_mul hxy hW (abs_nonneg _) he
  calc |y - x| * |(x ^ 2 + y ^ 2 - 2 * c) * ((x ^ 2 + x * y + y ^ 2) / (x ^ 3 * y ^ 3)) -
          (y - x) ^ 2 * (((x + y) ^ 2 + x * y) / (x ^ 3 * y ^ 3))| / 8
      ≤ e * (e ^ 2 * (5 * U ^ 4)) / 8 := by
        exact div_le_div_of_nonneg_right hprod (by norm_num)
    _ = e ^ 3 * (5 * U ^ 4 / 8) := by ring

/-- The difference of the inverse fourth powers of two nearby radii. -/
theorem inv_pow_four_diff (x y e U : ℝ) (hx : 0 < x) (hy : 0 < y)
    (hu : 1 / x ≤ U) (ht : 1 / y ≤ U) (hxy : |y - x| ≤ e) :
    |(1 / y) ^ 4 - (1 / x) ^ 4| ≤ e * (4 * U ^ 5) := by
  have hu0 : 0 < 1 / x := by positivity
  have ht0 : 0 < 1 / y := by positivity
  have hU : 0 ≤ U := le_trans hu0.le hu
  have he : 0 ≤ e := le_trans (abs_nonneg _) hxy
  have e1 : (1 / y) ^ 4 - (1 / x) ^ 4 =
      (x - y) * (1 / x * (1 / y) * ((1 / y + 1 / x) * ((1 / y) ^ 2 + (1 / x) ^ 2))) := by
    field_simp
    ring
  rw [e1, abs_mul, abs_sub_comm]
  have h2 : 0 ≤ 1 / x * (1 / y) * ((1 / y + 1 / x) * ((1 / y) ^ 2 + (1 / x) ^ 2)) := by
    positivity
  rw [abs_of_nonneg h2]
  have h3 : 1 / x * (1 / y) * ((1 / y + 1 / x) * ((1 / y) ^ 2 + (1 / x) ^ 2)) ≤
      U * U * ((U + U) * (U ^ 2 + U ^ 2)) := by
    have q1 := pow_le_pow_left₀ hu0.le hu 2
    have q2 := pow_le_pow_left₀ ht0.le ht 2
    exact mul_le_mul (mul_le_mul hu ht ht0.le hU)
      (mul_le_mul (by linarith) (by linarith) (by positivity) (by linarith))
      (by positivity) (by positivity)
  calc |y - x| * (1 / x * (1 / y) * ((1 / y + 1 / x) * ((1 / y) ^ 2 + (1 / x) ^ 2)))
      ≤ e * (U * U * ((U + U) * (U ^ 2 + U ^ 2))) := mul_le_mul hxy h3 h2 he
    _ = e * (4 * U ^ 5) := by ring


/-- The pull `2 * (1/(2 x))^3` of the pair at radius `x`, and its size. -/
theorem pull_eq (x : ℝ) (hx : 0 < x) : 2 * (1 / (2 * x)) ^ 3 = 1 / (4 * x ^ 3) := by
  field_simp
  ring

/-- One Verlet step of the relative motion changes the energy by at most `2e-8`
while the energy is within `2e-4` of `-1/2`. -/
theorem verlet_energy_step (a b c d a2 b2 c2 d2 x y k k2 h : ℝ) (hh : h = 1 / 1000)
    (ha2 : a2 = a + h * c - h ^ 2 / 2 * k * a) (hb2 : b2 = b + h * d - h ^ 2 / 2 * k * b)
    (hc2 : c2 = c - h / 2 * (k * a + k2 * a2)) (hd2 : d2 = d - h / 2 * (k * b + k2 * b2))
    (hx0 : 0 ≤ x) (hx2 : x ^ 2 = a ^ 2 + b ^ 2) (hy0 : 0 ≤ y) (hy2 : y ^ 2 = a2 ^ 2 + b2 ^ 2)
    (hk : k = 2 * (1 / (2 * x)) ^ 3) (hk2 : k2 = 2 * (1 / (2 * y)) ^ 3)
    (hl : (a * d - b * c) ^ 2 = 1 / 8)
    (hE : c ^ 2 + d ^ 2 - 1 / (2 * x) ≤ -(4998 / 10000)) :
    |(c2 ^ 2 + d2 ^ 2 - 1 / (2 * y)) - (c ^ 2 + d ^ 2 - 1 / (2 * x))| ≤ 2 / 10 ^ 8 := by
  have hL : 1 / 8 + (a * c + b * d) ^ 2 = x ^ 2 * (c ^ 2 + d ^ 2) := by
    rw [hx2, ← hl]
    ring
  obtain ⟨r1, r2, r3, r4⟩ := verlet_region x (c ^ 2 + d ^ 2) (a * c + b * d) hx0 hL hE
  have hx : 0 < x := by linarith only [r1]
  rw [pull_eq x hx] at hk
  -- the size of the pull
  have hx3 : (48 / 100 : ℝ) ^ 3 ≤ x ^ 3 := pow_le_pow_left₀ (by norm_num) r1 3
  have hk0 : 0 ≤ k := by rw [hk]; positivity
  have hkU : k ≤ 23 / 10 := by
    rw [hk, div_le_iff₀ (by positivity)]
    linarith only [hx3]
  have hs : |a * c + b * d| ≤ 2 / 10 :=
    abs_le.mpr (abs_le_of_sq_le_sq' (by linarith only [r4]) (by norm_num))
  -- the length of the step
  have hD : (a2 - a) ^ 2 + (b2 - b) ^ 2 ≤ (3 / 4000 : ℝ) ^ 2 := by
    have t1 : -(23 / 10 * (2 / 10)) ≤ k * (a * c + b * d) := by
      have h1 := mul_le_mul hkU hs (abs_nonneg _) (by norm_num)
      have h2 : |k * (a * c + b * d)| = k * |a * c + b * d| := by
        rw [abs_mul, abs_of_nonneg hk0]
      have h3 := neg_abs_le (k * (a * c + b * d))
      linarith only [h1, h2, h3]
    have t2 : k ^ 2 * x ^ 2 ≤ (23 / 10) ^ 2 * (52 / 100) ^ 2 :=
      mul_le_mul (pow_le_pow_left₀ hk0 hkU 2) (pow_le_pow_left₀ hx0 r2 2) (by positivity)
        (by positivity)
    rw [verlet_step_length a b c d a2 b2 h k ha2 hb2, ← hx2, hh]
    linarith only [t1, t2, r3]
  obtain ⟨hc, hxy⟩ := radius_diff a b a2 b2 x y (3 / 4000) hx0 hy0 (by norm_num) hx2 hy2 hD
  have hyl : 479 / 1000 ≤ y := by
    have q := (abs_le.mp hxy).1
    linarith only [q, r1]
  have hy : 0 < y := by linarith only [hyl]
  rw [pull_eq y hy] at hk2
  have hu : 1 / x ≤ 21 / 10 := by
    rw [div_le_iff₀ hx]
    linarith only [r1]
  have ht : 1 / y ≤ 21 / 10 := by
    rw [div_le_iff₀ hy]
    linarith only [hyl]
  have hD2 : x ^ 2 + y ^ 2 - 2 * (a * a2 + b * b2) ≤ (3 / 4000 : ℝ) ^ 2 := by
    rw [hx2, hy2]
    linarith only [hD]
  have hT := trapezoid_bound x y (a * a2 + b * b2) (3 / 4000) (21 / 10) hx hy hu ht hc hD2
    (by norm_num)
  have hS := inv_pow_four_diff x y (3 / 4000) (21 / 10) hx hy hu ht hxy
  have e4 : h ^ 2 / 64 * ((1 / y) ^ 4 - (1 / x) ^ 4) =
      h ^ 2 / 4 * (k2 ^ 2 * y ^ 2 - k ^ 2 * x ^ 2) := by
    rw [hk, hk2]
    field_simp
    ring
  have key : (c2 ^ 2 + d2 ^ 2 - 1 / (2 * y)) - (c ^ 2 + d ^ 2 - 1 / (2 * x)) =
      (1 / (2 * x) - 1 / (2 * y) - 1 / (4 * x ^ 3) * ((a * a2 + b * b2) - x ^ 2) -
        1 / (4 * y ^ 3) * (y ^ 2 - (a * a2 + b * b2))) +
      h ^ 2 / 64 * ((1 / y) ^ 4 - (1 / x) ^ 4) := by
    rw [e4, ← hk, ← hk2, hx2, hy2]
    linear_combination verlet_kinetic_change a b c d a2 b2 c2 d2 h k k2 ha2 hb2 hc2 hd2
  rw [key]
  refine le_trans (abs_add _ _) ?_
  rw [abs_mul, abs_of_nonneg (by positivity : (0 : ℝ) ≤ h ^ 2 / 64)]
  have hS2 := mul_le_mul_of_nonneg_left hS (by positivity : (0 : ℝ) ≤ h ^ 2 / 64)
  rw [hh] at hS2 ⊢
  refine le_trans (add_le_add hT hS2) ?_
  norm_num


/-- Where the radius can be while the relative energy is at most `-1/4` and the
angular momentum squared at least `1/8`. -/
theorem euler_region (x w s l : ℝ) (hx0 : 0 ≤ x) (hL : l + s ^ 2 = x ^ 2 * w)
    (hl : 1 / 8 ≤ l) (hE : w - 1 / (2 * x) ≤ -(1 / 4)) :
    2928 / 10000 ≤ x ∧ x ≤ 17072 / 10000 ∧ w ≤ 1458 / 1000 ∧ s ^ 2 ≤ 1 / 8 := by
  have hxpos : 0 < x := by
    rcases hx0.lt_or_eq with h | h
    · exact h
    · rw [← h] at hL
      nlinarith [sq_nonneg s]
  have hi : x ^ 2 * (1 / (2 * x)) = x / 2 := by
    field_simp
    ring
  have hq : 1 / 8 + s ^ 2 ≤ -(1 / 4) * x ^ 2 + x / 2 := by
    have h1 : x ^ 2 * (w - 1 / (2 * x)) ≤ x ^ 2 * (-(1 / 4)) :=
      mul_le_mul_of_nonneg_left hE (sq_nonneg x)
    have h2 : x ^ 2 * (w - 1 / (2 * x)) = x ^ 2 * w - x / 2 := by
      rw [mul_sub, hi]
    linarith
  have h1 : 2928 / 10000 ≤ x := by
    by_contra hc
    push_neg at hc
    have hp := mul_pos (sub_pos.mpr hc) (sub_pos.mpr (lt_trans hc (by norm_num :
      (2928 / 10000 : ℝ) < 17072 / 10000)))
    nlinarith [sq_nonneg s]
  have h2 : x ≤ 17072 / 10000 := by
    by_contra hc
    push_neg at hc
    have hp := mul_pos (sub_pos.mpr hc) (sub_pos.mpr (lt_trans (by norm_num :
      (2928 / 10000 : ℝ) < 17072 / 10000) hc))
    nlinarith [sq_nonneg s]
  have hinv : 1 / (2 * x) ≤ 1 / (2 * (2928 / 10000)) :=
    one_div_le_one_div_of_le (by norm_num) (by linarith)
  have h3 : w ≤ 1458 / 1000 := by
    have e : (1 : ℝ) / (2 * (2928 / 10000)) = 10000 / 5856 := by norm_num
    rw [e] at hinv
    have e2 : (10000 : ℝ) / 5856 ≤ 1708 / 1000 := by norm_num
    linarith
  refine ⟨h1, h2, h3, ?_⟩
  nlinarith [sq_nonneg (x - 1)]

/-- The energy of the relative motion is at least `-1/(16 l)`, `l` the squared
angular momentum. -/
theorem energy_lower (x w s l : ℝ) (hx0 : 0 ≤ x) (hL : l + s ^ 2 = x ^ 2 * w) (hl : 0 < l) :
    -(1 / (16 * l)) ≤ w - 1 / (2 * x) := by
  have hxpos : 0 < x := by
    rcases hx0.lt_or_eq with h | h
    · exact h
    · rw [← h] at hL
      nlinarith [sq_nonneg s]
  have hi : x ^ 2 * (1 / (2 * x)) = x / 2 := by
    field_simp
    ring
  have h2 : x ^ 2 * (w - 1 / (2 * x)) = x ^ 2 * w - x / 2 := by
    rw [mul_sub, hi]
  rcases le_or_lt 0 (w - 1 / (2 * x)) with h | h
  · have : 0 ≤ 1 / (16 * l) := by positivity
    linarith
  · rw [neg_le, le_div_iff₀ (by positivity)]
    have h3 : l ≤ x ^ 2 * (w - 1 / (2 * x)) + x / 2 := by
      rw [h2]
      nlinarith [sq_nonneg s]
    have h4 : -(w - 1 / (2 * x)) * l ≤
        -(w - 1 / (2 * x)) * (x ^ 2 * (w - 1 / (2 * x)) + x / 2) :=
      mul_le_mul_of_nonneg_left h3 (by linarith)
    nlinarith [sq_nonneg (4 * (w - 1 / (2 * x)) * x + 1)]

/-- The polynomial identities of an Euler step of the relative motion. -/
theorem euler_identities (a b c d a2 b2 c2 d2 h k : ℝ)
    (ha2 : a2 = a + h * c) (hb2 : b2 = b + h * d)
    (hc2 : c2 = c - h * k * a) (hd2 : d2 = d - h * k * b) :
    a2 * d2 - b2 * c2 = (a * d - b * c) * (1 + h ^ 2 * k) ∧
    c2 ^ 2 + d2 ^ 2 - (c ^ 2 + d ^ 2) =
      -(2 * h * k * (a * c + b * d)) + h ^ 2 * k ^ 2 * (a ^ 2 + b ^ 2) ∧
    (a2 - a) ^ 2 + (b2 - b) ^ 2 = h ^ 2 * (c ^ 2 + d ^ 2) ∧
    a * a2 + b * b2 = (a ^ 2 + b ^ 2) + h * (a * c + b * d) ∧
    a2 ^ 2 + b2 ^ 2 = (a ^ 2 + b ^ 2) + 2 * h * (a * c + b * d) + h ^ 2 * (c ^ 2 + d ^ 2) := by
  subst ha2 hb2 hc2 hd2
  refine ⟨?_, ?_, ?_, ?_, ?_⟩ <;> ring

/-- The change of the pull between two radii, in terms of the change of the
squared radius. -/
theorem pull_diff (x y : ℝ) (hx : 0 < x) (hy : 0 < y) :
    1 / (4 * y ^ 3) - 1 / (4 * x ^ 3) =
      -((y ^ 2 - x ^ 2) * ((x ^ 2 + x * y + y ^ 2) / (4 * x ^ 3 * y ^ 3 * (x + y)))) := by
  have hxy : x + y ≠ 0 := by positivity
  field_simp
  ring

/-- The factor of `pull_diff` is at most `U^5 / 2`. -/
theorem pull_diff_factor (x y U : ℝ) (hx : 0 < x) (hy : 0 < y) (hu : 1 / x ≤ U)
    (ht : 1 / y ≤ U) :
    0 ≤ (x ^ 2 + x * y + y ^ 2) / (4 * x ^ 3 * y ^ 3 * (x + y)) ∧
    (x ^ 2 + x * y + y ^ 2) / (4 * x ^ 3 * y ^ 3 * (x + y)) ≤ U ^ 5 / 2 := by
  have hu0 : 0 < 1 / x := by positivity
  have ht0 : 0 < 1 / y := by positivity
  have hU : 0 ≤ U := le_trans hu0.le hu
  refine ⟨by positivity, ?_⟩
  have h1 : (x ^ 2 + x * y + y ^ 2) / (4 * x ^ 3 * y ^ 3 * (x + y)) ≤
      (x + y) ^ 2 / (4 * x ^ 3 * y ^ 3 * (x + y)) :=
    div_le_div_of_nonneg_right (by nlinarith [mul_pos hx hy]) (by positivity)
  have h2 : (x + y) ^ 2 / (4 * x ^ 3 * y ^ 3 * (x + y)) =
      ((1 / x) ^ 2 * (1 / y) ^ 3 + (1 / x) ^ 3 * (1 / y) ^ 2) / 4 := by
    have hxy : x + y ≠ 0 := by positivity
    field_simp
    ring
  have b23 : (1 / x) ^ 2 * (1 / y) ^ 3 ≤ U ^ 2 * U ^ 3 :=
    mul_le_mul (pow_le_pow_left₀ hu0.le hu 2) (pow_le_pow_left₀ ht0.le ht 3) (by positivity)
      (by positivity)
  have b32 : (1 / x) ^ 3 * (1 / y) ^ 2 ≤ U ^ 3 * U ^ 2 :=
    mul_le_mul (pow_le_pow_left₀ hu0.le hu 3) (pow_le_pow_left₀ ht0.le ht 2) (by positivity)
      (by positivity)
  have w23 : U ^ 2 * U ^ 3 = U ^ 5 := by ring
  have w32 : U ^ 3 * U ^ 2 = U ^ 5 := by ring
  rw [w23] at b23
  rw [w32] at b32
  rw [h2] at h1
  linarith


/-- The Lagrange identity for the relative position and velocity. -/
theorem lagrange (a b c d : ℝ) :
    (a * d - b * c) ^ 2 + (a * c + b * d) ^ 2 = (a ^ 2 + b ^ 2) * (c ^ 2 + d ^ 2) := by
  ring

/-- One Euler step of the relative motion, while the energy is at most `-1/4`
and the squared angular momentum at least `1/8`: the squared angular momentum
grows by the factor `1 + 1e-7` at least, the energy by `2.5e-5` at most. -/
theorem euler_energy_step (a b c d a2 b2 c2 d2 x y k h : ℝ) (hh : h = 1 / 1000)
    (ha2 : a2 = a + h * c) (hb2 : b2 = b + h * d)
    (hc2 : c2 = c - h * k * a) (hd2 : d2 = d - h * k * b)
    (hx0 : 0 ≤ x) (hx2 : x ^ 2 = a ^ 2 + b ^ 2) (hy0 : 0 ≤ y) (hy2 : y ^ 2 = a2 ^ 2 + b2 ^ 2)
    (hk : k = 2 * (1 / (2 * x)) ^ 3)
    (hl : 1 / 8 ≤ (a * d - b * c) ^ 2)
    (hE : c ^ 2 + d ^ 2 - 1 / (2 * x) ≤ -(1 / 4)) :
    (a * d - b * c) ^ 2 * (1 + 1 / 10 ^ 7) ≤ (a2 * d2 - b2 * c2) ^ 2 ∧
    c2 ^ 2 + d2 ^ 2 - 1 / (2 * y) ≤ c ^ 2 + d ^ 2 - 1 / (2 * x) + 25 / 10 ^ 6 := by
  have hL : (a * d - b * c) ^ 2 + (a * c + b * d) ^ 2 = x ^ 2 * (c ^ 2 + d ^ 2) := by
    rw [hx2]
    ring
  obtain ⟨r1, r2, r3, r4⟩ :=
    euler_region x (c ^ 2 + d ^ 2) (a * c + b * d) ((a * d - b * c) ^ 2) hx0 hL hl hE
  obtain ⟨i1, i2, i3, i4, i5⟩ := euler_identities a b c d a2 b2 c2 d2 h k ha2 hb2 hc2 hd2
  have hx : 0 < x := by linarith only [r1]
  rw [pull_eq x hx] at hk
  have hw0 : 0 ≤ c ^ 2 + d ^ 2 := by positivity
  -- the pull is at least 1/20
  have hx3 : x ^ 3 ≤ (17072 / 10000 : ℝ) ^ 3 := pow_le_pow_left₀ hx0 r2 3
  have hkL : 1 / 20 ≤ k := by
    rw [hk]
    exact one_div_le_one_div_of_le (by positivity) (by linarith only [hx3])
  constructor
  · rw [i1, mul_pow]
    have h1 : 1 + 1 / 10 ^ 7 ≤ (1 + h ^ 2 * k) ^ 2 := by
      have e : (1 + h ^ 2 * k) ^ 2 = 1 + 2 * (h ^ 2 * k) + (h ^ 2 * k) ^ 2 := by ring
      have p := sq_nonneg (h ^ 2 * k)
      rw [e, hh] at *
      linarith only [p, hkL]
    exact mul_le_mul_of_nonneg_left h1 (sq_nonneg _)
  · -- the length of the step
    have hD : (a2 - a) ^ 2 + (b2 - b) ^ 2 ≤ (121 / 100000 : ℝ) ^ 2 := by
      rw [i3, hh]
      linarith only [r3]
    obtain ⟨hc, hxy⟩ := radius_diff a b a2 b2 x y (121 / 100000) hx0 hy0 (by norm_num) hx2 hy2 hD
    have hyl : 29159 / 100000 ≤ y := by
      have q := (abs_le.mp hxy).1
      linarith only [q, r1]
    have hy : 0 < y := by linarith only [hyl]
    have hu : 1 / x ≤ 343 / 100 := by
      rw [div_le_iff₀ hx]
      linarith only [r1]
    have ht : 1 / y ≤ 343 / 100 := by
      rw [div_le_iff₀ hy]
      linarith only [hyl]
    have hu0 : 0 < 1 / x := by positivity
    have ht0 : 0 < 1 / y := by positivity
    have hD2 : x ^ 2 + y ^ 2 - 2 * (a * a2 + b * b2) ≤ (121 / 100000 : ℝ) ^ 2 := by
      rw [hx2, hy2]
      linarith only [hD]
    have hT := trapezoid_bound x y (a * a2 + b * b2) (121 / 100000) (343 / 100) hx hy hu ht hc
      hD2 (by norm_num)
    obtain ⟨z0, z1⟩ := pull_diff_factor x y (343 / 100) hx hy hu ht
    have key : (c2 ^ 2 + d2 ^ 2 - 1 / (2 * y)) - (c ^ 2 + d ^ 2 - 1 / (2 * x)) =
        (1 / (2 * x) - 1 / (2 * y) - 1 / (4 * x ^ 3) * ((a * a2 + b * b2) - x ^ 2) -
          1 / (4 * y ^ 3) * (y ^ 2 - (a * a2 + b * b2))) +
        h ^ 2 * (k ^ 2 * x ^ 2) + 1 / (4 * y ^ 3) * (h ^ 2 * (c ^ 2 + d ^ 2)) +
        (1 / (4 * y ^ 3) - 1 / (4 * x ^ 3)) * (h * (a * c + b * d)) := by
      rw [← hk, hy2, i5, i4, hx2]
      linear_combination i2
    -- the four terms
    have t1 : k ^ 2 * x ^ 2 ≤ (343 / 100) ^ 4 / 16 := by
      have e : k ^ 2 * x ^ 2 = (1 / x) ^ 4 / 16 := by
        rw [hk]
        field_simp
        ring
      rw [e]
      exact div_le_div_of_nonneg_right (pow_le_pow_left₀ hu0.le hu 4) (by norm_num)
    have t2 : 1 / (4 * y ^ 3) * (h ^ 2 * (c ^ 2 + d ^ 2)) ≤
        (343 / 100) ^ 3 / 4 * (h ^ 2 * (1458 / 1000)) := by
      have e : 1 / (4 * y ^ 3) = (1 / y) ^ 3 / 4 := by
        field_simp
        ring
      rw [e]
      exact mul_le_mul (div_le_div_of_nonneg_right (pow_le_pow_left₀ ht0.le ht 3) (by norm_num))
        (mul_le_mul_of_nonneg_left r3 (by positivity)) (by positivity) (by positivity)
    have hs : |a * c + b * d| ≤ 36 / 100 :=
      abs_le.mpr (abs_le_of_sq_le_sq' (by linarith only [r4]) (by norm_num))
    have t3 : (1 / (4 * y ^ 3) - 1 / (4 * x ^ 3)) * (h * (a * c + b * d)) ≤
        h ^ 3 * (1458 / 1000 * (36 / 100) * ((343 / 100) ^ 5 / 2)) := by
      have hdy : y ^ 2 - x ^ 2 = 2 * h * (a * c + b * d) + h ^ 2 * (c ^ 2 + d ^ 2) := by
        rw [hy2, i5, hx2]
        ring
      rw [pull_diff x y hx hy, hdy]
      have hh0 : 0 ≤ h := by rw [hh]; norm_num
      have q1 : (c ^ 2 + d ^ 2) * |a * c + b * d| ≤ 1458 / 1000 * (36 / 100) :=
        mul_le_mul r3 hs (abs_nonneg _) (by norm_num)
      have q2 : (c ^ 2 + d ^ 2) * |a * c + b * d| *
          ((x ^ 2 + x * y + y ^ 2) / (4 * x ^ 3 * y ^ 3 * (x + y))) ≤
          1458 / 1000 * (36 / 100) * ((343 / 100) ^ 5 / 2) :=
        mul_le_mul q1 z1 z0 (by norm_num)
      have q3 : -(a * c + b * d) ≤ |a * c + b * d| := neg_le_abs _
      have q4 : (c ^ 2 + d ^ 2) * -(a * c + b * d) *
          ((x ^ 2 + x * y + y ^ 2) / (4 * x ^ 3 * y ^ 3 * (x + y))) ≤
          (c ^ 2 + d ^ 2) * |a * c + b * d| *
          ((x ^ 2 + x * y + y ^ 2) / (4 * x ^ 3 * y ^ 3 * (x + y))) :=
        mul_le_mul_of_nonneg_right (mul_le_mul_of_nonneg_left q3 hw0) z0
      have q5 : 0 ≤ 2 * h ^ 2 * (a * c + b * d) ^ 2 *
          ((x ^ 2 + x * y + y ^ 2) / (4 * x ^ 3 * y ^ 3 * (x + y))) := by positivity
      have q6 := mul_le_mul_of_nonneg_left (le_trans q4 q2) (pow_nonneg hh0 3)
      linear_combination q5 + q6
    rw [← sub_le_iff_le_add', key]
    have hT2 := (abs_le.mp hT).2
    have t1b := mul_le_mul_of_nonneg_left t1 (sq_nonneg h)
    rw [hh] at t1b t2 t3
    rw [hh]
    refine le_trans (add_le_add (add_le_add (add_le_add hT2 t1b) t2) t3) ?_
    norm_num


/-- The square root of four times a number. -/
theorem sqrt_symmetric (q : Vec2 ℝ) :
    Real.sqrt ((q.x - -q.x) ^ 2 + (q.y - -q.y) ^ 2 + 0) = 2 * relRadius Real.sqrt q := by
  have e : (q.x - -q.x) ^ 2 + (q.y - -q.y) ^ 2 + 0 = 2 ^ 2 * (q.x ^ 2 + q.y ^ 2) := by ring
  rw [e, Real.sqrt_mul (by norm_num), Real.sqrt_sq (by norm_num)]
  rfl

/-- The forces on the two bodies of a symmetric pair. -/
theorem symmetric_netForce (s : NBodySystem2D ℝ) (q v : Vec2 ℝ) (h : SymmetricPair s q v) :
    netForce Real.sqrt s 0 = ⟨relPull Real.sqrt q * q.x, relPull Real.sqrt q * q.y⟩ ∧
    netForce Real.sqrt s 1 = ⟨-(relPull Real.sqrt q * q.x), -(relPull Real.sqrt q * q.y)⟩ := by
  obtain ⟨hG, he, hn, m0, m1, r0, r1, _, _⟩ := h
  have e0 : (Finset.range 2).erase 0 = {1} := by decide
  have e1 : (Finset.range 2).erase 1 = {0} := by decide
  have hs := sqrt_symmetric q
  have hs2 : Real.sqrt ((-q.x - q.x) ^ 2 + (-q.y - q.y) ^ 2 + 0) =
      2 * relRadius Real.sqrt q := by
    rw [← hs]
    congr 1
    ring
  constructor
  · rw [netForce, hn, e0, Finset.sum_singleton]
    simp only [newtonForce, hG, he, m0, m1, r0, r1, Vec2.neg_def, hs]
    rw [Vec2.ext_iff2]
    constructor <;> (simp only [relPull]; ring)
  · rw [netForce, hn, e1, Finset.sum_singleton]
    simp only [newtonForce, hG, he, m0, m1, r0, r1, Vec2.neg_def, hs2]
    rw [Vec2.ext_iff2]
    constructor <;> (simp only [relPull]; ring)

/-- The energy of a symmetric pair. -/
theorem symmetric_energy (s : NBodySystem2D ℝ) (q v : Vec2 ℝ) (h : SymmetricPair s q v) :
    s.totalEnergy Real.sqrt = relEnergy Real.sqrt q v := by
  obtain ⟨hG, he, hn, m0, m1, r0, r1, v0, v1⟩ := h
  have i1 : Finset.Ico 1 2 = {1} := by decide
  have i2 : Finset.Ico 2 2 = (∅ : Finset Nat) := by decide
  rw [totalEnergy_sums, hn, Finset.sum_range_succ, Finset.sum_range_succ, Finset.sum_range_zero,
    Finset.sum_range_succ, Finset.sum_range_succ, Finset.sum_range_zero]
  simp only [zero_add, i1, i2, Finset.sum_singleton, Finset.sum_empty, add_zero]
  have hd : s.dist2 0 1 = (q.x - -q.x) ^ 2 + (q.y - -q.y) ^ 2 + 0 := by
    simp only [NBodySystem2D.dist2, Vec2.sub, r0, r1, he, Vec2.neg_def]
    ring
  have hp : potentialTerm Real.sqrt s 0 1 = -(1 / (2 * relRadius Real.sqrt q)) := by
    unfold potentialTerm
    rw [hd, sqrt_symmetric, hG, m0, m1]
    split
    · ring
    · rename_i hneg
      have h0 : relRadius Real.sqrt q = 0 := by
        have := Real.sqrt_nonneg (q.x ^ 2 + q.y ^ 2)
        unfold relRadius at hneg ⊢
        push_neg at hneg
        linarith
      rw [h0]
      simp
  rw [hp]
  simp only [kineticTerm, m0, m1, v0, v1, Vec2.neg_def, relEnergy]
  ring

/-- `stepVerlet` takes a symmetric pair to a symmetric pair. -/
theorem symmetric_stepVerlet (s : NBodySystem2D ℝ) (q v : Vec2 ℝ) (h : ℝ)
    (hs : SymmetricPair s q v) :
    SymmetricPair (s.stepVerlet Real.sqrt h) (verletRelPos Real.sqrt h q v)
      (verletRelVel Real.sqrt h q v) := by
  obtain ⟨f0, f1⟩ := symmetric_netForce s q v hs
  obtain ⟨hG, he, hn, m0, m1, r0, r1, v0, v1⟩ := hs
  obtain ⟨g1, g2, g3, g4⟩ := verletMoved_spec Real.sqrt h s
  obtain ⟨a0, b0, c0⟩ := g4 0 (by omega)
  obtain ⟨a1, b1, c1⟩ := g4 1 (by omega)
  have hm : SymmetricPair (verletMoved Real.sqrt h s) (verletRelPos Real.sqrt h q v) v := by
    refine ⟨g1.trans hG, g2.trans he, g3.trans hn, a0.trans m0, a1.trans m1, ?_, ?_,
      b0.trans v0, b1.trans v1⟩
    · rw [c0, f0, m0, r0, v0, Vec2.neg_def, Vec2.neg_def, Vec2.neg_def, Vec2.ext_iff2]
      constructor <;> (simp only [verletRelPos]; ring)
    · rw [c1, f1, m1, r1, v1, Vec2.ext_iff2]
      constructor <;> (simp only [verletRelPos]; ring)
  obtain ⟨n0, n1⟩ := symmetric_netForce _ _ _ hm
  obtain ⟨s1, s2, s3, _⟩ := stepVerlet_spec Real.sqrt h s
  obtain ⟨x0, y0, z0⟩ := stepVerlet_netForce Real.sqrt h s 0 (by omega)
  obtain ⟨x1, y1, z1⟩ := stepVerlet_netForce Real.sqrt h s 1 (by omega)
  refine ⟨s1.trans hG, s2.trans he, s3.trans hn, x0.trans m0, x1.trans m1, ?_, ?_, ?_, ?_⟩
  · rw [y0, f0, m0, r0, v0, Vec2.neg_def, Vec2.neg_def, Vec2.neg_def, Vec2.ext_iff2]
    constructor <;> (simp only [verletRelPos]; ring)
  · rw [y1, f1, m1, r1, v1, Vec2.ext_iff2]
    constructor <;> (simp only [verletRelPos]; ring)
  · rw [z0, f0, n0, m0, v0, Vec2.neg_def, Vec2.neg_def, Vec2.ext_iff2]
    constructor <;> (simp only [verletRelVel]; ring)
  · rw [z1, f1, n1, m1, v1, Vec2.ext_iff2]
    constructor <;> (simp only [verletRelVel]; ring)

/-- `stepEuler` takes a symmetric pair to a symmetric pair. -/
theorem symmetric_stepEuler (s : NBodySystem2D ℝ) (q v : Vec2 ℝ) (h : ℝ)
    (hs : SymmetricPair s q v) :
    SymmetricPair (s.stepEuler Real.sqrt h) (eulerRelPos h q v)
      (eulerRelVel Real.sqrt h q v) := by
  obtain ⟨f0, f1⟩ := symmetric_netForce s q v hs
  obtain ⟨hG, he, hn, m0, m1, r0, r1, v0, v1⟩ := hs
  obtain ⟨⟨_, _, _, c4⟩, c5⟩ := computeForces_spec Real.sqrt s
  obtain ⟨s1, s2, s3, s4⟩ := stepEuler_spec Real.sqrt h s
  obtain ⟨a0, b0, d0⟩ := c4 0
  obtain ⟨a1, b1, d1⟩ := c4 1
  have k0 := c5 0 (by omega)
  have k1 := c5 1 (by omega)
  refine ⟨s1.trans hG, s2.trans he, s3.trans hn, ?_, ?_, ?_, ?_, ?_, ?_⟩
  · rw [s4 0 (by omega)]
    exact a0.trans m0
  · rw [s4 1 (by omega)]
    exact a1.trans m1
  · rw [s4 0 (by omega)]
    simp only [Body2D.eulerUpdate, b0, d0, r0, v0, Vec2.neg_def, eulerRelPos]
    rw [Vec2.ext_iff2]
    constructor <;> ring
  · rw [s4 1 (by omega)]
    simp only [Body2D.eulerUpdate, b1, d1, r1, v1, eulerRelPos]
    rw [Vec2.ext_iff2]
    constructor <;> ring
  · rw [s4 0 (by omega)]
    simp only [Body2D.eulerUpdate, a0, d0, k0, f0, m0, v0, Vec2.neg_def, eulerRelVel]
    rw [Vec2.ext_iff2]
    constructor <;> ring
  · rw [s4 1 (by omega)]
    simp only [Body2D.eulerUpdate, a1, d1, k1, f1, m1, v1, eulerRelVel]
    rw [Vec2.ext_iff2]
    constructor <;> ring

/-- The circular-orbit test system is a symmetric pair. -/
theorem symmetric_orbitPair (u : ℝ) : SymmetricPair (orbitPair u) ⟨0.5, 0⟩ ⟨0, u⟩ := by
  refine ⟨rfl, rfl, rfl, rfl, rfl, ?_, rfl, ?_, rfl⟩
  · show (⟨-0.5, 0⟩ : Vec2 ℝ) = -⟨0.5, 0⟩
    rw [Vec2.neg_def]
    simp
  · show (⟨0, -u⟩ : Vec2 ℝ) = -⟨0, u⟩
    rw [Vec2.neg_def]
    simp

/-- The radius, squared. -/
theorem relRadius_sq (q : Vec2 ℝ) : relRadius Real.sqrt q ^ 2 = q.x ^ 2 + q.y ^ 2 :=
  Real.sq_sqrt (by positivity)

/-- One `stepVerlet` of the relative motion keeps the angular momentum and
changes the energy by at most `2e-8`. -/
theorem verlet_rel_step (q v : Vec2 ℝ) (hl : relAngular q v ^ 2 = 1 / 8)
    (hE : relEnergy Real.sqrt q v ≤ -(4998 / 10000)) :
    relAngular (verletRelPos Real.sqrt (1 / 1000) q v) (verletRelVel Real.sqrt (1 / 1000) q v) =
      relAngular q v ∧
    |relEnergy Real.sqrt (verletRelPos Real.sqrt (1 / 1000) q v)
        (verletRelVel Real.sqrt (1 / 1000) q v) - relEnergy Real.sqrt q v| ≤ 2 / 10 ^ 8 :=
  ⟨verlet_angular q.x q.y v.x v.y _ _ _ _ (1 / 1000) (relPull Real.sqrt q)
      (relPull Real.sqrt (verletRelPos Real.sqrt (1 / 1000) q v)) rfl rfl rfl rfl,
    verlet_energy_step q.x q.y v.x v.y _ _ _ _ (relRadius Real.sqrt q)
      (relRadius Real.sqrt (verletRelPos Real.sqrt (1 / 1000) q v)) (relPull Real.sqrt q)
      (relPull Real.sqrt (verletRelPos Real.sqrt (1 / 1000) q v)) (1 / 1000) rfl rfl rfl rfl rfl
      (Real.sqrt_nonneg _) (relRadius_sq q) (Real.sqrt_nonneg _) (relRadius_sq _) rfl rfl hl hE⟩

/-- One `stepEuler` of the relative motion. -/
theorem euler_rel_step (q v : Vec2 ℝ) (hl : 1 / 8 ≤ relAngular q v ^ 2)
    (hE : relEnergy Real.sqrt q v ≤ -(1 / 4)) :
    relAngular q v ^ 2 * (1 + 1 / 10 ^ 7) ≤
      relAngular (eulerRelPos (1 / 1000) q v) (eulerRelVel Real.sqrt (1 / 1000) q v) ^ 2 ∧
    relEnergy Real.sqrt (eulerRelPos (1 / 1000) q v) (eulerRelVel Real.sqrt (1 / 1000) q v) ≤
      relEnergy Real.sqrt q v + 25 / 10 ^ 6 :=
  euler_energy_step q.x q.y v.x v.y _ _ _ _ (relRadius Real.sqrt q)
    (relRadius Real.sqrt (eulerRelPos (1 / 1000) q v)) (relPull Real.sqrt q) (1 / 1000) rfl rfl
    rfl rfl rfl (Real.sqrt_nonneg _) (relRadius_sq q) (Real.sqrt_nonneg _) (relRadius_sq _) rfl
    hl hE

/-- The energy of the relative motion is at least `-1/(16 l^2)`. -/
theorem rel_energy_lower (q v : Vec2 ℝ) (hl : 0 < relAngular q v ^ 2) :
    -(1 / (16 * relAngular q v ^ 2)) ≤ relEnergy Real.sqrt q v :=
  energy_lower (relRadius Real.sqrt q) (v.x ^ 2 + v.y ^ 2) (q.x * v.x + q.y * v.y)
    (relAngular q v ^ 2) (Real.sqrt_nonneg _)
    (by rw [relRadius_sq]; exact lagrange q.x q.y v.x v.y) hl

/-- The circular-orbit test system in relative coordinates. -/
theorem orbitPair_rel (u : ℝ) (hu : u ^ 2 = 1 / 2) :
    relAngular (⟨0.5, 0⟩ : Vec2 ℝ) ⟨0, u⟩ ^ 2 = 1 / 8 ∧
    relEnergy Real.sqrt (⟨0.5, 0⟩ : Vec2 ℝ) ⟨0, u⟩ = -(1 / 2) := by
  constructor
  · simp only [relAngular]
    linear_combination (1 / 4) * hu
  · have e : relRadius Real.sqrt (⟨0.5, 0⟩ : Vec2 ℝ) = 1 / 2 := by
      unfold relRadius
      have e2 : (0.5 : ℝ) ^ 2 + 0 ^ 2 = (1 / 2) ^ 2 := by norm_num
      rw [e2, Real.sqrt_sq (by norm_num)]
    unfold relEnergy
    rw [e]
    linear_combination hu

/-- The Verlet run of the circular-orbit test: after `n ≤ 10000` steps the
system is a symmetric pair with the initial angular momentum and an energy
within `n * 2e-8` of `-1/2`. -/
theorem verlet_run (u : ℝ) (hu : u ^ 2 = 1 / 2) (n : Nat) (hn : n ≤ 10000) :
    ∃ q v, SymmetricPair ((NBodySystem2D.stepVerlet Real.sqrt 0.001)^[n] (orbitPair u)) q v ∧
      relAngular q v ^ 2 = 1 / 8 ∧ |relEnergy Real.sqrt q v + 1 / 2| ≤ n * (2 / 10 ^ 8) := by
  induction n with
  | zero =>
    obtain ⟨h1, h2⟩ := orbitPair_rel u hu
    refine ⟨_, _, symmetric_orbitPair u, h1, ?_⟩
    rw [h2]
    norm_num
  | succ n ih =>
    obtain ⟨q, v, hs, hl, hE⟩ := ih (by omega)
    have hn2 : (n : ℝ) ≤ 10000 := by exact_mod_cast (by omega : n ≤ 10000)
    have hE2 : relEnergy Real.sqrt q v ≤ -(4998 / 10000) := by
      have := (abs_le.mp hE).2
      linarith
    obtain ⟨k1, k2⟩ := verlet_rel_step q v hl hE2
    have hdt : (0.001 : ℝ) = 1 / 1000 := by norm_num
    refine ⟨verletRelPos Real.sqrt 0.001 q v, verletRelVel Real.sqrt 0.001 q v, ?_, ?_, ?_⟩
    · rw [Function.iterate_succ_apply']
      exact symmetric_stepVerlet _ q v 0.001 hs
    · rw [hdt, k1, hl]
    · rw [hdt]
      have h3 := abs_add (relEnergy Real.sqrt (verletRelPos Real.sqrt (1 / 1000) q v)
        (verletRelVel Real.sqrt (1 / 1000) q v) - relEnergy Real.sqrt q v)
        (relEnergy Real.sqrt q v + 1 / 2)
      have e3 : relEnergy Real.sqrt (verletRelPos Real.sqrt (1 / 1000) q v)
          (verletRelVel Real.sqrt (1 / 1000) q v) - relEnergy Real.sqrt q v +
          (relEnergy Real.sqrt q v + 1 / 2) =
          relEnergy Real.sqrt (verletRelPos Real.sqrt (1 / 1000) q v)
          (verletRelVel Real.sqrt (1 / 1000) q v) + 1 / 2 := by ring
      rw [e3] at h3
      push_cast
      linarith

/-- The Euler run of the circular-orbit test: after `n ≤ 10000` steps the system
is a symmetric pair whose squared angular momentum is at least
`(1 + n * 1e-7) / 8` and whose energy is at most `-1/2 + n * 2.5e-5`. -/
theorem euler_run (u : ℝ) (hu : u ^ 2 = 1 / 2) (n : Nat) (hn : n ≤ 10000) :
    ∃ q v, SymmetricPair ((NBodySystem2D.stepEuler Real.sqrt 0.001)^[n] (orbitPair u)) q v ∧
      1 / 8 * (1 + n * (1 / 10 ^ 7)) ≤ relAngular q v ^ 2 ∧
      relEnergy Real.sqrt q v ≤ -(1 / 2) + n * (25 / 10 ^ 6) := by
  induction n with
  | zero =>
    obtain ⟨h1, h2⟩ := orbitPair_rel u hu
    refine ⟨_, _, symmetric_orbitPair u, ?_, ?_⟩
    · rw [h1]
      norm_num
    · rw [h2]
      norm_num
  | succ n ih =>
    obtain ⟨q, v, hs, hl, hE⟩ := ih (by omega)
    have hn2 : (n : ℝ) ≤ 9999 := by exact_mod_cast (by omega : n ≤ 9999)
    have hn0 : (0 : ℝ) ≤ n := Nat.cast_nonneg n
    have hl2 : 1 / 8 ≤ relAngular q v ^ 2 := by linarith
    have hE2 : relEnergy Real.sqrt q v ≤ -(1 / 4) := by linarith
    obtain ⟨k1, k2⟩ := euler_rel_step q v hl2 hE2
    have hdt : (0.001 : ℝ) = 1 / 1000 := by norm_num
    refine ⟨eulerRelPos 0.001 q v, eulerRelVel Real.sqrt 0.001 q v, ?_, ?_, ?_⟩
    · rw [Function.iterate_succ_apply']
      exact symmetric_stepEuler _ q v 0.001 hs
    · rw [hdt]
      refine le_trans ?_ k1
      have h4 := mul_le_mul_of_nonneg_right hl (by norm_num : (0 : ℝ) ≤ 1 + 1 / 10 ^ 7)
      push_cast
      nlinarith
    · rw [hdt]
      push_cast
      linarith

/-- C27: in the real-number model, for the two-body system with `G = 1`,
`eps2 = 0`, masses 1 at `(-0.5, 0)` and `(0.5, 0)` and the velocities
`(0, -u)`, `(0, u)` of the circular orbit (`u^2 = 1/2`), the initial energy is
`-1/2`, after each of the first 10,000 iterations of `stepVerlet(0.001)` the
value of `totalEnergy` differs from the initial one by less than 1% of its
magnitude, and after 10,000 iterations of `stepEuler(0.001)` it differs from the
initial one by strictly more than after the 10,000 Verlet iterations. -/
theorem verlet_drift_below_euler (u : ℝ) (hu : u ^ 2 = 1 / 2) :
    (orbitPair u).totalEnergy Real.sqrt = -(1 / 2) ∧
    (∀ n, n ≤ 10000 →
      |((NBodySystem2D.stepVerlet Real.sqrt 0.001)^[n] (orbitPair u)).totalEnergy Real.sqrt -
          (orbitPair u).totalEnergy Real.sqrt| <
        0.01 * |(orbitPair u).totalEnergy Real.sqrt|) ∧
    |((NBodySystem2D.stepVerlet Real.sqrt 0.001)^[10000] (orbitPair u)).totalEnergy Real.sqrt -
        (orbitPair u).totalEnergy Real.sqrt| <
      |((NBodySystem2D.stepEuler Real.sqrt 0.001)^[10000] (orbitPair u)).totalEnergy Real.sqrt -
        (orbitPair u).totalEnergy Real.sqrt| := by
  have h0 : (orbitPair u).totalEnergy Real.sqrt = -(1 / 2) := by
    rw [symmetric_energy _ _ _ (symmetric_orbitPair u)]
    exact (orbitPair_rel u hu).2
  have hV : ∀ n, n ≤ 10000 →
      |((NBodySystem2D.stepVerlet Real.sqrt 0.001)^[n] (orbitPair u)).totalEnergy Real.sqrt -
          -(1 / 2)| ≤ 2 / 10 ^ 4 := by
    intro n hn
    obtain ⟨q, v, hs, _, hE⟩ := verlet_run u hu n hn
    rw [symmetric_energy _ q v hs, sub_neg_eq_add]
    have hn2 : (n : ℝ) ≤ 10000 := by exact_mod_cast hn
    linarith
  rw [h0]
  refine ⟨rfl, fun n hn => lt_of_le_of_lt (hV n hn) (by norm_num [abs_of_pos]), ?_⟩
  refine lt_of_le_of_lt (hV 10000 (le_refl _)) ?_
  obtain ⟨q, v, hs, hl, _⟩ := euler_run u hu 10000 (le_refl _)
  rw [symmetric_energy _ q v hs]
  have hl2 : (1001 : ℝ) / 8000 ≤ relAngular q v ^ 2 := by
    refine le_trans ?_ hl
    norm_num
  have hpos : 0 < relAngular q v ^ 2 := by linarith
  have h1 := rel_energy_lower q v hpos
  have h2 : 1 / (16 * relAngular q v ^ 2) ≤ 1 / (16 * (1001 / 8000)) :=
    one_div_le_one_div_of_le (by norm_num) (by linarith)
  have h3 : (1 : ℝ) / (16 * (1001 / 8000)) = 500 / 1001 := by norm_num
  rw [h3] at h2
  refine lt_of_lt_of_le ?_ (le_abs_self _)
  have h4 : (2 : ℝ) / 10 ^ 4 < 1 / 2 - 500 / 1001 := by norm_num
  linarith

/-- C27, witness: the speed `sqrt (1/2)`. -/
theorem verlet_drift_below_euler_witness :
    Real.sqrt (1 / 2) ^ 2 = 1 / 2 ∧
    (orbitPair (Real.sqrt (1 / 2))).totalEnergy Real.sqrt = -(1 / 2) ∧
    (∀ n, n ≤ 10000 →
      |((NBodySystem2D.stepVerlet Real.sqrt 0.001)^[n]
            (orbitPair (Real.sqrt (1 / 2)))).totalEnergy Real.sqrt -
          (orbitPair (Real.sqrt (1 / 2))).totalEnergy Real.sqrt| <
        0.01 * |(orbitPair (Real.sqrt (1 / 2))).totalEnergy Real.sqrt|) ∧
    |((NBodySystem2D.stepVerlet Real.sqrt 0.001)^[10000]
          (orbitPair (Real.sqrt (1 / 2)))).totalEnergy Real.sqrt -
        (orbitPair (Real.sqrt (1 / 2))).totalEnergy Real.sqrt| <
      |((NBodySystem2D.stepEuler Real.sqrt 0.001)^[10000]
          (orbitPair (Real.sqrt (1 / 2)))).totalEnergy Real.sqrt -
        (orbitPair (Real.sqrt (1 / 2))).totalEnergy Real.sqrt| :=
  ⟨Real.sq_sqrt (by norm_num),
    verlet_drift_below_euler (Real.sqrt (1 / 2)) (Real.sq_sqrt (by norm_num))⟩

end Orbit

end NBody
